import Mathlib

/-!
Verification model of the GROMACS topology reader plugin
(`src/GromacsTopReader/grotopplugin.c`).

The C code is shallowly embedded: lines of the input files are Lean
`String`s (one `String` per `fgets` line, modelled without the 512-byte
truncation, which no claim touches), `float` values are modelled as `ℚ`
(the code never computes with masses or charges, it only stores them and
compares against `0`), and the `sscanf` conversions `%s`/`%d`/`%f` are
modelled as prefix scanners over `List Char` with C semantics
(leading-whitespace skip, width limits that can split a token, longest
valid numeric prefix; `%f` is modelled for decimal forms, the hex/inf/nan
forms no topology file uses).  Fatal errors (`return 0` / `NULL` handles)
are modelled with `Option`.
-/

namespace Grotop

/-- C `isspace` for the default locale. -/
def isCSpace (c : Char) : Bool :=
  c == ' ' || c == '\t' || c == '\n' || c == '\r' || c.toNat == 11 || c.toNat == 12

/-- Everything from the first ';' on is dropped (`strip_comments`, first step). -/
def dropComment : List Char → List Char
  | [] => []
  | c :: cs => if c = ';' then [] else c :: dropComment cs

/-- Trim trailing C whitespace. -/
def trimTrail (cs : List Char) : List Char :=
  ((cs.reverse).dropWhile isCSpace).reverse

/-- Trim leading C whitespace. -/
def trimLead (cs : List Char) : List Char :=
  cs.dropWhile isCSpace

/-- Model of `strip_comments`: drop the comment, trim trailing then leading whitespace. -/
def stripComments (s : String) : String :=
  ⟨trimLead (trimTrail (dropComment s.data))⟩

/-- Model of `is_section_header`: leading whitespace, `[`, a name of 1..63
characters up to `]`, whitespace-trimmed; anything after `]` is ignored,
exactly as in the C code. -/
def sectionNameOf (s : String) : Option String :=
  match trimLead s.data with
  | '[' :: rest =>
    let name := rest.takeWhile (· ≠ ']')
    match rest.dropWhile (· ≠ ']') with
    | ']' :: _ =>
      if name.length = 0 ∨ 64 ≤ name.length then none
      else some ⟨trimTrail (trimLead name)⟩
    | _ => none
  | _ => none

/-- Model of `is_preprocessor_directive`: first non-whitespace character is `#`. -/
def isDirective (s : String) : Bool :=
  match trimLead s.data with
  | '#' :: _ => true
  | _ => false

/-- C `strncmp (p, pfx, |pfx|) == 0`. -/
def hasPfx : List Char → List Char → Bool
  | [], _ => true
  | _ :: _, [] => false
  | a :: as, b :: bs => a == b && hasPfx as bs

/-- Extract a `#define`/`#ifdef` style symbol: the next whitespace-delimited
run, required to have length 1..63 (the C code rejects length 0 and ≥ 64). -/
def extractSym (cs : List Char) : Option String :=
  let q := trimLead cs
  let sym := q.takeWhile (fun c => ¬ isCSpace c)
  if sym.length = 0 ∨ 64 ≤ sym.length then none else some ⟨sym⟩

/-- Model of `parse_define`: `some sym` when the line is a well-formed
`#define sym`, `none` when the C function returns 0 (and the main loop
falls through to the other cases). -/
def parse_define (s : String) : Option String :=
  let p := trimLead s.data
  if hasPfx ("#define".data) p then extractSym (p.drop 7) else none

/-- Model of `parse_ifdef`: `some (sym, isIfndef)`. `#ifdef` is tested first,
then `#ifndef`, as in the C code. -/
def parse_ifdef (s : String) : Option (String × Bool) :=
  let p := trimLead s.data
  if hasPfx ("#ifdef".data) p then (extractSym (p.drop 6)).map (·, false)
  else if hasPfx ("#ifndef".data) p then (extractSym (p.drop 7)).map (·, true)
  else none

/-- Model of `is_else_directive` (a prefix test, like the C `strncmp`). -/
def isElseDirective (s : String) : Bool :=
  hasPfx ("#else".data) (trimLead s.data)

/-- Model of `is_endif_directive`. -/
def isEndifDirective (s : String) : Bool :=
  hasPfx ("#endif".data) (trimLead s.data)

/-- Model of the filename part of `parse_include`: a quoted (single or
double) filename of length 1..255. -/
def parse_include (s : String) : Option String :=
  let p := trimLead s.data
  if hasPfx ("#include".data) p then
    match trimLead (p.drop 8) with
    | c :: rest =>
      if c = '"' ∨ c = '\'' then
        let fn := rest.takeWhile (· ≠ c)
        match rest.dropWhile (· ≠ c) with
        | _ :: _ => if fn.length = 0 ∨ 256 ≤ fn.length then none else some ⟨fn⟩
        | [] => none
      else none
    | [] => none
  else none

/-- Path resolution of `parse_include`: everything up to and including the
last `/` of the including file's path, then the filename; just the filename
when the including path has no `/`. -/
def joinPath (base fn : String) : String :=
  let rev := base.data.reverse
  if rev.contains '/' then ⟨(rev.dropWhile (· ≠ '/')).reverse ++ fn.data⟩ else fn

/-! ### `sscanf` conversion primitives -/

/-- `%Ns`: skip whitespace, then take up to `max` characters of the
non-whitespace run (a longer token is split, as in C). Fails when no
non-whitespace character follows. -/
def scanTok (max : Nat) (cs : List Char) : Option (String × List Char) :=
  let cs := trimLead cs
  let t := (cs.takeWhile (fun c => ¬ isCSpace c)).take max
  if t.length = 0 then none else some (⟨t⟩, cs.drop t.length)

/-- `%*s` / `%s` with no width: the whole non-whitespace run. -/
def scanTokU (cs : List Char) : Option (String × List Char) :=
  let cs := trimLead cs
  let t := cs.takeWhile (fun c => ¬ isCSpace c)
  if t.length = 0 then none else some (⟨t⟩, cs.drop t.length)

/-- Optional sign, consumed if present. -/
def scanSign : List Char → (Int × List Char)
  | '-' :: r => (-1, r)
  | '+' :: r => (1, r)
  | cs => (1, cs)

def digitsToNat (ds : List Char) : Nat :=
  ds.foldl (fun a c => 10 * a + (c.toNat - 48)) 0

/-- `%d`: whitespace skip, optional sign, longest digit run (at least one). -/
def scanInt (cs0 : List Char) : Option (Int × List Char) :=
  let cs := trimLead cs0
  let (sg, cs1) := scanSign cs
  let ds := cs1.takeWhile Char.isDigit
  if ds.length = 0 then none
  else some (sg * (digitsToNat ds : Int), cs1.drop ds.length)

/-- Exponent part of `%f`: consumed only when a well-formed `[eE][+-]?digits`
follows (otherwise the longest valid prefix stops before the `e`). -/
def scanExp (cs : List Char) : Int × List Char :=
  match cs with
  | c :: r =>
    if c = 'e' ∨ c = 'E' then
      let (sg, r1) := scanSign r
      let ds := r1.takeWhile Char.isDigit
      if ds.length = 0 then (0, cs) else (sg * (digitsToNat ds : Int), r1.drop ds.length)
    else (0, cs)
  | [] => (0, cs)

/-- Fractional part of `%f`: a `.` followed by the longest digit run. -/
def scanFrac : List Char → Bool × List Char × List Char
  | '.' :: r => (true, r.takeWhile Char.isDigit, r.dropWhile Char.isDigit)
  | cs => (false, [], cs)

/-- `%f`, decimal forms: sign, digits with optional fraction (at least one
digit overall), optional exponent; value as an exact rational. -/
def scanFloat (cs0 : List Char) : Option (ℚ × List Char) :=
  let cs := trimLead cs0
  let (sg, cs1) := scanSign cs
  let ip := cs1.takeWhile Char.isDigit
  let cs2 := cs1.drop ip.length
  let (hasDot, fp, cs3) := scanFrac cs2
  if ip.length = 0 ∧ (¬ hasDot ∨ fp.length = 0) then none
  else
    let (ex, cs4) := scanExp cs3
    let mant : Int := sg * (digitsToNat (ip ++ fp) : Int)
    let v : ℚ :=
      if 0 ≤ ex then mkRat (mant * (10 : Int) ^ ex.toNat) ((10 : Nat) ^ fp.length)
      else mkRat mant ((10 : Nat) ^ (fp.length + (-ex).toNat))
    some (v, cs4)

/-! ### Data model (`atom_data_t`, `bond_data_t`, …, `grotop_data`) -/

/-- `atom_data_t`. -/
structure AtomData where
  id : Int
  atom_type : String
  resnr : Int
  residue : String
  atom_name : String
  cgnr : Int
  charge : ℚ
  mass : ℚ
deriving DecidableEq, Repr

/-- `bond_data_t`. -/
structure BondData where
  ai : Int
  aj : Int
deriving DecidableEq, Repr

/-- `angle_data_t`. -/
structure AngleData where
  ai : Int
  aj : Int
  ak : Int
deriving DecidableEq, Repr

/-- `dihedral_data_t`. -/
structure DihedralData where
  ai : Int
  aj : Int
  ak : Int
  al : Int
  funct : Int
deriving DecidableEq, Repr

/-- `atomtype_t`. -/
structure AtomType where
  name : String
  mass : ℚ
deriving DecidableEq, Repr

/-- `moltype_t` (the `*_allocated` bookkeeping has no observable effect and
is dropped; the arrays grow on demand in the C code). -/
structure Moltype where
  name : String
  nrexcl : Int
  atoms : List AtomData
  bonds : List BondData
  angles : List AngleData
  dihedrals : List DihedralData
deriving DecidableEq, Repr

/-- `grotop_data` (the parse-state part: molecule types, atom types, the
`[molecules]` roster as (name, count) pairs, and the define set). -/
structure GrotopData where
  moltypes : List Moltype
  atomtypes : List AtomType
  molecules : List (String × Int)
  defines : List String
deriving DecidableEq, Repr

def emptyData : GrotopData := ⟨[], [], [], []⟩

def MAX_MOLTYPES : Nat := 500
def MAX_MOLECULES : Nat := 1000
def MAX_ATOMTYPES : Nat := 1000
def MAX_DEFINES : Nat := 100
def MAX_IFDEF_DEPTH : Nat := 20
def MAX_INCLUDES : Nat := 100

/-- Model of `is_defined`. -/
def is_defined (data : GrotopData) (sym : String) : Bool :=
  data.defines.contains sym

/-- Model of `add_define`: dropped with a warning when the table is full,
silent no-op when already present, appended otherwise. -/
def add_define (data : GrotopData) (sym : String) : GrotopData :=
  if MAX_DEFINES ≤ data.defines.length then data
  else if is_defined data sym then data
  else { data with defines := data.defines ++ [sym] }

/-- Model of `find_moltype`: first molecule type with the given name. -/
def find_moltype (data : GrotopData) (name : String) : Option Moltype :=
  data.moltypes.find? (fun mt => mt.name = name)

/-- Model of `find_atomtype_mass`: first matching atom type's mass, `0` when
the type is absent. -/
def find_atomtype_mass (data : GrotopData) (ty : String) : ℚ :=
  match data.atomtypes.find? (fun t => t.name = ty) with
  | some t => t.mass
  | none => 0

/-! ### Per-section record parsers (one stripped line each) -/

/-- An `[atomtypes]` line: MARTINI `sscanf("%15s %f")` first, then the
GROMACS full form `sscanf("%15s %*s %*s %f")`. -/
def parseAtomtypeLine (s : String) : Option AtomType :=
  match scanTok 15 s.data with
  | none => none
  | some (name, r) =>
    match scanFloat r with
    | some (m, _) => some ⟨name, m⟩
    | none =>
      match scanTokU r with
      | none => none
      | some (_, r2) =>
        match scanTokU r2 with
        | none => none
        | some (_, r3) =>
          match scanFloat r3 with
          | some (m, _) => some ⟨name, m⟩
          | none => none

/-- The `name nrexcl` record of a `[moleculetype]` section:
`sscanf("%31s %d") >= 1`, `nrexcl` defaulting to 3. -/
def parseMtNameLine (s : String) : Option (String × Int) :=
  match scanTok 31 s.data with
  | none => none
  | some (name, r) =>
    match scanInt r with
    | some (n, _) => some (name, n)
    | none => some (name, 3)

/-- An `[atoms]` line: `sscanf("%d %15s %d %7s %15s %d %f %f") >= 7`; the
record was zeroed first, so a missing 8th field leaves `mass = 0`. -/
def parseAtomLine (s : String) : Option AtomData :=
  match scanInt s.data with
  | none => none
  | some (id, r1) =>
  match scanTok 15 r1 with
  | none => none
  | some (ty, r2) =>
  match scanInt r2 with
  | none => none
  | some (resnr, r3) =>
  match scanTok 7 r3 with
  | none => none
  | some (res, r4) =>
  match scanTok 15 r4 with
  | none => none
  | some (an, r5) =>
  match scanInt r5 with
  | none => none
  | some (cg, r6) =>
  match scanFloat r6 with
  | none => none
  | some (ch, r7) =>
    let m : ℚ := match scanFloat r7 with | some (m, _) => m | none => 0
    some ⟨id, ty, resnr, res, an, cg, ch, m⟩

/-- A `[bonds]` or `[constraints]` line: `sscanf("%d %d") == 2`. -/
def parseBondLine (s : String) : Option BondData :=
  match scanInt s.data with
  | none => none
  | some (ai, r1) =>
  match scanInt r1 with
  | none => none
  | some (aj, _) => some ⟨ai, aj⟩

/-- An `[angles]` line: `sscanf("%d %d %d") == 3`. -/
def parseAngleLine (s : String) : Option AngleData :=
  match scanInt s.data with
  | none => none
  | some (ai, r1) =>
  match scanInt r1 with
  | none => none
  | some (aj, r2) =>
  match scanInt r2 with
  | none => none
  | some (ak, _) => some ⟨ai, aj, ak⟩

/-- A `[dihedrals]` line: `sscanf("%d %d %d %d %d") >= 4`, `funct`
defaulting to 0 when the 5th integer is absent. -/
def parseDihedralLine (s : String) : Option DihedralData :=
  match scanInt s.data with
  | none => none
  | some (ai, r1) =>
  match scanInt r1 with
  | none => none
  | some (aj, r2) =>
  match scanInt r2 with
  | none => none
  | some (ak, r3) =>
  match scanInt r3 with
  | none => none
  | some (al, r4) =>
    let f : Int := match scanInt r4 with | some (f, _) => f | none => 0
    some ⟨ai, aj, ak, al, f⟩

/-- A `[molecules]` line: `sscanf("%31s %d") == 2`. -/
def parseMoleculesLine (s : String) : Option (String × Int) :=
  match scanTok 31 s.data with
  | none => none
  | some (name, r) =>
    match scanInt r with
    | some (n, _) => some (name, n)
    | none => none

/-! ### Section scanning

Every record parser of the C code (`parse_atomtypes_section`,
`parse_atoms_section`, `parse_bonds_section`, `parse_constraints_section`,
`parse_angles_section`, `parse_dihedrals_section`, `parse_molecules_section`
and the skip loop of `process_section`) shares one skeleton: save the file
position, read a line, stop *before* a raw preprocessor directive, strip
comments, skip empty lines, stop *before* a section header, otherwise feed
the stripped line to the per-section record step.  `scanSection` is that
skeleton; stopping "before" a line is returning it unconsumed (the C code
does `fseek` back). -/

def scanSection (step : String → α → α) : List String → α → α × List String
  | [], a => (a, [])
  | l :: rest, a =>
    if isDirective l then (a, l :: rest)
    else
      let s := stripComments l
      if s.data.length = 0 then scanSection step rest a
      else
        match sectionNameOf s with
        | some _ => (a, l :: rest)
        | none => scanSection step rest (step s a)

/-- Record step of `parse_atomtypes_section`: parsed lines are stored while
the table is below `MAX_ATOMTYPES`, silently dropped at capacity. -/
def atomtypeStep (s : String) (data : GrotopData) : GrotopData :=
  match parseAtomtypeLine s with
  | some t =>
    if data.atomtypes.length < MAX_ATOMTYPES then
      { data with atomtypes := data.atomtypes ++ [t] }
    else data
  | none => data

/-- Record step of `parse_atoms_section`. -/
def atomStep (s : String) (mt : Moltype) : Moltype :=
  match parseAtomLine s with
  | some a => { mt with atoms := mt.atoms ++ [a] }
  | none => mt

/-- Record step of `parse_bonds_section` and `parse_constraints_section`
(constraints are appended to the same bond list). -/
def bondStep (s : String) (mt : Moltype) : Moltype :=
  match parseBondLine s with
  | some b => { mt with bonds := mt.bonds ++ [b] }
  | none => mt

/-- Record step of `parse_angles_section`. -/
def angleStep (s : String) (mt : Moltype) : Moltype :=
  match parseAngleLine s with
  | some a => { mt with angles := mt.angles ++ [a] }
  | none => mt

/-- Record step of `parse_dihedrals_section`. -/
def dihedralStep (s : String) (mt : Moltype) : Moltype :=
  match parseDihedralLine s with
  | some d => { mt with dihedrals := mt.dihedrals ++ [d] }
  | none => mt

/-- Record step of `parse_molecules_section`: roster entries are appended
while below `MAX_MOLECULES`. -/
def moleculesStep (s : String) (data : GrotopData) : GrotopData :=
  match parseMoleculesLine s with
  | some e =>
    if data.molecules.length < MAX_MOLECULES then
      { data with molecules := data.molecules ++ [e] }
    else data
  | none => data

/-- Model of `parse_moleculetype_header`: consume lines until the first
non-empty one; a section header there is failure (the header line is
consumed, but that path is fatal anyway); otherwise the line is parsed as
`name nrexcl`.  Note that this loop does *not* test for preprocessor
directives, faithful to the C code. -/
def parseMtHeader : List String → Option (String × Int) × List String
  | [] => (none, [])
  | l :: rest =>
    let s := stripComments l
    if s.data.length = 0 then parseMtHeader rest
    else
      match sectionNameOf s with
      | some _ => (none, rest)
      | none =>
        match parseMtNameLine s with
        | some r => (some r, rest)
        | none => parseMtHeader rest

def updMt (data : GrotopData) (i : Nat) (mt : Moltype) : GrotopData :=
  { data with moltypes := data.moltypes.set i mt }

/-- Sections that `process_section` consumes and discards. -/
def skipSections : List String :=
  ["system", "defaults", "pairs", "exclusions", "settles", "position_restraints"]

/-- Shared shape of the `atoms`/`bonds`/`constraints`/`angles`/`dihedrals`
branches of `process_section`: with no current molecule type the branch
condition fails and `process_section` returns 1 consuming nothing. -/
def secOnMt (step : String → Moltype → Moltype) (data : GrotopData) (cur : Option Nat)
    (lines : List String) : GrotopData × Option Nat × List String :=
  match cur with
  | none => (data, cur, lines)
  | some i =>
    match data.moltypes.get? i with
    | none => (data, cur, lines)
    | some mt =>
      let (mt', r) := scanSection step lines mt
      (updMt data i mt', cur, r)

/-- Model of `process_section`.  `none` is the C `return 0` (fatal): it
happens only in the `moleculetype` branch, on a failed header parse or on
table overflow (the overflow prints a warning but still returns 0). -/
def process_section (sec : String) (data : GrotopData) (cur : Option Nat)
    (lines : List String) : Option (GrotopData × Option Nat × List String) :=
  if sec = "atomtypes" then
    let (d, r) := scanSection atomtypeStep lines data
    some (d, cur, r)
  else if sec = "moleculetype" then
    match parseMtHeader lines with
    | (none, _) => none
    | (some (nm, nr), r) =>
      if data.moltypes.length < MAX_MOLTYPES then
        some ({ data with moltypes := data.moltypes ++ [⟨nm, nr, [], [], [], []⟩] },
              some data.moltypes.length, r)
      else none
  else if sec = "atoms" then some (secOnMt atomStep data cur lines)
  else if sec = "bonds" then some (secOnMt bondStep data cur lines)
  else if sec = "constraints" then some (secOnMt bondStep data cur lines)
  else if sec = "angles" then some (secOnMt angleStep data cur lines)
  else if sec = "dihedrals" then some (secOnMt dihedralStep data cur lines)
  else if sec = "molecules" then
    let (d, r) := scanSection moleculesStep lines data
    some (d, cur, r)
  else if skipSections.contains sec then
    some (data, cur, (scanSection (fun _ a => a) lines ()).2)
  else some (data, cur, lines)

theorem scanSection_length_le (step : String → α → α) (ls : List String) (a : α) :
    (scanSection step ls a).2.length ≤ ls.length := by
  induction ls generalizing a with
  | nil => simp [scanSection]
  | cons l rest ih =>
    simp only [scanSection]
    split
    · simp
    · split
      · exact le_trans (ih a) (Nat.le_succ _)
      · split
        · simp
        · exact le_trans (ih _) (Nat.le_succ _)

theorem parseMtHeader_length_le (ls : List String) :
    (parseMtHeader ls).2.length ≤ ls.length := by
  induction ls with
  | nil => simp [parseMtHeader]
  | cons l rest ih =>
    simp only [parseMtHeader]
    split
    · exact le_trans ih (Nat.le_succ _)
    · split
      · simp
      · split
        · simp
        · exact le_trans ih (Nat.le_succ _)

theorem secOnMt_length_le (step : String → Moltype → Moltype) (data : GrotopData)
    (cur : Option Nat) (ls : List String) :
    (secOnMt step data cur ls).2.2.length ≤ ls.length := by
  unfold secOnMt
  rcases cur with _ | i
  · simp
  · simp only
    rcases h : data.moltypes.get? i with _ | mt
    · simp
    · simpa using scanSection_length_le step ls mt

theorem process_section_length_le {sec : String} {data : GrotopData} {cur : Option Nat}
    {ls : List String} {data' : GrotopData} {cur' : Option Nat} {r : List String}
    (h : process_section sec data cur ls = some (data', cur', r)) :
    r.length ≤ ls.length := by
  unfold process_section at h
  split at h
  · simp only [Option.some.injEq, Prod.mk.injEq] at h
    obtain ⟨-, -, h3⟩ := h
    rw [← h3]
    exact scanSection_length_le atomtypeStep ls data
  · split at h
    · split at h
      · exact absurd h (by simp)
      · rename_i heq
        split at h
        · simp only [Option.some.injEq, Prod.mk.injEq] at h
          obtain ⟨-, -, h3⟩ := h
          rw [← h3]
          have := parseMtHeader_length_le ls
          rw [heq] at this
          simpa using this
        · exact absurd h (by simp)
    · split at h
      · simp only [Option.some.injEq] at h
        have := secOnMt_length_le atomStep data cur ls
        rw [h] at this
        simpa using this
      · split at h
        · simp only [Option.some.injEq] at h
          have := secOnMt_length_le bondStep data cur ls
          rw [h] at this
          simpa using this
        · split at h
          · simp only [Option.some.injEq] at h
            have := secOnMt_length_le bondStep data cur ls
            rw [h] at this
            simpa using this
          · split at h
            · simp only [Option.some.injEq] at h
              have := secOnMt_length_le angleStep data cur ls
              rw [h] at this
              simpa using this
            · split at h
              · simp only [Option.some.injEq] at h
                have := secOnMt_length_le dihedralStep data cur ls
                rw [h] at this
                simpa using this
              · split at h
                · simp only [Option.some.injEq, Prod.mk.injEq] at h
                  obtain ⟨-, -, h3⟩ := h
                  rw [← h3]
                  exact scanSection_length_le moleculesStep ls data
                · split at h
                  · simp only [Option.some.injEq, Prod.mk.injEq] at h
                    obtain ⟨-, -, h3⟩ := h
                    rw [← h3]
                    exact scanSection_length_le (fun _ a => a) ls ()
                  · simp only [Option.some.injEq, Prod.mk.injEq] at h
                    obtain ⟨-, -, h3⟩ := h
                    rw [← h3]

/-! ### The main line loop of `parse_topology_file`

The filesystem is a finite map from paths to line lists.  The loop state is
the per-file locals of `parse_topology_file`: `current_mt` (an index into
`data.moltypes`, since the C pointer always points into that array),
`current_section`, and the `ifdef` stack (head = top of stack).  Branches
follow the C order exactly: `#define`, `#ifdef`/`#ifndef`, `#else`,
`#endif` (each followed by section re-entry when a section is current),
then the conditional-stack activity test, then `#include`, comment
stripping, and section headers.

The C loop terminates because every iteration consumes at least one line
and the include depth is bounded; to keep the Lean model kernel-computable
it is written with a fuel parameter that every recursive call decrements,
and `parseLoopF_adequate` proves the C termination argument: with the
fuel budget `adequateFuel` the loop never runs out, so the fuel is pure
bookkeeping.  `PRes.fatal` is the C `return 0`; `PRes.ok` returns the
final per-file locals together with the shared parse state. -/

def lookupFile (fs : List (String × List String)) (p : String) : Option (List String) :=
  match fs.find? (fun e => e.1 = p) with
  | some e => some e.2
  | none => none

inductive PRes where
  | fatal : PRes
  | ok : GrotopData → Option Nat → String → List Bool → PRes
  | out : PRes
deriving DecidableEq, Repr

def parseLoopF (fs : List (String × List String)) :
    Nat → Nat → String → GrotopData → Option Nat → String → List Bool → List String → PRes
  | 0, _, _, _, _, _, _, _ => .out
  | _ + 1, _depth, _path, data, cur, sec, stack, [] => .ok data cur sec stack
  | fuel + 1, depth, path, data, cur, sec, stack, l :: rest =>
    match parse_define l with
    | some sym =>
      if sec = "" then parseLoopF fs fuel depth path (add_define data sym) cur sec stack rest
      else
        match process_section sec (add_define data sym) cur rest with
        | none => .fatal
        | some (d, c, r) => parseLoopF fs fuel depth path d c sec stack r
    | none =>
    match parse_ifdef l with
    | some (sym, ndef) =>
      if MAX_IFDEF_DEPTH ≤ stack.length then .fatal
      else
        if sec = "" then
          parseLoopF fs fuel depth path data cur sec
            ((if ndef then ! is_defined data sym else is_defined data sym) :: stack) rest
        else
          match process_section sec data cur rest with
          | none => .fatal
          | some (d, c, r) =>
            parseLoopF fs fuel depth path d c sec
              ((if ndef then ! is_defined data sym else is_defined data sym) :: stack) r
    | none =>
    if isElseDirective l then
      if stack.isEmpty then .fatal
      else
        if sec = "" then
          parseLoopF fs fuel depth path data cur sec ((! stack.headD false) :: stack.tail) rest
        else
          match process_section sec data cur rest with
          | none => .fatal
          | some (d, c, r) =>
            parseLoopF fs fuel depth path d c sec ((! stack.headD false) :: stack.tail) r
    else if isEndifDirective l then
      if stack.isEmpty then .fatal
      else
        if sec = "" then parseLoopF fs fuel depth path data cur sec stack.tail rest
        else
          match process_section sec data cur rest with
          | none => .fatal
          | some (d, c, r) => parseLoopF fs fuel depth path d c sec stack.tail r
    else if stack.all (fun b => b) then
      match parse_include l with
      | some fn =>
        if MAX_INCLUDES < depth + 1 then .fatal
        else
          match lookupFile fs (joinPath path fn) with
          | none => .fatal
          | some ls =>
            match parseLoopF fs fuel (depth + 1) (joinPath path fn) data none "" [] ls with
            | .out => .out
            | .fatal => .fatal
            | .ok d _ _ _ => parseLoopF fs fuel depth path d cur sec stack rest
      | none =>
        if (stripComments l).data.length = 0 then parseLoopF fs fuel depth path data cur sec stack rest
        else
          match sectionNameOf (stripComments l) with
          | some nm =>
            match process_section nm data cur rest with
            | none => .fatal
            | some (d, c, r) => parseLoopF fs fuel depth path d c nm stack r
          | none => parseLoopF fs fuel depth path data cur sec stack rest
    else
      parseLoopF fs fuel depth path data cur sec stack rest


/-- Fuel is irrelevant once sufficient: a run that did not exhaust its fuel
gives the same result with one more unit. -/
theorem parseLoopF_succ (fs : List (String × List String)) :
    ∀ fuel depth path data cur sec stack lines,
      parseLoopF fs fuel depth path data cur sec stack lines ≠ .out →
      parseLoopF fs (fuel + 1) depth path data cur sec stack lines =
        parseLoopF fs fuel depth path data cur sec stack lines := by
  intro fuel
  induction fuel with
  | zero => intro _ _ _ _ _ _ lines h; exact absurd rfl h
  | succ fuel ih =>
    intro depth path data cur sec stack lines h
    cases lines with
    | nil => rfl
    | cons l rest =>
      rw [parseLoopF.eq_3] at h
      rw [parseLoopF.eq_3, parseLoopF.eq_3]
      repeat' split at h
      all_goals try subst_vars
      all_goals first
      | rfl
      | (exact absurd rfl h)
      | (revert ih
         simp only [*, ite_true, ite_false]
         all_goals (intro ih
                    first
                    | rfl
                    | trivial
                    | exact ih _ _ _ _ _ _ _ h))
      | (rename_i d0 c0 s0 k0 hrec
         have hinner := ih _ _ _ _ _ _ _ (by rw [hrec]; exact fun hc => PRes.noConfusion hc)
         rw [hrec] at hinner
         revert ih
         simp only [*, ite_true, ite_false, hinner]
         all_goals (intro ih
                    first
                    | rfl
                    | trivial
                    | exact ih _ _ _ _ _ _ _ h))

/-- Fuel monotonicity, the ≤ form of `parseLoopF_succ`. -/
theorem parseLoopF_mono (fs : List (String × List String)) {fuel fuel' : Nat}
    (hle : fuel ≤ fuel') (depth : Nat) (path : String) (data : GrotopData)
    (cur : Option Nat) (sec : String) (stack : List Bool) (lines : List String)
    (h : parseLoopF fs fuel depth path data cur sec stack lines ≠ .out) :
    parseLoopF fs fuel' depth path data cur sec stack lines =
      parseLoopF fs fuel depth path data cur sec stack lines := by
  induction fuel' with
  | zero =>
    have h0 : fuel = 0 := Nat.le_zero.mp hle
    rw [h0]
  | succ n ih =>
    rcases Nat.lt_or_ge fuel (n + 1) with hlt | hge
    · have h1 := ih (Nat.lt_succ_iff.mp hlt)
      rw [← h1] at h ⊢
      exact parseLoopF_succ fs n depth path data cur sec stack lines h
    · have h2 : fuel = n + 1 := Nat.le_antisymm hle hge
      rw [h2]

/-- Determinism across fuels: two non-exhausted runs agree. -/
theorem parseLoopF_det (fs : List (String × List String)) {fuel fuel' : Nat}
    (depth : Nat) (path : String) (data : GrotopData) (cur : Option Nat) (sec : String)
    (stack : List Bool) (lines : List String)
    (h : parseLoopF fs fuel depth path data cur sec stack lines ≠ .out)
    (h' : parseLoopF fs fuel' depth path data cur sec stack lines ≠ .out) :
    parseLoopF fs fuel depth path data cur sec stack lines =
      parseLoopF fs fuel' depth path data cur sec stack lines := by
  rcases Nat.le_total fuel fuel' with hle | hle
  · rw [parseLoopF_mono fs hle depth path data cur sec stack lines h]
  · rw [parseLoopF_mono fs hle depth path data cur sec stack lines h']

/-- Total line count of the filesystem, an upper bound for the length of
any parsed line list. -/
def sumLen (fs : List (String × List String)) : Nat :=
  (fs.map (fun e => e.2.length)).sum

def adequateFuel (fs : List (String × List String)) (depth n : Nat) : Nat :=
  (MAX_INCLUDES + 2 - depth) * (sumLen fs + 1) + n + 1

theorem lookupFile_length_le {fs : List (String × List String)} {p : String}
    {ls : List String} (h : lookupFile fs p = some ls) : ls.length ≤ sumLen fs := by
  unfold lookupFile at h
  cases hf : fs.find? (fun e => e.1 = p) with
  | none => rw [hf] at h; exact absurd h (by simp)
  | some e =>
    rw [hf] at h
    simp only [Option.some.injEq] at h
    have hm : e ∈ fs := List.mem_of_find?_eq_some hf
    rw [← h]
    unfold sumLen
    exact List.single_le_sum (fun x _ => Nat.zero_le x) _ (List.mem_map_of_mem _ hm)

theorem parseLoopF_adequate (fs : List (String × List String)) :
    ∀ fuel depth path data cur sec stack lines,
      lines.length ≤ sumLen fs →
      adequateFuel fs depth lines.length ≤ fuel →
      parseLoopF fs fuel depth path data cur sec stack lines ≠ .out := by
  intro fuel
  induction fuel with
  | zero =>
    intro depth path data cur sec stack lines _ hf
    exact absurd hf (by simp [adequateFuel])
  | succ fuel ih =>
    intro depth path data cur sec stack lines hlen hf
    have hstep : ∀ (n : Nat), n + 1 ≤ lines.length → adequateFuel fs depth n ≤ fuel := by
      intro n hn
      simp only [adequateFuel] at hf ⊢
      omega
    cases lines with
    | nil => rw [parseLoopF.eq_2]; exact fun hc => PRes.noConfusion hc
    | cons l rest =>
      have hr1 : rest.length ≤ sumLen fs := by
        simp only [List.length_cons] at hlen; omega
      have hfr : adequateFuel fs depth rest.length ≤ fuel :=
        hstep rest.length (by simp only [List.length_cons]; omega)
      have hIncB : ¬ MAX_INCLUDES < depth + 1 →
          ∀ (L : List String), L.length ≤ sumLen fs →
          adequateFuel fs (depth + 1) L.length ≤ fuel := by
        intro hdep L hL
        simp only [adequateFuel, MAX_INCLUDES] at hf hdep ⊢
        simp only [List.length_cons] at hf
        have h2 : depth ≤ 99 := by omega
        have h3 : 102 - depth = (101 - depth) + 1 := by omega
        rw [h3] at hf
        have h4 : 102 - (depth + 1) = 101 - depth := by omega
        rw [h4]
        nlinarith [Nat.zero_le rest.length]
      rw [parseLoopF.eq_3]
      repeat' split
      all_goals first
      | (exact fun hc => PRes.noConfusion hc)
      | (exact ih _ _ _ _ _ _ _ hr1 hfr)
      | (rename_i d0 c0 r0 hp
         have hb := process_section_length_le hp
         exact ih _ _ _ _ _ _ _ (by omega)
           (hstep _ (by simp only [List.length_cons]; omega)))
      | (rename_i d0 c0 r0 hp hnd
         have hb := process_section_length_le hp
         exact ih _ _ _ _ _ _ _ (by omega)
           (hstep _ (by simp only [List.length_cons]; omega)))
      | (rename_i hdep x1 lsv hlk xr hout
         exact absurd hout
           (ih _ _ _ _ _ _ _ (lookupFile_length_le hlk)
             (hIncB hdep _ (lookupFile_length_le hlk))))

/-- Model of `parse_topology_file` (one call frame: depth guard, `fopen`,
then the line loop with fresh per-file locals, run on the adequate fuel
budget — which `parseLoopF_adequate` shows is never exhausted). -/
def parse_topology_file (fs : List (String × List String)) (path : String)
    (data : GrotopData) (depth : Nat) : Option GrotopData :=
  if MAX_INCLUDES < depth then none
  else
    match lookupFile fs path with
    | none => none
    | some ls =>
      match parseLoopF fs (adequateFuel fs depth ls.length) depth path data none "" [] ls with
      | .out => none
      | .fatal => none
      | .ok d _ _ _ => some d

/-! ### Totals and the open call -/

/-- Model of `calculate_total_atoms`: `none` is the C `-1` (a roster entry
whose molecule type is unknown); the sum is otherwise over
`natoms × count`. -/
def calcAtoms (data : GrotopData) : List (String × Int) → Option Int
  | [] => some 0
  | (nm, cnt) :: rest =>
    match find_moltype data nm with
    | none => none
    | some mt =>
      match calcAtoms data rest with
      | none => none
      | some t => some ((mt.atoms.length : Int) * cnt + t)

def calculate_total_atoms (data : GrotopData) : Option Int :=
  calcAtoms data data.molecules

/-- Model of `open_grotop_read`: parse from depth 0, fail on a negative
(or unknown-moltype) atom total, otherwise return the handle data and
`natoms`. -/
def open_grotop_read (fs : List (String × List String)) (path : String) :
    Option (GrotopData × Int) :=
  match parse_topology_file fs path emptyData 0 with
  | none => none
  | some d =>
    match calculate_total_atoms d with
    | none => none
    | some t => if t < 0 then none else some (d, t)

/-! ### The instantiator (`read_grotop_structure`, `read_grotop_bonds`,
`read_grotop_angles`) -/

/-- An emitted `molfile_atom_t` (the fields the plugin fills in). -/
structure MolfileAtom where
  name : String
  type : String
  resname : String
  resid : Int
  segid : String
  chain : String
  charge : ℚ
  mass : ℚ
deriving DecidableEq, Repr

/-- Segment ID: first 4 characters of the moltype name, uppercased. -/
def segidOf (mt : Moltype) : String :=
  ⟨(mt.name.data.take 4).map Char.toUpper⟩

/-- Minimum `resnr` over the moltype's atoms, 1 when there are none. -/
def min_resid (mt : Moltype) : Int :=
  match mt.atoms with
  | [] => 1
  | a :: rest => rest.foldl (fun m x => if x.resnr < m then x.resnr else m) a.resnr

/-- Maximum `resnr` over the moltype's atoms, 1 when there are none. -/
def max_resid (mt : Moltype) : Int :=
  match mt.atoms with
  | [] => 1
  | a :: rest => rest.foldl (fun m x => if m < x.resnr then x.resnr else m) a.resnr

def num_residues (mt : Moltype) : Int := max_resid mt - min_resid mt + 1

/-- One emitted atom: names copied, `resid` shifted, mass back-filled from
the atom-type table when the record's mass is not positive. -/
def emitAtom (data : GrotopData) (mt : Moltype) (residOffset : Int) (a : AtomData) :
    MolfileAtom :=
  { name := a.atom_name, type := a.atom_type, resname := a.residue,
    resid := a.resnr + residOffset, segid := segidOf mt, chain := "",
    charge := a.charge,
    mass := if 0 < a.mass then a.mass else find_atomtype_mass data a.atom_type }

/-- One copy of a moltype: `resid_offset = residue_offset - min_resid + 1`. -/
def emitCopyAtoms (data : GrotopData) (mt : Moltype) (residueOffset : Int) :
    List MolfileAtom :=
  mt.atoms.map (emitAtom data mt (residueOffset - min_resid mt + 1))

/-- `count` copies; each copy advances `residue_offset` by `num_residues`. -/
def emitCopiesAtoms (data : GrotopData) (mt : Moltype) :
    Nat → Int → List MolfileAtom
  | 0, _ => []
  | n + 1, base => emitCopyAtoms data mt base ++ emitCopiesAtoms data mt n (base + num_residues mt)

/-- The roster loop of `read_grotop_structure`; an unresolved moltype is
skipped without advancing the residue offset (`continue`). -/
def structGo (data : GrotopData) : List (String × Int) → Int → List MolfileAtom
  | [], _ => []
  | (nm, cnt) :: rest, base =>
    match find_moltype data nm with
    | none => structGo data rest base
    | some mt =>
      emitCopiesAtoms data mt cnt.toNat base ++
        structGo data rest (base + (cnt.toNat : Int) * num_residues mt)

def read_grotop_structure (data : GrotopData) : List MolfileAtom :=
  structGo data data.molecules 0

/-- One copy's bond pairs, 1-based indices shifted by the global atom
offset before this copy. -/
def emitCopyBonds (mt : Moltype) (off : Int) : List (Int × Int) :=
  mt.bonds.map (fun b => (off + b.ai, off + b.aj))

def emitCopiesBonds (mt : Moltype) : Nat → Int → List (Int × Int)
  | 0, _ => []
  | n + 1, off => emitCopyBonds mt off ++ emitCopiesBonds mt n (off + (mt.atoms.length : Int))

def bondsGo (data : GrotopData) : List (String × Int) → Int → List (Int × Int)
  | [], _ => []
  | (nm, cnt) :: rest, off =>
    match find_moltype data nm with
    | none => bondsGo data rest off
    | some mt =>
      emitCopiesBonds mt cnt.toNat off ++
        bondsGo data rest (off + (cnt.toNat : Int) * mt.atoms.length)

def read_grotop_bonds (data : GrotopData) : List (Int × Int) :=
  bondsGo data data.molecules 0

def emitCopyAngles (mt : Moltype) (off : Int) : List (Int × Int × Int) :=
  mt.angles.map (fun a => (off + a.ai, off + a.aj, off + a.ak))

def emitCopiesAngles (mt : Moltype) : Nat → Int → List (Int × Int × Int)
  | 0, _ => []
  | n + 1, off => emitCopyAngles mt off ++ emitCopiesAngles mt n (off + (mt.atoms.length : Int))

def anglesGo (data : GrotopData) : List (String × Int) → Int → List (Int × Int × Int)
  | [], _ => []
  | (nm, cnt) :: rest, off =>
    match find_moltype data nm with
    | none => anglesGo data rest off
    | some mt =>
      emitCopiesAngles mt cnt.toNat off ++
        anglesGo data rest (off + (cnt.toNat : Int) * mt.atoms.length)

/-- Function types 2 and 4 mark improper dihedrals. -/
def isImproperFunct (f : Int) : Bool := f == 2 || f == 4

/-- One copy's proper dihedrals: records with `funct` 2 or 4 are skipped. -/
def emitCopyPropers (mt : Moltype) (off : Int) : List (Int × Int × Int × Int) :=
  (mt.dihedrals.filter (fun d => ¬ isImproperFunct d.funct)).map
    (fun d => (off + d.ai, off + d.aj, off + d.ak, off + d.al))

def emitCopiesPropers (mt : Moltype) : Nat → Int → List (Int × Int × Int × Int)
  | 0, _ => []
  | n + 1, off => emitCopyPropers mt off ++ emitCopiesPropers mt n (off + (mt.atoms.length : Int))

def propersGo (data : GrotopData) : List (String × Int) → Int → List (Int × Int × Int × Int)
  | [], _ => []
  | (nm, cnt) :: rest, off =>
    match find_moltype data nm with
    | none => propersGo data rest off
    | some mt =>
      emitCopiesPropers mt cnt.toNat off ++
        propersGo data rest (off + (cnt.toNat : Int) * mt.atoms.length)

/-- One copy's improper dihedrals: only records with `funct` 2 or 4. -/
def emitCopyImpropers (mt : Moltype) (off : Int) : List (Int × Int × Int × Int) :=
  (mt.dihedrals.filter (fun d => isImproperFunct d.funct)).map
    (fun d => (off + d.ai, off + d.aj, off + d.ak, off + d.al))

def emitCopiesImpropers (mt : Moltype) : Nat → Int → List (Int × Int × Int × Int)
  | 0, _ => []
  | n + 1, off => emitCopyImpropers mt off ++ emitCopiesImpropers mt n (off + (mt.atoms.length : Int))

def impropersGo (data : GrotopData) : List (String × Int) → Int → List (Int × Int × Int × Int)
  | [], _ => []
  | (nm, cnt) :: rest, off =>
    match find_moltype data nm with
    | none => impropersGo data rest off
    | some mt =>
      emitCopiesImpropers mt cnt.toNat off ++
        impropersGo data rest (off + (cnt.toNat : Int) * mt.atoms.length)

/-- Model of `read_grotop_angles`: the angle table, the proper-dihedral
table and the improper table (each flattened tuple list; the C `if total >
0` allocation guards change nothing observable about the contents). -/
def read_grotop_angles (data : GrotopData) :
    List (Int × Int × Int) × List (Int × Int × Int × Int) × List (Int × Int × Int × Int) :=
  (anglesGo data data.molecules 0, propersGo data data.molecules 0,
   impropersGo data data.molecules 0)


def specEntryBonds (mt : Moltype) (off : Int) (count : Nat) : List (Int × Int) :=
  (List.range count).flatMap (fun c =>
    mt.bonds.map (fun b =>
      (off + (c : Int) * mt.atoms.length + b.ai, off + (c : Int) * mt.atoms.length + b.aj)))

def specBonds (data : GrotopData) : List (String × Int) → Int → List (Int × Int)
  | [], _ => []
  | (nm, cnt) :: rest, off =>
    match find_moltype data nm with
    | none => specBonds data rest off
    | some mt =>
      specEntryBonds mt off cnt.toNat ++
        specBonds data rest (off + (cnt.toNat : Int) * mt.atoms.length)

def atomSpan (data : GrotopData) : List (String × Int) → Int
  | [] => 0
  | (nm, cnt) :: rest =>
    match find_moltype data nm with
    | none => atomSpan data rest
    | some mt => (cnt.toNat : Int) * mt.atoms.length + atomSpan data rest

theorem emitCopiesBonds_eq (mt : Moltype) :
    ∀ (n : Nat) (off : Int), emitCopiesBonds mt n off = specEntryBonds mt off n := by
  intro n
  induction n with
  | zero => intro off; simp [emitCopiesBonds, specEntryBonds]
  | succ n ih =>
    intro off
    rw [emitCopiesBonds, ih]
    unfold specEntryBonds
    rw [List.range_succ_eq_map, List.flatMap_cons, List.flatMap_map]
    congr 1
    · simp [emitCopyBonds]
    · apply List.flatMap_congr
      intro c _
      congr 1
      push_cast
      ring_nf

theorem bondsGo_eq_specBonds (data : GrotopData) :
    ∀ (roster : List (String × Int)) (off : Int),
      bondsGo data roster off = specBonds data roster off := by
  intro roster
  induction roster with
  | nil => intro off; rfl
  | cons e rest ih =>
    intro off
    obtain ⟨nm, cnt⟩ := e
    rw [bondsGo, specBonds]
    cases find_moltype data nm with
    | none => exact ih off
    | some mt =>
      dsimp only
      rw [emitCopiesBonds_eq, ih]

theorem structGo_length (data : GrotopData) :
    ∀ (roster : List (String × Int)) (base : Int),
      ((structGo data roster base).length : Int) = atomSpan data roster := by
  intro roster
  induction roster with
  | nil => intro base; rfl
  | cons e rest ih =>
    intro base
    obtain ⟨nm, cnt⟩ := e
    rw [structGo, atomSpan]
    cases find_moltype data nm with
    | none => exact ih base
    | some mt =>
      dsimp only
      rw [List.length_append]
      push_cast
      rw [ih]
      have hlen : ∀ (n : Nat) (b : Int),
          (emitCopiesAtoms data mt n b).length = n * mt.atoms.length := by
        intro n
        induction n with
        | zero => intro b; simp [emitCopiesAtoms]
        | succ n ihn =>
          intro b
          rw [emitCopiesAtoms, List.length_append, ihn]
          simp [emitCopyAtoms]
          ring
      rw [hlen]
      push_cast
      ring



/-! ### Residue renumbering in closed form (for the resid claim) -/

def specEntryResids (mt : Moltype) (base : Int) (count : Nat) : List Int :=
  (List.range count).flatMap (fun c =>
    mt.atoms.map (fun a => a.resnr + ((base + (c : Int) * num_residues mt) - min_resid mt + 1)))

def specResids (data : GrotopData) : List (String × Int) → Int → List Int
  | [], _ => []
  | (nm, cnt) :: rest, base =>
    match find_moltype data nm with
    | none => specResids data rest base
    | some mt =>
      specEntryResids mt base cnt.toNat ++
        specResids data rest (base + (cnt.toNat : Int) * num_residues mt)

theorem emitCopiesAtoms_resids (data : GrotopData) (mt : Moltype) :
    ∀ (n : Nat) (b : Int),
      (emitCopiesAtoms data mt n b).map (fun a => a.resid) = specEntryResids mt b n := by
  intro n
  induction n with
  | zero => intro b; simp [emitCopiesAtoms, specEntryResids]
  | succ n ih =>
    intro b
    rw [emitCopiesAtoms, List.map_append, ih]
    unfold specEntryResids
    rw [List.range_succ_eq_map, List.flatMap_cons, List.flatMap_map]
    congr 1
    · rw [emitCopyAtoms, List.map_map]
      apply List.map_congr_left
      intro a _
      simp only [Function.comp, emitAtom]
      push_cast
      ring
    · apply List.flatMap_congr
      intro c _
      apply List.map_congr_left
      intro a _
      push_cast
      ring

theorem structGo_resids (data : GrotopData) :
    ∀ (roster : List (String × Int)) (base : Int),
      (structGo data roster base).map (fun a => a.resid) = specResids data roster base := by
  intro roster
  induction roster with
  | nil => intro base; rfl
  | cons e rest ih =>
    intro base
    obtain ⟨nm, cnt⟩ := e
    rw [structGo, specResids]
    cases find_moltype data nm with
    | none => exact ih base
    | some mt =>
      dsimp only
      rw [List.map_append, emitCopiesAtoms_resids, ih]

/-! Fold characterization of `min_resid` / `max_resid`. -/

theorem min_resid_le (mt : Moltype) : ∀ a ∈ mt.atoms, min_resid mt ≤ a.resnr := by
  have key : ∀ (l : List AtomData) (m : Int),
      (l.foldl (fun m x => if x.resnr < m then x.resnr else m) m ≤ m ∧
       ∀ a ∈ l, l.foldl (fun m x => if x.resnr < m then x.resnr else m) m ≤ a.resnr) := by
    intro l
    induction l with
    | nil => intro m; exact ⟨le_refl m, by simp⟩
    | cons x l ihl =>
      intro m
      rw [List.foldl_cons]
      constructor
      · refine le_trans (ihl _).1 ?_
        split <;> omega
      · intro a ha
        rcases List.mem_cons.mp ha with h | h
        · subst h
          refine le_trans (ihl _).1 ?_
          split <;> omega
        · exact (ihl _).2 a h
  intro a ha
  rcases hm : mt.atoms with _ | ⟨x, l⟩
  · rw [hm] at ha; exact absurd ha (by simp)
  · have hrw : min_resid mt = l.foldl (fun m x => if x.resnr < m then x.resnr else m) x.resnr := by
      unfold min_resid; rw [hm]
    rw [hrw]
    rw [hm] at ha
    rcases List.mem_cons.mp ha with h | h
    · subst h; exact (key l a.resnr).1
    · exact (key l x.resnr).2 a h

theorem max_resid_ge (mt : Moltype) : ∀ a ∈ mt.atoms, a.resnr ≤ max_resid mt := by
  have key : ∀ (l : List AtomData) (m : Int),
      (m ≤ l.foldl (fun m x => if m < x.resnr then x.resnr else m) m ∧
       ∀ a ∈ l, a.resnr ≤ l.foldl (fun m x => if m < x.resnr then x.resnr else m) m) := by
    intro l
    induction l with
    | nil => intro m; exact ⟨le_refl m, by simp⟩
    | cons x l ihl =>
      intro m
      rw [List.foldl_cons]
      constructor
      · refine le_trans ?_ (ihl _).1
        split <;> omega
      · intro a ha
        rcases List.mem_cons.mp ha with h | h
        · subst h
          refine le_trans ?_ (ihl _).1
          split <;> omega
        · exact (ihl _).2 a h
  intro a ha
  rcases hm : mt.atoms with _ | ⟨x, l⟩
  · rw [hm] at ha; exact absurd ha (by simp)
  · have hrw : max_resid mt = l.foldl (fun m x => if m < x.resnr then x.resnr else m) x.resnr := by
      unfold max_resid; rw [hm]
    rw [hrw]
    rw [hm] at ha
    rcases List.mem_cons.mp ha with h | h
    · subst h; exact (key l a.resnr).1
    · exact (key l x.resnr).2 a h

theorem min_resid_mem (mt : Moltype) (h : mt.atoms ≠ []) :
    min_resid mt ∈ mt.atoms.map (fun a => a.resnr) := by
  have key : ∀ (l : List AtomData) (m : Int),
      l.foldl (fun m x => if x.resnr < m then x.resnr else m) m = m ∨
      l.foldl (fun m x => if x.resnr < m then x.resnr else m) m ∈ l.map (fun a => a.resnr) := by
    intro l
    induction l with
    | nil => intro m; exact Or.inl rfl
    | cons x l ihl =>
      intro m
      rw [List.foldl_cons]
      rcases ihl (if x.resnr < m then x.resnr else m) with hh | hh
      · rw [hh]
        split
        · exact Or.inr (by simp)
        · exact Or.inl rfl
      · exact Or.inr (List.mem_cons_of_mem _ hh)
  rcases hm : mt.atoms with _ | ⟨x, l⟩
  · exact absurd hm h
  · have hrw : min_resid mt = l.foldl (fun m x => if x.resnr < m then x.resnr else m) x.resnr := by
      unfold min_resid; rw [hm]
    rw [hrw]
    rcases key l x.resnr with hh | hh
    · rw [hh]; simp
    · exact List.mem_cons_of_mem _ hh

theorem max_resid_mem (mt : Moltype) (h : mt.atoms ≠ []) :
    max_resid mt ∈ mt.atoms.map (fun a => a.resnr) := by
  have key : ∀ (l : List AtomData) (m : Int),
      l.foldl (fun m x => if m < x.resnr then x.resnr else m) m = m ∨
      l.foldl (fun m x => if m < x.resnr then x.resnr else m) m ∈ l.map (fun a => a.resnr) := by
    intro l
    induction l with
    | nil => intro m; exact Or.inl rfl
    | cons x l ihl =>
      intro m
      rw [List.foldl_cons]
      rcases ihl (if m < x.resnr then x.resnr else m) with hh | hh
      · rw [hh]
        split
        · exact Or.inr (by simp)
        · exact Or.inl rfl
      · exact Or.inr (List.mem_cons_of_mem _ hh)
  rcases hm : mt.atoms with _ | ⟨x, l⟩
  · exact absurd hm h
  · have hrw : max_resid mt = l.foldl (fun m x => if m < x.resnr then x.resnr else m) x.resnr := by
      unfold max_resid; rw [hm]
    rw [hrw]
    rcases key l x.resnr with hh | hh
    · rw [hh]; simp
    · exact List.mem_cons_of_mem _ hh



/-! ### Mass selection in closed form (for the mass back-fill claim) -/

def specMasses (data : GrotopData) : List (String × Int) → List ℚ
  | [] => []
  | (nm, cnt) :: rest =>
    match find_moltype data nm with
    | none => specMasses data rest
    | some mt =>
      (List.range cnt.toNat).flatMap (fun _ =>
        mt.atoms.map (fun a =>
          if 0 < a.mass then a.mass else find_atomtype_mass data a.atom_type)) ++
      specMasses data rest

theorem emitCopiesAtoms_masses (data : GrotopData) (mt : Moltype) :
    ∀ (n : Nat) (b : Int),
      (emitCopiesAtoms data mt n b).map (fun a => a.mass) =
        (List.range n).flatMap (fun _ =>
          mt.atoms.map (fun a =>
            if 0 < a.mass then a.mass else find_atomtype_mass data a.atom_type)) := by
  intro n
  induction n with
  | zero => intro b; simp [emitCopiesAtoms]
  | succ n ih =>
    intro b
    rw [emitCopiesAtoms, List.map_append, ih]
    rw [List.range_succ_eq_map, List.flatMap_cons, List.flatMap_map]
    congr 1
    rw [emitCopyAtoms, List.map_map]
    apply List.map_congr_left
    intro a _
    simp only [Function.comp, emitAtom]

theorem structGo_masses (data : GrotopData) :
    ∀ (roster : List (String × Int)) (base : Int),
      (structGo data roster base).map (fun a => a.mass) = specMasses data roster := by
  intro roster
  induction roster with
  | nil => intro base; rfl
  | cons e rest ih =>
    intro base
    obtain ⟨nm, cnt⟩ := e
    rw [structGo, specMasses]
    cases find_moltype data nm with
    | none => exact ih base
    | some mt =>
      dsimp only
      rw [List.map_append, emitCopiesAtoms_masses, ih]

/-! ### Dihedral partition (for the improper-split claim) -/

/-- Specification-side improper test: `funct` is in the set 2, 4. -/
def specImproper (d : DihedralData) : Bool := ([2, 4] : List Int).contains d.funct

theorem specImproper_eq (d : DihedralData) : specImproper d = isImproperFunct d.funct := by
  by_cases h2 : d.funct = 2 <;> by_cases h4 : d.funct = 4 <;>
    simp [specImproper, isImproperFunct, List.contains, h2, h4]

def specEntryQuads (sel : DihedralData → Bool) (mt : Moltype) (off : Int) (count : Nat) :
    List (Int × Int × Int × Int) :=
  (List.range count).flatMap (fun c =>
    (mt.dihedrals.filter sel).map (fun d =>
      (off + (c : Int) * mt.atoms.length + d.ai, off + (c : Int) * mt.atoms.length + d.aj,
       off + (c : Int) * mt.atoms.length + d.ak, off + (c : Int) * mt.atoms.length + d.al)))

def specPropers (data : GrotopData) : List (String × Int) → Int → List (Int × Int × Int × Int)
  | [], _ => []
  | (nm, cnt) :: rest, off =>
    match find_moltype data nm with
    | none => specPropers data rest off
    | some mt =>
      specEntryQuads (fun d => ! specImproper d) mt off cnt.toNat ++
        specPropers data rest (off + (cnt.toNat : Int) * mt.atoms.length)

def specImpropers (data : GrotopData) : List (String × Int) → Int → List (Int × Int × Int × Int)
  | [], _ => []
  | (nm, cnt) :: rest, off =>
    match find_moltype data nm with
    | none => specImpropers data rest off
    | some mt =>
      specEntryQuads (fun d => specImproper d) mt off cnt.toNat ++
        specImpropers data rest (off + (cnt.toNat : Int) * mt.atoms.length)

theorem emitCopiesPropers_eq (mt : Moltype) :
    ∀ (n : Nat) (off : Int),
      emitCopiesPropers mt n off = specEntryQuads (fun d => ! specImproper d) mt off n := by
  intro n
  induction n with
  | zero => intro off; simp [emitCopiesPropers, specEntryQuads]
  | succ n ih =>
    intro off
    rw [emitCopiesPropers, ih]
    unfold specEntryQuads
    rw [List.range_succ_eq_map, List.flatMap_cons, List.flatMap_map]
    congr 1
    · rw [emitCopyPropers]
      have hf : mt.dihedrals.filter (fun d => ¬ isImproperFunct d.funct) =
          mt.dihedrals.filter (fun d => ! specImproper d) := by
        apply List.filter_congr
        intro d _
        rw [specImproper_eq]
        simp
      rw [hf]
      apply List.map_congr_left
      intro d _
      push_cast
      simp
    · apply List.flatMap_congr
      intro c _
      apply List.map_congr_left
      intro d _
      push_cast
      ring_nf

theorem emitCopiesImpropers_eq (mt : Moltype) :
    ∀ (n : Nat) (off : Int),
      emitCopiesImpropers mt n off = specEntryQuads (fun d => specImproper d) mt off n := by
  intro n
  induction n with
  | zero => intro off; simp [emitCopiesImpropers, specEntryQuads]
  | succ n ih =>
    intro off
    rw [emitCopiesImpropers, ih]
    unfold specEntryQuads
    rw [List.range_succ_eq_map, List.flatMap_cons, List.flatMap_map]
    congr 1
    · rw [emitCopyImpropers]
      have hf : mt.dihedrals.filter (fun d => isImproperFunct d.funct) =
          mt.dihedrals.filter (fun d => specImproper d) := by
        apply List.filter_congr
        intro d _
        rw [specImproper_eq]
      rw [hf]
      apply List.map_congr_left
      intro d _
      push_cast
      simp
    · apply List.flatMap_congr
      intro c _
      apply List.map_congr_left
      intro d _
      push_cast
      ring_nf

theorem propersGo_eq (data : GrotopData) :
    ∀ (roster : List (String × Int)) (off : Int),
      propersGo data roster off = specPropers data roster off := by
  intro roster
  induction roster with
  | nil => intro off; rfl
  | cons e rest ih =>
    intro off
    obtain ⟨nm, cnt⟩ := e
    rw [propersGo, specPropers]
    cases find_moltype data nm with
    | none => exact ih off
    | some mt =>
      dsimp only
      rw [emitCopiesPropers_eq, ih]

theorem impropersGo_eq (data : GrotopData) :
    ∀ (roster : List (String × Int)) (off : Int),
      impropersGo data roster off = specImpropers data roster off := by
  intro roster
  induction roster with
  | nil => intro off; rfl
  | cons e rest ih =>
    intro off
    obtain ⟨nm, cnt⟩ := e
    rw [impropersGo, specImpropers]
    cases find_moltype data nm with
    | none => exact ih off
    | some mt =>
      dsimp only
      rw [emitCopiesImpropers_eq, ih]

theorem filter_partition_length (l : List DihedralData) :
    (l.filter (fun d => specImproper d)).length +
      (l.filter (fun d => ! specImproper d)).length = l.length := by
  induction l with
  | nil => rfl
  | cons d l ih =>
    by_cases h : specImproper d = true <;>
      simp [List.filter_cons, h, ← ih] <;> omega



/-! ### Lemmas for the roster error-handling and empty-moltype claims -/

theorem calcAtoms_none (data : GrotopData) :
    ∀ (roster : List (String × Int)) (nm : String) (cnt : Int),
      (nm, cnt) ∈ roster → find_moltype data nm = none →
      calcAtoms data roster = none := by
  intro roster
  induction roster with
  | nil => intro nm cnt hm _; exact absurd hm (by simp)
  | cons e rest ih =>
    intro nm cnt hm hf
    obtain ⟨nm0, cnt0⟩ := e
    rcases List.mem_cons.mp hm with h | h
    · rw [calcAtoms]
      rw [show nm0 = nm from by injection h with h1 h2; exact h1.symm, hf]
    · rw [calcAtoms]
      cases hf0 : find_moltype data nm0 with
      | none => rfl
      | some mt =>
        dsimp only
        rw [ih nm cnt h hf]

/-- Inserting an entry with count 0 (of a defined moltype) in the roster is
invisible to every emitted table and to the atom total. -/
theorem zero_count_invisible (data : GrotopData) (nm : String) (mt : Moltype)
    (hf : find_moltype data nm = some mt) :
    ∀ (r1 r2 : List (String × Int)),
      (∀ b, structGo data (r1 ++ (nm, 0) :: r2) b = structGo data (r1 ++ r2) b) ∧
      (∀ off, bondsGo data (r1 ++ (nm, 0) :: r2) off = bondsGo data (r1 ++ r2) off) ∧
      (∀ off, anglesGo data (r1 ++ (nm, 0) :: r2) off = anglesGo data (r1 ++ r2) off) ∧
      (∀ off, propersGo data (r1 ++ (nm, 0) :: r2) off = propersGo data (r1 ++ r2) off) ∧
      (∀ off, impropersGo data (r1 ++ (nm, 0) :: r2) off = impropersGo data (r1 ++ r2) off) ∧
      calcAtoms data (r1 ++ (nm, 0) :: r2) = calcAtoms data (r1 ++ r2) := by
  intro r1
  induction r1 with
  | nil =>
    intro r2
    refine ⟨?_, ?_, ?_, ?_, ?_, ?_⟩
    · intro b
      rw [List.nil_append, List.nil_append, structGo, hf]
      dsimp only
      norm_num [emitCopiesAtoms]
    · intro off
      rw [List.nil_append, List.nil_append, bondsGo, hf]
      dsimp only
      norm_num [emitCopiesBonds]
    · intro off
      rw [List.nil_append, List.nil_append, anglesGo, hf]
      dsimp only
      norm_num [emitCopiesAngles]
    · intro off
      rw [List.nil_append, List.nil_append, propersGo, hf]
      dsimp only
      norm_num [emitCopiesPropers]
    · intro off
      rw [List.nil_append, List.nil_append, impropersGo, hf]
      dsimp only
      norm_num [emitCopiesImpropers]
    · rw [List.nil_append, List.nil_append, calcAtoms, hf]
      dsimp only
      cases calcAtoms data r2 <;> norm_num
  | cons e r1 ih =>
    intro r2
    obtain ⟨nm0, cnt0⟩ := e
    refine ⟨?_, ?_, ?_, ?_, ?_, ?_⟩
    · intro b
      rw [List.cons_append, List.cons_append, structGo, structGo]
      cases find_moltype data nm0 with
      | none => exact (ih r2).1 b
      | some mt0 =>
        dsimp only
        rw [(ih r2).1]
    · intro off
      rw [List.cons_append, List.cons_append, bondsGo, bondsGo]
      cases find_moltype data nm0 with
      | none => exact (ih r2).2.1 off
      | some mt0 =>
        dsimp only
        rw [(ih r2).2.1]
    · intro off
      rw [List.cons_append, List.cons_append, anglesGo, anglesGo]
      cases find_moltype data nm0 with
      | none => exact (ih r2).2.2.1 off
      | some mt0 =>
        dsimp only
        rw [(ih r2).2.2.1]
    · intro off
      rw [List.cons_append, List.cons_append, propersGo, propersGo]
      cases find_moltype data nm0 with
      | none => exact (ih r2).2.2.2.1 off
      | some mt0 =>
        dsimp only
        rw [(ih r2).2.2.2.1]
    · intro off
      rw [List.cons_append, List.cons_append, impropersGo, impropersGo]
      cases find_moltype data nm0 with
      | none => exact (ih r2).2.2.2.2.1 off
      | some mt0 =>
        dsimp only
        rw [(ih r2).2.2.2.2.1]
    · rw [List.cons_append, List.cons_append, calcAtoms, calcAtoms]
      cases find_moltype data nm0 with
      | none => rfl
      | some mt0 =>
        dsimp only
        rw [(ih r2).2.2.2.2.2]

/-- Advance of the running residue offset over a roster. -/
def residAdvance (data : GrotopData) : List (String × Int) → Int
  | [] => 0
  | (nm, cnt) :: rest =>
    match find_moltype data nm with
    | none => residAdvance data rest
    | some mt => (cnt.toNat : Int) * num_residues mt + residAdvance data rest

/-- Shift of the emitted residue ID. -/
def addResid (δ : Int) (a : MolfileAtom) : MolfileAtom := { a with resid := a.resid + δ }

theorem emitCopiesAtoms_shift (data : GrotopData) (mt : Moltype) :
    ∀ (n : Nat) (b δ : Int),
      emitCopiesAtoms data mt n (b + δ) = (emitCopiesAtoms data mt n b).map (addResid δ) := by
  intro n
  induction n with
  | zero => intro b δ; simp [emitCopiesAtoms]
  | succ n ih =>
    intro b δ
    rw [emitCopiesAtoms, emitCopiesAtoms, List.map_append]
    congr 1
    · rw [emitCopyAtoms, emitCopyAtoms, List.map_map]
      apply List.map_congr_left
      intro a _
      simp only [Function.comp, emitAtom, addResid]
      congr 1
      ring
    · rw [show b + δ + num_residues mt = (b + num_residues mt) + δ from by ring, ih]

theorem structGo_append (data : GrotopData) :
    ∀ (r1 r2 : List (String × Int)) (b : Int),
      structGo data (r1 ++ r2) b = structGo data r1 b ++ structGo data r2 (b + residAdvance data r1) := by
  intro r1
  induction r1 with
  | nil => intro r2 b; simp [structGo, residAdvance]
  | cons e r1 ih =>
    intro r2 b
    obtain ⟨nm, cnt⟩ := e
    rw [List.cons_append, structGo, structGo, residAdvance]
    cases find_moltype data nm with
    | none => exact ih r2 b
    | some mt =>
      dsimp only
      rw [ih, List.append_assoc]
      congr 3
      ring

theorem structGo_shift (data : GrotopData) :
    ∀ (r : List (String × Int)) (b δ : Int),
      structGo data r (b + δ) = (structGo data r b).map (addResid δ) := by
  intro r
  induction r with
  | nil => intro b δ; rfl
  | cons e r ih =>
    intro b δ
    obtain ⟨nm, cnt⟩ := e
    rw [structGo, structGo]
    cases find_moltype data nm with
    | none => exact ih b δ
    | some mt =>
      dsimp only
      rw [List.map_append, emitCopiesAtoms_shift]
      congr 1
      rw [show b + δ + (cnt.toNat : Int) * num_residues mt
            = (b + (cnt.toNat : Int) * num_residues mt) + δ from by ring, ih]

theorem emitCopiesAtoms_of_empty (data : GrotopData) (mt : Moltype) (h : mt.atoms = []) :
    ∀ (n : Nat) (b : Int), emitCopiesAtoms data mt n b = [] := by
  intro n
  induction n with
  | zero => intro b; rfl
  | succ n ih =>
    intro b
    rw [emitCopiesAtoms, ih, emitCopyAtoms, h]
    rfl

theorem num_residues_of_empty (mt : Moltype) (h : mt.atoms = []) : num_residues mt = 1 := by
  unfold num_residues min_resid max_resid
  rw [h]
  norm_num


end Grotop

namespace Grotop

theorem specBonds_append (data : GrotopData) :
    ∀ (r1 r2 : List (String × Int)) (off : Int),
      specBonds data (r1 ++ r2) off =
        specBonds data r1 off ++ specBonds data r2 (off + atomSpan data r1) := by
  intro r1
  induction r1 with
  | nil => intro r2 off; simp [specBonds, atomSpan]
  | cons e r1 ih =>
    intro r2 off
    obtain ⟨nm, cnt⟩ := e
    rw [List.cons_append, specBonds, specBonds, atomSpan]
    cases find_moltype data nm with
    | none => exact ih r2 off
    | some mt =>
      dsimp only
      rw [ih, List.append_assoc]
      congr 3
      ring

/-! ### Concrete inputs used by the claims -/

/-- Input reproducing the conditional-skip defect: the record `1 2` sits
inside `#ifdef FLEX` with `FLEX` never defined. -/
def fsC1 : List (String × List String) :=
  [(("sys.top" : String),
    ["[moleculetype]", "MOL 3", "[atoms]", "1 CT 1 RES A1 1 0.0 12.0",
     "[bonds]", "#ifdef FLEX", "1 2", "#endif"])]

/-- The claim-C2 transformation source: `X` is defined, and the first
`#ifdef X`/`#endif` pair (empty body) is the one deleted; `X` also guards a
second conditional that survives the transformation. -/
def linesC2A : List String :=
  ["#define X", "#ifdef X", "#endif", "#ifdef X", "[moleculetype]", "MOL 3",
   "[atoms]", "1 CT 1 RES A1 1 0.0 12.0", "#endif"]

/-- `linesC2A` with the `#define X` line and the first matching pair deleted
(the body they enclose — nothing — is kept). -/
def linesC2B : List String :=
  ["#ifdef X", "[moleculetype]", "MOL 3", "[atoms]", "1 CT 1 RES A1 1 0.0 12.0", "#endif"]

/-- The S2 system: one three-atom water-like moleculetype instantiated three
times; every atom has `resnr` 1. -/
def dataS2 : GrotopData :=
  ⟨[⟨"SOL", 2,
     [⟨1, "OW", 1, "SOL", "OW1", 1, mkRat (-4) 5, 0⟩,
      ⟨2, "HW", 1, "SOL", "HW1", 1, mkRat 2 5, 0⟩,
      ⟨3, "HW", 1, "SOL", "HW2", 1, mkRat 2 5, 0⟩],
     [⟨1, 2⟩, ⟨1, 3⟩], [], []⟩],
   [⟨"OW", 16⟩, ⟨"HW", mkRat 1008 1000⟩],
   [(("SOL" : String), 3)], []⟩

/-- The S6 system: an atom record with no mass, of a type carrying mass
12.011 in the atom-type table. -/
def dataS6 : GrotopData :=
  ⟨[⟨"M", 3, [⟨1, "CA", 1, "ALA", "CA1", 1, 0, 0⟩], [], [], []⟩],
   [⟨"CA", mkRat 12011 1000⟩],
   [(("M" : String), 1)], []⟩

/-! ### Claim theorems -/

/-- C1 — the claim that a non-empty, non-directive line read under a false
conditional frame adds nothing to the parse state is violated by the code:
in `fsC1` the record `1 2` lies inside `#ifdef FLEX` with `FLEX` undefined
(the final define set is empty), yet a bond entry is added, because the
main loop re-enters the `[bonds]` section parser right after pushing the
false frame and the section parsers never consult the conditional stack. -/
theorem inactive_line_adds_bond :
    (parse_topology_file fsC1 ("sys.top") emptyData 0).map
      (fun d => (d.moltypes.map (fun m => m.bonds), d.defines)) =
      some ([[⟨1, 2⟩]], []) := by decide

/-- C2, counterexample — deleting `#define X` together with one matching
`#ifdef X`/`#endif` pair (keeping its body) changes the parsed output when
`X` guards another surviving conditional: in `linesC2A` the moleculetype is
parsed, in `linesC2B` the whole region is skipped as inactive. -/
theorem define_pair_removal_changes_output :
    ¬ ((parse_topology_file [(("a.top" : String), linesC2A)] ("a.top") emptyData 0).map
        (fun d => (d.moltypes, d.atomtypes, d.molecules)) =
      (parse_topology_file [(("a.top" : String), linesC2B)] ("a.top") emptyData 0).map
        (fun d => (d.moltypes, d.atomtypes, d.molecules))) := by decide

/-- C3 — every emitted residue ID follows the closed-form renumbering
`a.resnr + (resid_base − min_r + 1)` where `resid_base` accumulates
`nres = max_r − min_r + 1` per previously emitted copy (`specResids` is
exactly that closed form, built on `num_residues mt = max_resid mt -
min_resid mt + 1`); `min_resid`/`max_resid` bound the `resnr` of every
atom and are attained when the moleculetype is non-empty; and the S2
system (3-atom moltype, all `resnr` 1, instantiated 3 times) yields the
residue sequence 1,1,1,2,2,2,3,3,3. -/
theorem resid_renumbering_formula (data : GrotopData) :
    (read_grotop_structure data).map (fun a => a.resid) = specResids data data.molecules 0 ∧
    (∀ mt : Moltype,
      (∀ a ∈ mt.atoms, min_resid mt ≤ a.resnr ∧ a.resnr ≤ max_resid mt) ∧
      (mt.atoms ≠ [] →
        min_resid mt ∈ mt.atoms.map (fun a => a.resnr) ∧
        max_resid mt ∈ mt.atoms.map (fun a => a.resnr))) ∧
    (read_grotop_structure dataS2).map (fun a => a.resid) = [1, 1, 1, 2, 2, 2, 3, 3, 3] := by
  refine ⟨structGo_resids data data.molecules 0, ?_, by decide⟩
  intro mt
  exact ⟨fun a ha => ⟨min_resid_le mt a ha, max_resid_ge mt a ha⟩,
    fun hne => ⟨min_resid_mem mt hne, max_resid_mem mt hne⟩⟩

/-- C4 — the emitted bond table equals the closed form: per roster entry,
per copy, per bond record, the pair `(ai + offset, aj + offset)` in that
order, with `offset` the running global atom count before that copy
(`atomSpan` measures the atoms laid out for a roster, the emitted-atom
count equals it, and the bond offsets advance by exactly that span across
any roster split). -/
theorem bond_emission_formula (data : GrotopData) :
    read_grotop_bonds data = specBonds data data.molecules 0 ∧
    (∀ (roster : List (String × Int)) (base : Int),
      ((structGo data roster base).length : Int) = atomSpan data roster) ∧
    (∀ (r1 r2 : List (String × Int)) (off : Int),
      specBonds data (r1 ++ r2) off =
        specBonds data r1 off ++ specBonds data r2 (off + atomSpan data r1)) :=
  ⟨bondsGo_eq_specBonds data data.molecules 0,
    fun roster base => structGo_length data roster base,
    fun r1 r2 off => specBonds_append data r1 r2 off⟩

/-- C5 — every emitted atom's mass follows the back-fill rule (`specMasses`
applies it recordwise): the record's own mass when positive, else the
first matching atom-type table mass, else 0; a seven-field `[atoms]`
record parses with mass 0; and the S6 system emits mass 12.011. -/
theorem mass_backfill_rule (data : GrotopData) :
    (read_grotop_structure data).map (fun a => a.mass) = specMasses data data.molecules ∧
    (∀ ty : String,
      (data.atomtypes.find? (fun t => t.name = ty) = none → find_atomtype_mass data ty = 0) ∧
      (∀ t, data.atomtypes.find? (fun t => t.name = ty) = some t →
        find_atomtype_mass data ty = t.mass)) ∧
    parseAtomLine ("1 CA 1 ALA CA1 1 0.0") = some ⟨1, "CA", 1, "ALA", "CA1", 1, 0, 0⟩ ∧
    (read_grotop_structure dataS6).map (fun a => a.mass) = [mkRat 12011 1000] := by
  refine ⟨structGo_masses data data.molecules 0, ?_, by decide, by decide⟩
  intro ty
  constructor
  · intro h
    unfold find_atomtype_mass
    rw [h]
  · intro t h
    unfold find_atomtype_mass
    rw [h]

/-- C6 — the proper-dihedral output is exactly the expansion of the records
with `funct` outside 2, 4 and the improper output exactly that of the
records with `funct` 2 or 4 (`specImproper` decides `funct` 2-or-4, so the
two filters partition the records and none appears in both); a record with
absent `funct` parses with `funct` defaulted to 0 and counts as proper. -/
theorem dihedral_partition (data : GrotopData) :
    (read_grotop_angles data).2.1 = specPropers data data.molecules 0 ∧
    (read_grotop_angles data).2.2 = specImpropers data data.molecules 0 ∧
    (∀ mt : Moltype,
      (mt.dihedrals.filter (fun d => specImproper d)).length +
        (mt.dihedrals.filter (fun d => ! specImproper d)).length = mt.dihedrals.length) ∧
    (∀ d : DihedralData, specImproper d = true ↔ (d.funct = 2 ∨ d.funct = 4)) ∧
    parseDihedralLine ("1 2 3 4") = some ⟨1, 2, 3, 4, 0⟩ ∧
    specImproper ⟨1, 2, 3, 4, 0⟩ = false := by
  refine ⟨propersGo_eq data data.molecules 0, impropersGo_eq data data.molecules 0,
    fun mt => filter_partition_length mt.dihedrals, ?_, by decide, by decide⟩
  intro d
  by_cases h2 : d.funct = 2 <;> by_cases h4 : d.funct = 4 <;>
    simp [specImproper, List.contains, h2, h4]

/-- C8 — a roster entry naming an undefined moleculetype is fatal for the
open call, while an entry with count 0 of a defined moleculetype is not an
error and contributes zero-length emission to every global table and to
the atom total. -/
theorem unknown_moltype_fatal_zero_count_harmless
    (fs : List (String × List String)) (path : String) (d : GrotopData)
    (nm : String) (cnt : Int)
    (hp : parse_topology_file fs path emptyData 0 = some d)
    (hm : (nm, cnt) ∈ d.molecules) (hf : find_moltype d nm = none) :
    open_grotop_read fs path = none ∧
    (∀ (data : GrotopData) (nm2 : String) (mt : Moltype) (r1 r2 : List (String × Int)),
      find_moltype data nm2 = some mt →
      (∀ b, structGo data (r1 ++ (nm2, 0) :: r2) b = structGo data (r1 ++ r2) b) ∧
      (∀ off, bondsGo data (r1 ++ (nm2, 0) :: r2) off = bondsGo data (r1 ++ r2) off) ∧
      (∀ off, anglesGo data (r1 ++ (nm2, 0) :: r2) off = anglesGo data (r1 ++ r2) off) ∧
      (∀ off, propersGo data (r1 ++ (nm2, 0) :: r2) off = propersGo data (r1 ++ r2) off) ∧
      (∀ off, impropersGo data (r1 ++ (nm2, 0) :: r2) off = impropersGo data (r1 ++ r2) off) ∧
      calcAtoms data (r1 ++ (nm2, 0) :: r2) = calcAtoms data (r1 ++ r2)) := by
  constructor
  · unfold open_grotop_read
    rw [hp]
    dsimp only
    have hc : calculate_total_atoms d = none := calcAtoms_none d d.molecules nm cnt hm hf
    rw [hc]
  · intro data nm2 mt r1 r2 hf2
    exact zero_count_invisible data nm2 mt hf2 r1 r2

/-- A file whose roster names the undefined moleculetype XXX. -/
def fsC8 : List (String × List String) :=
  [(("m.top" : String), ["[molecules]", "XXX 2"])]

def dataC8 : GrotopData := ⟨[], [], [(("XXX" : String), 2)], []⟩

/-- C8 witness: the open call on `fsC8` fails, and inserting `("M", 0)`
into the S6 roster changes no emitted atom table. -/
theorem unknown_moltype_fatal_zero_count_harmless_witness :
    open_grotop_read fsC8 ("m.top") = none ∧
    (∀ b, structGo dataS6 ([] ++ (("M" : String), 0) :: dataS6.molecules) b =
      structGo dataS6 ([] ++ dataS6.molecules) b) := by
  have h := unknown_moltype_fatal_zero_count_harmless fsC8 ("m.top") dataC8 ("XXX") 2
    (by decide) (by decide) (by decide)
  refine ⟨h.1, ?_⟩
  intro b
  exact ((h.2 dataS6 ("M") (dataS6.moltypes.get ⟨0, by decide⟩) [] dataS6.molecules
    (by decide)).1) b

/-- C10 — a roster entry of a moleculetype with no atoms emits no atoms but
advances the residue base by one per copy (`num_residues` of an atomless
moleculetype is 1): the atoms emitted for later roster entries are exactly
those emitted without the entry, with every residue ID larger by the
entry's count. -/
theorem empty_moltype_advances_residue_base (data : GrotopData) (nm : String) (mt : Moltype)
    (cnt : Int) (r1 r2 : List (String × Int))
    (hf : find_moltype data nm = some mt) (he : mt.atoms = []) (hc : 0 ≤ cnt) :
    structGo data (r1 ++ (nm, cnt) :: r2) 0 =
      structGo data r1 0 ++ (structGo data r2 (residAdvance data r1)).map (addResid cnt) ∧
    structGo data (r1 ++ r2) 0 =
      structGo data r1 0 ++ structGo data r2 (residAdvance data r1) := by
  constructor
  · rw [structGo_append data r1 ((nm, cnt) :: r2) 0, zero_add]
    congr 1
    rw [structGo, hf]
    dsimp only
    rw [emitCopiesAtoms_of_empty data mt he, List.nil_append,
      num_residues_of_empty mt he, mul_one, Int.toNat_of_nonneg hc]
    exact structGo_shift data r2 (residAdvance data r1) cnt
  · rw [structGo_append data r1 r2 0, zero_add]

/-- The S2 system with an atomless moleculetype E instantiated 5 times
ahead of the original roster. -/
def dataC10 : GrotopData :=
  ⟨⟨"E", 3, [], [], [], []⟩ :: dataS2.moltypes,
   dataS2.atomtypes,
   (("E" : String), 5) :: dataS2.molecules, []⟩

/-- C10 witness: with the empty entry at count 5 in front, the S2 residue
IDs all grow by 5: 6,6,6,7,7,7,8,8,8. -/
theorem empty_moltype_advances_residue_base_witness :
    structGo dataC10 ([] ++ (("E" : String), 5) :: dataS2.molecules) 0 =
      structGo dataC10 [] 0 ++
        (structGo dataC10 dataS2.molecules (residAdvance dataC10 [])).map (addResid 5) ∧
    (structGo dataC10 ([] ++ (("E" : String), 5) :: dataS2.molecules) 0).map
      (fun a => a.resid) = [6, 6, 6, 7, 7, 7, 8, 8, 8] :=
  ⟨(empty_moltype_advances_residue_base dataC10 ("E")
      (dataC10.moltypes.get ⟨0, by decide⟩) 5 [] dataS2.molecules
      (by decide) (by decide) (by decide)).1, by decide⟩

end Grotop

namespace Grotop

/-- 501 copies of a one-record moleculetype section. -/
def fsC7 : List (String × List String) :=
  [(("big.top" : String), (List.replicate 501 ["[moleculetype]", "M 3"]).flatten)]

/-- The same file truncated to 500 sections. -/
def fsC7ok : List (String × List String) :=
  [(("ok.top" : String), (List.replicate 500 ["[moleculetype]", "M 3"]).flatten)]

set_option maxRecDepth 20000 in
/-- C7 — the claim that a capacity-exceeded item is dropped with a warning
and parsing continues is violated for the molecule-type table: the 501st
`[moleculetype]` section makes the whole parse fatal and the open call
returns no handle, while 500 sections parse fine; the atom-type and
define tables do behave as claimed (at capacity the step returns the
state unchanged and parsing continues). -/
theorem capacity_overflow_moltype_fatal :
    open_grotop_read fsC7 ("big.top") = none ∧
    parse_topology_file fsC7 ("big.top") emptyData 0 = none ∧
    (parse_topology_file fsC7ok ("ok.top") emptyData 0).map (fun d => d.moltypes.length) =
      some 500 ∧
    (∀ (data : GrotopData) (s : String), MAX_ATOMTYPES ≤ data.atomtypes.length →
      atomtypeStep s data = data) ∧
    (∀ (data : GrotopData) (sym : String), MAX_DEFINES ≤ data.defines.length →
      add_define data sym = data) := by
  refine ⟨by decide, by decide, by decide, ?_, ?_⟩
  · intro data s h
    unfold atomtypeStep
    cases parseAtomtypeLine s with
    | none => rfl
    | some t =>
      dsimp only
      rw [if_neg (by omega)]
  · intro data sym h
    unfold add_define
    rw [if_pos h]

end Grotop
namespace Grotop

theorem takeWhile_append_split (p : Char → Bool) (t r : List Char) :
    (t ++ r).takeWhile p =
      if t.dropWhile p = [] then t ++ r.takeWhile p else t.takeWhile p := by
  induction t with
  | nil => simp
  | cons c t ih =>
    by_cases hc : p c
    · simp only [List.cons_append, List.takeWhile_cons, List.dropWhile_cons, hc, if_true, ih]
      split <;> rfl
    · simp [List.takeWhile_cons, List.dropWhile_cons, hc]

theorem dropWhile_append_split (p : Char → Bool) (t r : List Char) :
    (t ++ r).dropWhile p =
      if t.dropWhile p = [] then r.dropWhile p else t.dropWhile p ++ r := by
  induction t with
  | nil => simp
  | cons c t ih =>
    by_cases hc : p c
    · simp only [List.cons_append, List.dropWhile_cons, hc, if_true, ih]
    · simp [List.dropWhile_cons, hc]

theorem scanSign_other (c : Char) (u : List Char) (h1 : c ≠ '-') (h2 : c ≠ '+') :
    scanSign (c :: u) = (1, c :: u) := by
  unfold scanSign
  split
  · rename_i heq; rw [List.cons.injEq] at heq; exact absurd heq.1 h1
  · rename_i heq; rw [List.cons.injEq] at heq; exact absurd heq.1 h2
  · rfl

/-- Space-led rests: the shape of everything to the right of a token in a
space-separated line. -/
def spaceLed (r : List Char) : Prop := r = [] ∨ ∃ u, r = ' ' :: u

theorem takeWhile_spaceLed_digit (r : List Char) (hr : spaceLed r) :
    r.takeWhile Char.isDigit = [] := by
  rcases hr with h | ⟨u, h⟩ <;> subst h <;> simp [List.takeWhile_cons]

theorem dropWhile_spaceLed_digit (r : List Char) (hr : spaceLed r) :
    r.dropWhile Char.isDigit = r := by
  rcases hr with h | ⟨u, h⟩ <;> subst h <;> simp [List.dropWhile_cons]

end Grotop

namespace Grotop

theorem digit_not_space (c : Char) (h : c.isDigit = true) : isCSpace c = false := by
  cases hs : isCSpace c with
  | false => rfl
  | true =>
    exfalso
    simp only [isCSpace, Bool.or_eq_true, beq_iff_eq] at hs
    rcases hs with ((((hs | hs) | hs) | hs) | hs) | hs
    · subst hs; exact absurd h (by decide)
    · subst hs; exact absurd h (by decide)
    · subst hs; exact absurd h (by decide)
    · subst hs; exact absurd h (by decide)
    · rw [show c = Char.ofNat 11 from Char.ext (UInt32.toNat.inj hs)] at h
      exact absurd h (by decide)
    · rw [show c = Char.ofNat 12 from Char.ext (UInt32.toNat.inj hs)] at h
      exact absurd h (by decide)

theorem digit_not_minus (c : Char) (h : c.isDigit = true) : c ≠ '-' := by
  intro he; subst he; exact absurd h (by decide)

theorem digit_not_plus (c : Char) (h : c.isDigit = true) : c ≠ '+' := by
  intro he; subst he; exact absurd h (by decide)

theorem scanTok_token (mx : Nat) (t r : List Char) (ht : t ≠ [])
    (hs : ∀ c ∈ t, isCSpace c = false) (hlen : t.length ≤ mx) (hr : spaceLed r) :
    scanTok mx (t ++ r) = some (⟨t⟩, r) := by
  obtain ⟨c, u, rfl⟩ : ∃ c u, t = c :: u := by
    cases t with
    | nil => exact absurd rfl ht
    | cons c u => exact ⟨c, u, rfl⟩
  have htl : trimLead ((c :: u) ++ r) = (c :: u) ++ r := by
    simp [trimLead, List.dropWhile_cons, hs c (by simp)]
  have hdw : (c :: u).dropWhile (fun c => ¬ isCSpace c) = [] := by
    rw [List.dropWhile_eq_nil_iff]
    intro x hx
    simp [hs x hx]
  have htw : ((c :: u) ++ r).takeWhile (fun c => ¬ isCSpace c) = c :: u := by
    rw [takeWhile_append_split, if_pos hdw]
    rcases hr with h | ⟨v, h⟩ <;> subst h <;>
      simp [show isCSpace ' ' = true from by decide]
  simp only [scanTok]
  rw [htl, htw, List.take_of_length_le hlen]
  rw [if_neg (by simp)]
  rw [List.drop_left]

theorem scanTokU_token (t r : List Char) (ht : t ≠ [])
    (hs : ∀ c ∈ t, isCSpace c = false) (hr : spaceLed r) :
    scanTokU (t ++ r) = some (⟨t⟩, r) := by
  obtain ⟨c, u, rfl⟩ : ∃ c u, t = c :: u := by
    cases t with
    | nil => exact absurd rfl ht
    | cons c u => exact ⟨c, u, rfl⟩
  have htl : trimLead ((c :: u) ++ r) = (c :: u) ++ r := by
    simp [trimLead, List.dropWhile_cons, hs c (by simp)]
  have hdw : (c :: u).dropWhile (fun c => ¬ isCSpace c) = [] := by
    rw [List.dropWhile_eq_nil_iff]
    intro x hx
    simp [hs x hx]
  have htw : ((c :: u) ++ r).takeWhile (fun c => ¬ isCSpace c) = c :: u := by
    rw [takeWhile_append_split, if_pos hdw]
    rcases hr with h | ⟨v, h⟩ <;> subst h <;>
      simp [show isCSpace ' ' = true from by decide]
  simp only [scanTokU]
  rw [htl, htw]
  rw [if_neg (by simp)]
  rw [List.drop_left]

theorem scanTokU_cons_space (z : List Char) : scanTokU (' ' :: z) = scanTokU z := by
  simp only [scanTokU]
  rw [show trimLead (' ' :: z) = trimLead z by
    simp [trimLead, List.dropWhile_cons, show isCSpace ' ' = true from by decide]]

theorem scanFloat_cons_space (z : List Char) : scanFloat (' ' :: z) = scanFloat z := by
  simp only [scanFloat]
  rw [show trimLead (' ' :: z) = trimLead z by
    simp [trimLead, List.dropWhile_cons, show isCSpace ' ' = true from by decide]]

theorem scanExp_spaceLed (r : List Char) (hr : spaceLed r) : scanExp r = (0, r) := by
  rcases hr with h | ⟨u, h⟩ <;> subst h
  · rfl
  · simp only [scanExp]
    rw [if_neg (by decide)]

end Grotop

namespace Grotop

theorem scanFrac_dot (z : List Char) :
    scanFrac ('.' :: z) = (true, z.takeWhile Char.isDigit, z.dropWhile Char.isDigit) := rfl

theorem scanFrac_other (c : Char) (u : List Char) (h : c ≠ '.') :
    scanFrac (c :: u) = (false, [], c :: u) := by
  unfold scanFrac
  split
  · rename_i heq
    rw [List.cons.injEq] at heq
    exact absurd heq.1 h
  · rfl

theorem scanFloat_none_head (c : Char) (u : List Char)
    (h1 : c.isDigit = false) (h2 : c ≠ '.') (h3 : c ≠ '-') (h4 : c ≠ '+')
    (h5 : isCSpace c = false) :
    scanFloat (c :: u) = none := by
  have htl : trimLead (c :: u) = c :: u := by simp [trimLead, List.dropWhile_cons, h5]
  have hip : (c :: u).takeWhile Char.isDigit = [] := by simp [List.takeWhile_cons, h1]
  simp only [scanFloat]
  rw [htl, scanSign_other c u h3 h4]
  dsimp only
  rw [hip]
  simp only [List.length_nil, List.drop_zero]
  rw [scanFrac_other c u h2]
  dsimp only
  rw [if_pos (by simp)]

theorem scanFloat_decimal (ds fs r : List Char)
    (hds : ∀ c ∈ ds, c.isDigit = true) (hfs : ∀ c ∈ fs, c.isDigit = true)
    (hne : ds ≠ [] ∨ fs ≠ []) (hr : spaceLed r) :
    scanFloat ((ds ++ '.' :: fs) ++ r) =
      some (mkRat (digitsToNat (ds ++ fs)) (10 ^ fs.length), r) := by
  have hz : (ds ++ '.' :: fs) ++ r = ds ++ '.' :: (fs ++ r) := by simp
  have htl : trimLead (ds ++ '.' :: (fs ++ r)) = ds ++ '.' :: (fs ++ r) := by
    cases ds with
    | nil => simp [trimLead, List.dropWhile_cons, show isCSpace '.' = false from by decide]
    | cons c u =>
      simp [trimLead, List.dropWhile_cons, digit_not_space c (hds c (by simp))]
  have hsg : scanSign (ds ++ '.' :: (fs ++ r)) = (1, ds ++ '.' :: (fs ++ r)) := by
    cases ds with
    | nil => exact scanSign_other '.' (fs ++ r) (by decide) (by decide)
    | cons c u =>
      exact scanSign_other c (u ++ '.' :: (fs ++ r))
        (digit_not_minus c (hds c (by simp))) (digit_not_plus c (hds c (by simp)))
  have hdwds : ds.dropWhile Char.isDigit = [] := by
    rw [List.dropWhile_eq_nil_iff]; exact hds
  have hip : (ds ++ '.' :: (fs ++ r)).takeWhile Char.isDigit = ds := by
    rw [takeWhile_append_split, if_pos hdwds]
    simp [List.takeWhile_cons]
  have hdwfs : fs.dropWhile Char.isDigit = [] := by
    rw [List.dropWhile_eq_nil_iff]; exact hfs
  have hfp : (fs ++ r).takeWhile Char.isDigit = fs := by
    rw [takeWhile_append_split, if_pos hdwfs, takeWhile_spaceLed_digit r hr]
    simp
  have hcs3 : (fs ++ r).dropWhile Char.isDigit = r := by
    rw [dropWhile_append_split, if_pos hdwfs, dropWhile_spaceLed_digit r hr]
  rw [hz]
  simp only [scanFloat]
  rw [htl, hsg]
  dsimp only
  rw [hip, List.drop_left, scanFrac_dot]
  dsimp only
  rw [hfp, hcs3]
  rw [if_neg (by
    rcases hne with h | h
    · intro hcon
      exact absurd (List.length_eq_zero.mp hcon.1) h
    · intro hcon
      rcases hcon.2 with hc | hc
      · exact hc rfl
      · exact absurd (List.length_eq_zero.mp hc) h)]
  rw [scanExp_spaceLed r hr]
  dsimp only
  rw [if_pos (by omega)]
  congr 2
  simp

end Grotop

namespace Grotop

/-- C9 — MARTINI-before-GROMACS atom-type parsing: in a four-token
`[atomtypes]` record whose second token is a decimal numeral, the stored
mass is the second token's value whatever the fourth token holds (first
conjunct); when the second token starts with a character that cannot begin
a float the MARTINI form fails and the fourth token's value is stored
(second conjunct); concretely, `CT 12.011 X 99.5` stores 12.011 where both
readings would differ, and `CT A B 99.5` stores 99.5. -/
theorem atomtype_martini_priority (t1 t3 t4 : List Char)
    (h1 : t1 ≠ []) (h1l : t1.length ≤ 15) (h1s : ∀ c ∈ t1, isCSpace c = false)
    (h3 : t3 ≠ []) (h3s : ∀ c ∈ t3, isCSpace c = false)
    (h4 : t4 ≠ []) (h4s : ∀ c ∈ t4, isCSpace c = false) :
    (∀ ds fs : List Char, (∀ c ∈ ds, c.isDigit = true) → (∀ c ∈ fs, c.isDigit = true) →
      (ds ≠ [] ∨ fs ≠ []) →
      parseAtomtypeLine ⟨t1 ++ (' ' :: ((ds ++ '.' :: fs) ++ (' ' :: (t3 ++ (' ' :: t4)))))⟩ =
        some ⟨⟨t1⟩, mkRat (digitsToNat (ds ++ fs)) (10 ^ fs.length)⟩) ∧
    (∀ (c : Char) (u ds fs : List Char),
      c.isDigit = false → c ≠ '.' → c ≠ '-' → c ≠ '+' → isCSpace c = false →
      (∀ x ∈ u, isCSpace x = false) →
      (∀ x ∈ ds, x.isDigit = true) → (∀ x ∈ fs, x.isDigit = true) → (ds ≠ [] ∨ fs ≠ []) →
      parseAtomtypeLine
          ⟨t1 ++ (' ' :: ((c :: u) ++ (' ' :: (t3 ++ (' ' :: (ds ++ '.' :: fs))))))⟩ =
        some ⟨⟨t1⟩, mkRat (digitsToNat (ds ++ fs)) (10 ^ fs.length)⟩) ∧
    parseAtomtypeLine ("CT 12.011 X 99.5") = some ⟨"CT", mkRat 12011 1000⟩ ∧
    parseAtomtypeLine ("CT A B 99.5") = some ⟨"CT", mkRat 995 10⟩ := by
  refine ⟨?_, ?_, by decide, by decide⟩
  · intro ds fs hds hfs hne
    have hstok := scanTok_token 15 t1 (' ' :: ((ds ++ '.' :: fs) ++ (' ' :: (t3 ++ (' ' :: t4)))))
      h1 h1s h1l (Or.inr ⟨_, rfl⟩)
    simp only [parseAtomtypeLine]
    rw [hstok]
    dsimp only
    rw [scanFloat_cons_space, scanFloat_decimal ds fs (' ' :: (t3 ++ (' ' :: t4)))
      hds hfs hne (Or.inr ⟨_, rfl⟩)]
  · intro c u ds fs hc1 hc2 hc3 hc4 hc5 hu hds hfs hne
    have hstok := scanTok_token 15 t1
      (' ' :: ((c :: u) ++ (' ' :: (t3 ++ (' ' :: (ds ++ '.' :: fs))))))
      h1 h1s h1l (Or.inr ⟨_, rfl⟩)
    have hnone : scanFloat ((c :: u) ++ (' ' :: (t3 ++ (' ' :: (ds ++ '.' :: fs))))) = none := by
      rw [List.cons_append]
      exact scanFloat_none_head c _ hc1 hc2 hc3 hc4 hc5
    have htok2 := scanTokU_token (c :: u) (' ' :: (t3 ++ (' ' :: (ds ++ '.' :: fs))))
      (by simp) (by
        intro x hx
        rcases List.mem_cons.mp hx with hx | hx
        · subst hx; exact hc5
        · exact hu x hx) (Or.inr ⟨_, rfl⟩)
    have htok3 := scanTokU_token t3 (' ' :: (ds ++ '.' :: fs)) h3 h3s (Or.inr ⟨_, rfl⟩)
    have hfl : scanFloat (ds ++ '.' :: fs) = some
        (mkRat (digitsToNat (ds ++ fs)) (10 ^ fs.length), []) := by
      have := scanFloat_decimal ds fs [] hds hfs hne (Or.inl rfl)
      rwa [List.append_nil] at this
    simp only [parseAtomtypeLine]
    rw [hstok]
    dsimp only
    rw [scanFloat_cons_space, hnone]
    dsimp only
    rw [scanTokU_cons_space, htok2]
    dsimp only
    rw [scanTokU_cons_space, htok3]
    dsimp only
    rw [scanFloat_cons_space, hfl]

/-- C9 witness: token shapes satisfying the hypotheses, instantiated on the
line `CT 12.011 X 9`. -/
theorem atomtype_martini_priority_witness :
    parseAtomtypeLine ⟨['C', 'T'] ++ (' ' :: ((['1', '2'] ++ '.' :: ['0', '1', '1']) ++
        (' ' :: (['X'] ++ (' ' :: ['9'])))))⟩ =
      some ⟨⟨['C', 'T']⟩, mkRat (digitsToNat (['1', '2'] ++ ['0', '1', '1'])) (10 ^ 3)⟩ :=
  (atomtype_martini_priority ['C', 'T'] ['X'] ['9'] (by decide) (by decide) (by decide)
    (by decide) (by decide) (by decide) (by decide)).1 ['1', '2'] ['0', '1', '1']
    (by decide) (by decide) (by decide)

end Grotop

namespace Grotop

/-! ### Machinery for the preprocessor-idempotence analysis: the section
tracker, the output projection, and the elementary facts about directive
recognition used to align a run with its directive-erased counterpart. -/

/-- How one line changes the current-section name seen by the main loop. -/
def updSec (sec : String) (l : String) : String :=
  match sectionNameOf (stripComments l) with
  | some nm => nm
  | none => sec

/-- The current-section name after a list of lines. -/
def secAt (sec : String) (ls : List String) : String := ls.foldl updSec sec

/-- The directive-independent part of a parse outcome: the molecule types,
the atom types and the roster (the define set is deliberately excluded). -/
def projP : PRes → Option (List Moltype × List AtomType × List (String × Int))
  | .ok d _ _ _ => some (d.moltypes, d.atomtypes, d.molecules)
  | .fatal => none
  | .out => none

/-- Equality of the three observable tables. -/
def sameTables (a b : GrotopData) : Prop :=
  a.moltypes = b.moltypes ∧ a.atomtypes = b.atomtypes ∧ a.molecules = b.molecules

/-- `process_section` acts as the identity for this section name, for every
data with the given molecule-type table. -/
def procInert (sec : String) (mts : List Moltype) (cur : Option Nat) : Prop :=
  ∀ d ls, d.moltypes = mts → process_section sec d cur ls = some (d, cur, ls)

/-- The loop continuation taken right after a section dispatch (also the
shape of the conditional-directive re-entry). -/
def contS (fs : List (String × List String)) (n depth : Nat) (p : String)
    (data : GrotopData) (cur : Option Nat) (sec : String) (stack : List Bool)
    (ls : List String) : PRes :=
  match process_section sec data cur ls with
  | none => .fatal
  | some (d, c, r) => parseLoopF fs n depth p d c sec stack r

theorem secAt_cons (sec : String) (l : String) (ls : List String) :
    secAt sec (l :: ls) = secAt (updSec sec l) ls := rfl

theorem secAt_append (sec : String) (a b : List String) :
    secAt sec (a ++ b) = secAt (secAt sec a) b := by
  simp [secAt, List.foldl_append]

theorem secAt_nil (sec : String) : secAt sec [] = sec := rfl

theorem hasPfx_directive (ps : List Char) (s : String)
    (h : hasPfx ('#' :: ps) (trimLead s.data) = true) : isDirective s = true := by
  unfold isDirective
  cases htr : trimLead s.data with
  | nil => rw [htr] at h; exact absurd h (by simp [hasPfx])
  | cons c r =>
    rw [htr] at h
    simp only [hasPfx, Bool.and_eq_true, beq_iff_eq] at h
    rw [← h.1]
    rfl

/-- A non-directive line fails every directive parser. -/
theorem nondirective_none (l : String) (h : isDirective l = false) :
    parse_define l = none ∧ parse_ifdef l = none ∧ isElseDirective l = false ∧
      isEndifDirective l = false ∧ parse_include l = none := by
  refine ⟨?_, ?_, ?_, ?_, ?_⟩
  · unfold parse_define
    rw [if_neg]
    intro hc
    rw [hasPfx_directive _ l hc] at h
    exact Bool.noConfusion h
  · unfold parse_ifdef
    rw [if_neg, if_neg]
    · intro hc
      rw [hasPfx_directive _ l hc] at h
      exact Bool.noConfusion h
    · intro hc
      rw [hasPfx_directive _ l hc] at h
      exact Bool.noConfusion h
  · cases hc : isElseDirective l with
    | false => rfl
    | true =>
      rw [hasPfx_directive _ l hc] at h
      exact Bool.noConfusion h
  · cases hc : isEndifDirective l with
    | false => rfl
    | true =>
      rw [hasPfx_directive _ l hc] at h
      exact Bool.noConfusion h
  · unfold parse_include
    rw [if_neg]
    intro hc
    rw [hasPfx_directive _ l hc] at h
    exact Bool.noConfusion h

/-- An `#endif` line is not recognized by the earlier directive branches. -/
theorem endif_excl (s : String) (h : isEndifDirective s = true) :
    parse_define s = none ∧ parse_ifdef s = none ∧ isElseDirective s = false := by
  unfold isEndifDirective at h
  obtain ⟨c0, r0, hc⟩ : ∃ c0 r0, trimLead s.data = c0 :: r0 := by
    cases htr : trimLead s.data with
    | nil => rw [htr] at h; exact absurd h (by simp [hasPfx])
    | cons c r => exact ⟨c, r, rfl⟩
  rw [hc] at h
  obtain ⟨c1, r1, hc1⟩ : ∃ c1 r1, r0 = c1 :: r1 := by
    cases htr : r0 with
    | nil => rw [htr] at h; exact absurd h (by simp [hasPfx])
    | cons c r => exact ⟨c, r, rfl⟩
  rw [hc1] at h
  simp only [hasPfx, Bool.and_eq_true, beq_iff_eq] at h
  obtain ⟨h0, h1, hrest⟩ := h
  subst h0 h1
  obtain ⟨c2, r2, hc2⟩ : ∃ c2 r2, r1 = c2 :: r2 := by
    cases htr : r1 with
    | nil => rw [htr] at hrest; exact absurd hrest (by simp [hasPfx])
    | cons c r => exact ⟨c, r, rfl⟩
  rw [hc2] at hrest
  simp only [hasPfx, Bool.and_eq_true, beq_iff_eq] at hrest
  obtain ⟨h2, _⟩ := hrest
  subst h2
  refine ⟨?_, ?_, ?_⟩
  · unfold parse_define
    rw [hc, hc1, if_neg (by simp [hasPfx])]
  · unfold parse_ifdef
    rw [hc, hc1, if_neg (by simp [hasPfx]), if_neg (by simp [hasPfx])]
  · unfold isElseDirective
    rw [hc, hc1, hc2]
    simp [hasPfx]

/-- An `#ifdef`/`#ifndef` line is not a `#define` line. -/
theorem ifdef_excl (s : String) (x : String × Bool) (h : parse_ifdef s = some x) :
    parse_define s = none := by
  unfold parse_ifdef at h
  by_cases h1 : hasPfx ("#ifdef".data) (trimLead s.data) = true
  · obtain ⟨c0, r0, hc⟩ : ∃ c0 r0, trimLead s.data = c0 :: r0 := by
      cases htr : trimLead s.data with
      | nil => rw [htr] at h1; exact absurd h1 (by simp [hasPfx])
      | cons c r => exact ⟨c, r, rfl⟩
    rw [hc] at h1
    obtain ⟨c1, r1, hc1⟩ : ∃ c1 r1, r0 = c1 :: r1 := by
      cases htr : r0 with
      | nil => rw [htr] at h1; exact absurd h1 (by simp [hasPfx])
      | cons c r => exact ⟨c, r, rfl⟩
    rw [hc1] at h1
    simp only [hasPfx, Bool.and_eq_true, beq_iff_eq] at h1
    obtain ⟨h0, hx, _⟩ := h1
    subst h0 hx
    unfold parse_define
    rw [hc, hc1, if_neg (by simp [hasPfx])]
  · rw [if_neg h1] at h
    by_cases h2 : hasPfx ("#ifndef".data) (trimLead s.data) = true
    · obtain ⟨c0, r0, hc⟩ : ∃ c0 r0, trimLead s.data = c0 :: r0 := by
        cases htr : trimLead s.data with
        | nil => rw [htr] at h2; exact absurd h2 (by simp [hasPfx])
        | cons c r => exact ⟨c, r, rfl⟩
      rw [hc] at h2
      obtain ⟨c1, r1, hc1⟩ : ∃ c1 r1, r0 = c1 :: r1 := by
        cases htr : r0 with
        | nil => rw [htr] at h2; exact absurd h2 (by simp [hasPfx])
        | cons c r => exact ⟨c, r, rfl⟩
      rw [hc1] at h2
      simp only [hasPfx, Bool.and_eq_true, beq_iff_eq] at h2
      obtain ⟨h0, hx, _⟩ := h2
      subst h0 hx
      unfold parse_define
      rw [hc, hc1, if_neg (by simp [hasPfx])]
    · rw [if_neg h2] at h
      exact absurd h (by simp)

theorem add_define_tables (d : GrotopData) (x : String) :
    (add_define d x).moltypes = d.moltypes ∧ (add_define d x).atomtypes = d.atomtypes ∧
      (add_define d x).molecules = d.molecules := by
  unfold add_define
  split
  · exact ⟨rfl, rfl, rfl⟩
  · split
    · exact ⟨rfl, rfl, rfl⟩
    · exact ⟨rfl, rfl, rfl⟩

theorem add_define_defined (d : GrotopData) (x : String)
    (hcap : d.defines.length < MAX_DEFINES) : is_defined (add_define d x) x = true := by
  unfold add_define
  rw [if_neg (by omega)]
  by_cases h : is_defined d x = true
  · rw [if_pos h]; exact h
  · rw [if_neg h]
    unfold is_defined at *
    simp

end Grotop

namespace Grotop

theorem scanSection_cons_dir {α : Type} (step : String → α → α) (l : String)
    (ls : List String) (a : α) (h : isDirective l = true) :
    scanSection step (l :: ls) a = (a, l :: ls) := by
  rw [scanSection.eq_2, if_pos h]

theorem scanSection_cons_empty {α : Type} (step : String → α → α) (l : String)
    (ls : List String) (a : α) (h1 : isDirective l = false)
    (h2 : (stripComments l).data.length = 0) :
    scanSection step (l :: ls) a = scanSection step ls a := by
  rw [scanSection.eq_2, if_neg (by rw [h1]; exact Bool.noConfusion)]
  dsimp only
  rw [if_pos h2]

theorem scanSection_cons_header {α : Type} (step : String → α → α) (l : String)
    (ls : List String) (a : α) (nm : String) (h1 : isDirective l = false)
    (h2 : ¬ (stripComments l).data.length = 0)
    (h3 : sectionNameOf (stripComments l) = some nm) :
    scanSection step (l :: ls) a = (a, l :: ls) := by
  rw [scanSection.eq_2, if_neg (by rw [h1]; exact Bool.noConfusion)]
  dsimp only
  rw [if_neg h2, h3]

theorem scanSection_cons_rec {α : Type} (step : String → α → α) (l : String)
    (ls : List String) (a : α) (h1 : isDirective l = false)
    (h2 : ¬ (stripComments l).data.length = 0)
    (h3 : sectionNameOf (stripComments l) = none) :
    scanSection step (l :: ls) a = scanSection step ls (step (stripComments l) a) := by
  rw [scanSection.eq_2, if_neg (by rw [h1]; exact Bool.noConfusion)]
  dsimp only
  rw [if_neg h2, h3]

end Grotop

namespace Grotop

theorem parseMtHeader_cons_empty (l : String) (ls : List String)
    (h : (stripComments l).data.length = 0) :
    parseMtHeader (l :: ls) = parseMtHeader ls := by
  rw [parseMtHeader.eq_2]
  rw [if_pos h]

theorem parseMtHeader_cons_header (l : String) (ls : List String) (nm : String)
    (h1 : ¬ (stripComments l).data.length = 0)
    (h2 : sectionNameOf (stripComments l) = some nm) :
    parseMtHeader (l :: ls) = (none, ls) := by
  rw [parseMtHeader.eq_2]
  rw [if_neg h1, h2]

theorem parseMtHeader_cons_name (l : String) (ls : List String) (nmr : String × Int)
    (h1 : ¬ (stripComments l).data.length = 0)
    (h2 : sectionNameOf (stripComments l) = none)
    (h3 : parseMtNameLine (stripComments l) = some nmr) :
    parseMtHeader (l :: ls) = (some nmr, ls) := by
  rw [parseMtHeader.eq_2]
  rw [if_neg h1, h2, h3]

theorem parseMtHeader_cons_skip (l : String) (ls : List String)
    (h1 : ¬ (stripComments l).data.length = 0)
    (h2 : sectionNameOf (stripComments l) = none)
    (h3 : parseMtNameLine (stripComments l) = none) :
    parseMtHeader (l :: ls) = parseMtHeader ls := by
  rw [parseMtHeader.eq_2]
  rw [if_neg h1, h2, h3]

theorem updSec_of_empty (sec : String) (l : String)
    (h : (stripComments l).data.length = 0) : updSec sec l = sec := by
  unfold updSec
  have hsn : sectionNameOf (stripComments l) = none := by
    unfold sectionNameOf
    rw [List.length_eq_zero.mp h]
    rfl
  rw [hsn]

theorem updSec_of_none (sec : String) (l : String)
    (h : sectionNameOf (stripComments l) = none) : updSec sec l = sec := by
  unfold updSec
  rw [h]

theorem updSec_of_some (sec : String) (l : String) (nm : String)
    (h : sectionNameOf (stripComments l) = some nm) : updSec sec l = nm := by
  unfold updSec
  rw [h]

/-- Appending more lines to a section scan: either the scan stops inside the
first part (and the stop suffix carries over), or the first part is consumed
entirely and the scan continues into the second. -/
theorem scanSection_append {α : Type} (step : String → α → α) :
    ∀ (w ext : List String) (a : α),
      ((scanSection step w a).2 ≠ [] ∧
        scanSection step (w ++ ext) a =
          ((scanSection step w a).1, (scanSection step w a).2 ++ ext)) ∨
      ((scanSection step w a).2 = [] ∧
        scanSection step (w ++ ext) a = scanSection step ext (scanSection step w a).1) := by
  intro w
  induction w with
  | nil => intro ext a; right; exact ⟨rfl, rfl⟩
  | cons l w ih =>
    intro ext a
    rw [List.cons_append]
    by_cases hd : isDirective l
    · rw [scanSection_cons_dir step l _ a hd, scanSection_cons_dir step l _ a hd]
      left
      exact ⟨by simp, rfl⟩
    · have hd' : isDirective l = false := by
        cases hx : isDirective l
        · rfl
        · exact absurd hx hd
      by_cases he : (stripComments l).data.length = 0
      · rw [scanSection_cons_empty step l _ a hd' he, scanSection_cons_empty step l _ a hd' he]
        exact ih ext a
      · cases hs : sectionNameOf (stripComments l) with
        | some nm =>
          rw [scanSection_cons_header step l _ a nm hd' he hs,
            scanSection_cons_header step l _ a nm hd' he hs]
          left
          exact ⟨by simp, rfl⟩
        | none =>
          rw [scanSection_cons_rec step l _ a hd' he hs,
            scanSection_cons_rec step l _ a hd' he hs]
          exact ih ext _

/-- The line a section scan stops at is a raw directive or a header. -/
theorem scanSection_stop {α : Type} (step : String → α → α) :
    ∀ (ls : List String) (a : α) (l : String) (r : List String),
      (scanSection step ls a).2 = l :: r →
      isDirective l = true ∨ ∃ nm, sectionNameOf (stripComments l) = some nm := by
  intro ls
  induction ls with
  | nil => intro a l r h; exact absurd h (by simp [scanSection])
  | cons x ls ih =>
    intro a l r h
    by_cases hd : isDirective x
    · rw [scanSection_cons_dir step x _ a hd] at h
      rw [List.cons.injEq] at h
      rw [← h.1]
      exact Or.inl hd
    · have hd' : isDirective x = false := by
        cases hx : isDirective x
        · rfl
        · exact absurd hx hd
      by_cases he : (stripComments x).data.length = 0
      · rw [scanSection_cons_empty step x _ a hd' he] at h
        exact ih a l r h
      · cases hs : sectionNameOf (stripComments x) with
        | some nm =>
          rw [scanSection_cons_header step x _ a nm hd' he hs] at h
          rw [List.cons.injEq] at h
          rw [← h.1]
          exact Or.inr ⟨nm, hs⟩
        | none =>
          rw [scanSection_cons_rec step x _ a hd' he hs] at h
          exact ih _ l r h

/-- The lines a section scan consumes never change the current section. -/
theorem scanSection_secAt {α : Type} (step : String → α → α) :
    ∀ (ls : List String) (a : α) (sec : String),
      secAt sec ls = secAt sec (scanSection step ls a).2 := by
  intro ls
  induction ls with
  | nil => intro a sec; rfl
  | cons x ls ih =>
    intro a sec
    by_cases hd : isDirective x
    · rw [scanSection_cons_dir step x _ a hd]
    · have hd' : isDirective x = false := by
        cases hx : isDirective x
        · rfl
        · exact absurd hx hd
      by_cases he : (stripComments x).data.length = 0
      · rw [scanSection_cons_empty step x _ a hd' he, secAt_cons, updSec_of_empty sec x he]
        exact ih a sec
      · cases hs : sectionNameOf (stripComments x) with
        | some nm => rw [scanSection_cons_header step x _ a nm hd' he hs]
        | none =>
          rw [scanSection_cons_rec step x _ a hd' he hs, secAt_cons, updSec_of_none sec x hs]
          exact ih _ sec

/-- A section scan consumes a prefix: the stop suffix really is a suffix. -/
theorem scanSection_suffix {α : Type} (step : String → α → α) :
    ∀ (ls : List String) (a : α), ∃ c, ls = c ++ (scanSection step ls a).2 := by
  intro ls
  induction ls with
  | nil => intro a; exact ⟨[], rfl⟩
  | cons x ls ih =>
    intro a
    by_cases hd : isDirective x
    · rw [scanSection_cons_dir step x _ a hd]; exact ⟨[], rfl⟩
    · have hd' : isDirective x = false := by
        cases hx : isDirective x
        · rfl
        · exact absurd hx hd
      by_cases he : (stripComments x).data.length = 0
      · rw [scanSection_cons_empty step x _ a hd' he]
        obtain ⟨c, hc⟩ := ih a
        exact ⟨x :: c, by rw [List.cons_append, ← hc]⟩
      · cases hs : sectionNameOf (stripComments x) with
        | some nm =>
          rw [scanSection_cons_header step x _ a nm hd' he hs]
          exact ⟨[], rfl⟩
        | none =>
          rw [scanSection_cons_rec step x _ a hd' he hs]
          obtain ⟨c, hc⟩ := ih (step (stripComments x) a)
          exact ⟨x :: c, by rw [List.cons_append, ← hc]⟩

/-- Lockstep scan of the same lines from related states. -/
theorem scanSection_rel {α : Type} (step : String → α → α) (R : α → α → Prop)
    (hstep : ∀ s a b, R a b → R (step s a) (step s b)) :
    ∀ (ls : List String) (a b : α), R a b →
      R (scanSection step ls a).1 (scanSection step ls b).1 ∧
        (scanSection step ls a).2 = (scanSection step ls b).2 := by
  intro ls
  induction ls with
  | nil => intro a b h; exact ⟨h, rfl⟩
  | cons x ls ih =>
    intro a b h
    by_cases hd : isDirective x
    · rw [scanSection_cons_dir step x _ a hd, scanSection_cons_dir step x _ b hd]
      exact ⟨h, rfl⟩
    · have hd' : isDirective x = false := by
        cases hx : isDirective x
        · rfl
        · exact absurd hx hd
      by_cases he : (stripComments x).data.length = 0
      · rw [scanSection_cons_empty step x _ a hd' he, scanSection_cons_empty step x _ b hd' he]
        exact ih a b h
      · cases hs : sectionNameOf (stripComments x) with
        | some nm =>
          rw [scanSection_cons_header step x _ a nm hd' he hs,
            scanSection_cons_header step x _ b nm hd' he hs]
          exact ⟨h, rfl⟩
        | none =>
          rw [scanSection_cons_rec step x _ a hd' he hs,
            scanSection_cons_rec step x _ b hd' he hs]
          exact ih _ _ (hstep _ a b h)

/-- `parseMtHeader` on an extended list: the header parse finishes inside
the first part, or the first part is consumed entirely without a decision. -/
theorem parseMtHeader_append :
    ∀ (w ext : List String),
      (∃ nmr r, parseMtHeader w = (some nmr, r) ∧
        parseMtHeader (w ++ ext) = (some nmr, r ++ ext) ∧ r.length < w.length ∧
        (∃ c, w = c ++ r) ∧ (∀ sec, secAt sec w = secAt sec r)) ∨
      (∃ r, parseMtHeader w = ((none : Option (String × Int)), r) ∧ r.length < w.length ∧
        parseMtHeader (w ++ ext) = (none, r ++ ext)) ∨
      (parseMtHeader w = (none, []) ∧ parseMtHeader (w ++ ext) = parseMtHeader ext ∧
        (∀ sec, secAt sec w = sec)) := by
  intro w
  induction w with
  | nil => intro ext; right; right; exact ⟨rfl, rfl, fun sec => rfl⟩
  | cons l w ih =>
    intro ext
    rw [List.cons_append]
    by_cases he : (stripComments l).data.length = 0
    · rw [parseMtHeader_cons_empty l _ he, parseMtHeader_cons_empty l _ he]
      rcases ih ext with ⟨nmr, r, h1, h2, h3, ⟨c, hc⟩, h4⟩ | ⟨r, h1, h2, h3⟩ | ⟨h1, h2, h3⟩
      · left
        refine ⟨nmr, r, h1, h2, by simp; omega, ⟨l :: c, by rw [List.cons_append, ← hc]⟩, ?_⟩
        intro sec
        rw [secAt_cons, updSec_of_empty sec l he]
        exact h4 sec
      · right; left
        exact ⟨r, h1, by simp; omega, h3⟩
      · right; right
        refine ⟨h1, h2, ?_⟩
        intro sec
        rw [secAt_cons, updSec_of_empty sec l he]
        exact h3 sec
    · cases hs : sectionNameOf (stripComments l) with
      | some nm =>
        rw [parseMtHeader_cons_header l _ nm he hs, parseMtHeader_cons_header l _ nm he hs]
        right; left
        exact ⟨w, rfl, by simp, rfl⟩
      | none =>
        cases hp : parseMtNameLine (stripComments l) with
        | some nmr =>
          rw [parseMtHeader_cons_name l _ nmr he hs hp, parseMtHeader_cons_name l _ nmr he hs hp]
          left
          refine ⟨nmr, w, rfl, rfl, by simp, ⟨[l], rfl⟩, ?_⟩
          intro sec
          rw [secAt_cons, updSec_of_none sec l hs]
        | none =>
          rw [parseMtHeader_cons_skip l _ he hs hp, parseMtHeader_cons_skip l _ he hs hp]
          rcases ih ext with ⟨nmr, r, h1, h2, h3, ⟨c, hc⟩, h4⟩ | ⟨r, h1, h2, h3⟩ | ⟨h1, h2, h3⟩
          · left
            refine ⟨nmr, r, h1, h2, by simp; omega, ⟨l :: c, by rw [List.cons_append, ← hc]⟩, ?_⟩
            intro sec
            rw [secAt_cons, updSec_of_none sec l hs]
            exact h4 sec
          · right; left
            exact ⟨r, h1, by simp; omega, h3⟩
          · right; right
            refine ⟨h1, h2, ?_⟩
            intro sec
            rw [secAt_cons, updSec_of_none sec l hs]
            exact h3 sec

end Grotop

namespace Grotop

/-- One loop iteration on a non-directive line with an all-true stack. -/
theorem parseLoopF_step_plain (fs : List (String × List String)) (fuel depth : Nat)
    (path : String) (data : GrotopData) (cur : Option Nat) (sec : String)
    (stack : List Bool) (l : String) (rest : List String)
    (hd : isDirective l = false) (hst : stack.all (fun b => b) = true) :
    parseLoopF fs (fuel + 1) depth path data cur sec stack (l :: rest) =
      if (stripComments l).data.length = 0 then
        parseLoopF fs fuel depth path data cur sec stack rest
      else
        match sectionNameOf (stripComments l) with
        | some nm => contS fs fuel depth path data cur nm stack rest
        | none => parseLoopF fs fuel depth path data cur sec stack rest := by
  obtain ⟨h1, h2, h3, h4, h5⟩ := nondirective_none l hd
  rw [parseLoopF.eq_3, h1]
  dsimp only
  rw [h2]
  dsimp only
  rw [h3, h4]
  simp only [Bool.false_eq_true, if_false, hst, if_true, h5]
  rfl

/-- One loop iteration on a `#define` line. -/
theorem parseLoopF_step_define (fs : List (String × List String)) (fuel depth : Nat)
    (path : String) (data : GrotopData) (cur : Option Nat) (sec : String)
    (stack : List Bool) (l : String) (rest : List String) (X : String)
    (hpd : parse_define l = some X) :
    parseLoopF fs (fuel + 1) depth path data cur sec stack (l :: rest) =
      if sec = "" then
        parseLoopF fs fuel depth path (add_define data X) cur sec stack rest
      else contS fs fuel depth path (add_define data X) cur sec stack rest := by
  rw [parseLoopF.eq_3, hpd]
  rfl

/-- One loop iteration on an `#ifdef` line, below the nesting limit. -/
theorem parseLoopF_step_ifdef (fs : List (String × List String)) (fuel depth : Nat)
    (path : String) (data : GrotopData) (cur : Option Nat) (sec : String)
    (stack : List Bool) (l : String) (rest : List String) (X : String)
    (hpi : parse_ifdef l = some (X, false))
    (hdep : ¬ MAX_IFDEF_DEPTH ≤ stack.length) :
    parseLoopF fs (fuel + 1) depth path data cur sec stack (l :: rest) =
      if sec = "" then
        parseLoopF fs fuel depth path data cur sec (is_defined data X :: stack) rest
      else contS fs fuel depth path data cur sec (is_defined data X :: stack) rest := by
  rw [parseLoopF.eq_3, ifdef_excl l (X, false) hpi, hpi]
  dsimp only
  rw [if_neg hdep]
  rfl

/-- One loop iteration on an `#endif` line with a non-empty stack. -/
theorem parseLoopF_step_endif (fs : List (String × List String)) (fuel depth : Nat)
    (path : String) (data : GrotopData) (cur : Option Nat) (sec : String)
    (stack : List Bool) (l : String) (rest : List String)
    (hend : isEndifDirective l = true) (hne : stack.isEmpty = false) :
    parseLoopF fs (fuel + 1) depth path data cur sec stack (l :: rest) =
      if sec = "" then
        parseLoopF fs fuel depth path data cur sec stack.tail rest
      else contS fs fuel depth path data cur sec stack.tail rest := by
  obtain ⟨h1, h2, h3⟩ := endif_excl l hend
  rw [parseLoopF.eq_3, h1]
  dsimp only
  rw [h2]
  dsimp only
  rw [h3, hend]
  simp only [Bool.false_eq_true, if_false, if_true, hne]
  rfl

end Grotop

namespace Grotop

/-- The state relation threaded through the directive-erasure argument:
equal observable tables plus a defines-only side condition on the first
run's state. -/
def RelP (P : GrotopData → Prop) (a b : GrotopData) : Prop := sameTables a b ∧ P a

theorem atomtypeStep_rel (P : GrotopData → Prop)
    (hPdef : ∀ a b, P a → a.defines = b.defines → P b) (s : String) (a b : GrotopData)
    (h : RelP P a b) : RelP P (atomtypeStep s a) (atomtypeStep s b) := by
  obtain ⟨⟨ht1, ht2, ht3⟩, hp⟩ := h
  unfold atomtypeStep
  cases hpl : parseAtomtypeLine s with
  | none => exact ⟨⟨ht1, ht2, ht3⟩, hp⟩
  | some t =>
    rw [ht2]
    dsimp only
    by_cases hlen : b.atomtypes.length < MAX_ATOMTYPES
    · rw [if_pos hlen, if_pos hlen]
      exact ⟨⟨ht1, by simp [ht2], ht3⟩, hPdef a _ hp rfl⟩
    · rw [if_neg hlen, if_neg hlen]
      exact ⟨⟨ht1, ht2, ht3⟩, hp⟩

theorem moleculesStep_rel (P : GrotopData → Prop)
    (hPdef : ∀ a b, P a → a.defines = b.defines → P b) (s : String) (a b : GrotopData)
    (h : RelP P a b) : RelP P (moleculesStep s a) (moleculesStep s b) := by
  obtain ⟨⟨ht1, ht2, ht3⟩, hp⟩ := h
  unfold moleculesStep
  cases hpl : parseMoleculesLine s with
  | none => exact ⟨⟨ht1, ht2, ht3⟩, hp⟩
  | some e =>
    rw [ht3]
    dsimp only
    by_cases hlen : b.molecules.length < MAX_MOLECULES
    · rw [if_pos hlen, if_pos hlen]
      exact ⟨⟨ht1, ht2, by simp [ht3]⟩, hPdef a _ hp rfl⟩
    · rw [if_neg hlen, if_neg hlen]
      exact ⟨⟨ht1, ht2, ht3⟩, hp⟩

theorem updMt_rel (P : GrotopData → Prop)
    (hPdef : ∀ a b, P a → a.defines = b.defines → P b) (i : Nat) (m : Moltype)
    (a b : GrotopData) (h : RelP P a b) : RelP P (updMt a i m) (updMt b i m) := by
  obtain ⟨⟨ht1, ht2, ht3⟩, hp⟩ := h
  exact ⟨⟨by simp [updMt, ht1], ht2, ht3⟩, hPdef a _ hp rfl⟩

theorem mtAppend_rel (P : GrotopData → Prop)
    (hPdef : ∀ a b, P a → a.defines = b.defines → P b) (mt : Moltype)
    (a b : GrotopData) (h : RelP P a b) :
    RelP P { a with moltypes := a.moltypes ++ [mt] }
      { b with moltypes := b.moltypes ++ [mt] } := by
  obtain ⟨⟨ht1, ht2, ht3⟩, hp⟩ := h
  exact ⟨⟨by simp [ht1], ht2, ht3⟩, hPdef a _ hp rfl⟩

theorem add_define_rel (P : GrotopData → Prop) (X : String) (a b : GrotopData)
    (h : sameTables a b) : sameTables (add_define a X) b := by
  obtain ⟨ht1, ht2, ht3⟩ := h
  obtain ⟨g1, g2, g3⟩ := add_define_tables a X
  exact ⟨g1.trans ht1, g2.trans ht2, g3.trans ht3⟩

/-- Section names outside every recognized branch: `process_section` is the
identity. -/
theorem procInert_unknown (sec : String) (mts : List Moltype) (cur : Option Nat)
    (h1 : sec ≠ "atomtypes") (h2 : sec ≠ "moleculetype") (h3 : sec ≠ "atoms")
    (h4 : sec ≠ "bonds") (h5 : sec ≠ "constraints") (h6 : sec ≠ "angles")
    (h7 : sec ≠ "dihedrals") (h8 : sec ≠ "molecules")
    (h9 : skipSections.contains sec = false) : procInert sec mts cur := by
  intro d ls _
  unfold process_section
  rw [if_neg h1, if_neg h2, if_neg h3, if_neg h4, if_neg h5, if_neg h6, if_neg h7,
    if_neg h8, if_neg (by rw [h9]; exact Bool.noConfusion)]

/-- A molecule-type record section with no current molecule type: identity. -/
theorem secOnMt_none (step : String → Moltype → Moltype) (d : GrotopData)
    (ls : List String) : secOnMt step d none ls = (d, none, ls) := rfl

/-- A molecule-type record section whose index is out of range: identity. -/
theorem secOnMt_getnone (step : String → Moltype → Moltype) (d : GrotopData) (i : Nat)
    (ls : List String) (h : d.moltypes.get? i = none) :
    secOnMt step d (some i) ls = (d, some i, ls) := by
  unfold secOnMt
  dsimp only
  rw [h]

theorem updMt_updMt (d : GrotopData) (i : Nat) (m1 m2 : Moltype) :
    updMt (updMt d i m1) i m2 = updMt d i m2 := by
  simp [updMt, List.set_set]

theorem updMt_get (d : GrotopData) (i : Nat) (m : Moltype) (mt0 : Moltype)
    (h : d.moltypes.get? i = some mt0) : (updMt d i m).moltypes.get? i = some m := by
  have hlt : i < d.moltypes.length := List.get?_eq_some.mp h |>.1
  simp [updMt, List.get?_set, hlt]

end Grotop

namespace Grotop

theorem contS_atomtypes (fs : List (String × List String)) (n depth : Nat) (p : String)
    (d : GrotopData) (cur : Option Nat) (stack : List Bool) (ls : List String) :
    contS fs n depth p d cur ("atomtypes") stack ls =
      parseLoopF fs n depth p (scanSection atomtypeStep ls d).1 cur ("atomtypes") stack
        (scanSection atomtypeStep ls d).2 := by
  unfold contS process_section
  rw [if_pos rfl]

theorem contS_molecules (fs : List (String × List String)) (n depth : Nat) (p : String)
    (d : GrotopData) (cur : Option Nat) (stack : List Bool) (ls : List String) :
    contS fs n depth p d cur ("molecules") stack ls =
      parseLoopF fs n depth p (scanSection moleculesStep ls d).1 cur ("molecules") stack
        (scanSection moleculesStep ls d).2 := by
  unfold contS process_section
  rw [if_neg (by decide), if_neg (by decide), if_neg (by decide), if_neg (by decide),
    if_neg (by decide), if_neg (by decide), if_neg (by decide), if_pos rfl]

theorem contS_atoms (fs : List (String × List String)) (n depth : Nat) (p : String)
    (d : GrotopData) (cur : Option Nat) (stack : List Bool) (ls : List String) :
    contS fs n depth p d cur ("atoms") stack ls =
      parseLoopF fs n depth p (secOnMt atomStep d cur ls).1 (secOnMt atomStep d cur ls).2.1
        ("atoms") stack (secOnMt atomStep d cur ls).2.2 := by
  unfold contS process_section
  rw [if_neg (by decide), if_neg (by decide), if_pos rfl]

theorem contS_bonds (fs : List (String × List String)) (n depth : Nat) (p : String)
    (d : GrotopData) (cur : Option Nat) (stack : List Bool) (ls : List String) :
    contS fs n depth p d cur ("bonds") stack ls =
      parseLoopF fs n depth p (secOnMt bondStep d cur ls).1 (secOnMt bondStep d cur ls).2.1
        ("bonds") stack (secOnMt bondStep d cur ls).2.2 := by
  unfold contS process_section
  rw [if_neg (by decide), if_neg (by decide), if_neg (by decide), if_pos rfl]

theorem contS_constraints (fs : List (String × List String)) (n depth : Nat) (p : String)
    (d : GrotopData) (cur : Option Nat) (stack : List Bool) (ls : List String) :
    contS fs n depth p d cur ("constraints") stack ls =
      parseLoopF fs n depth p (secOnMt bondStep d cur ls).1 (secOnMt bondStep d cur ls).2.1
        ("constraints") stack (secOnMt bondStep d cur ls).2.2 := by
  unfold contS process_section
  rw [if_neg (by decide), if_neg (by decide), if_neg (by decide), if_neg (by decide), if_pos rfl]

theorem contS_angles (fs : List (String × List String)) (n depth : Nat) (p : String)
    (d : GrotopData) (cur : Option Nat) (stack : List Bool) (ls : List String) :
    contS fs n depth p d cur ("angles") stack ls =
      parseLoopF fs n depth p (secOnMt angleStep d cur ls).1 (secOnMt angleStep d cur ls).2.1
        ("angles") stack (secOnMt angleStep d cur ls).2.2 := by
  unfold contS process_section
  rw [if_neg (by decide), if_neg (by decide), if_neg (by decide), if_neg (by decide), if_neg (by decide), if_pos rfl]

theorem contS_dihedrals (fs : List (String × List String)) (n depth : Nat) (p : String)
    (d : GrotopData) (cur : Option Nat) (stack : List Bool) (ls : List String) :
    contS fs n depth p d cur ("dihedrals") stack ls =
      parseLoopF fs n depth p (secOnMt dihedralStep d cur ls).1 (secOnMt dihedralStep d cur ls).2.1
        ("dihedrals") stack (secOnMt dihedralStep d cur ls).2.2 := by
  unfold contS process_section
  rw [if_neg (by decide), if_neg (by decide), if_neg (by decide), if_neg (by decide), if_neg (by decide), if_neg (by decide), if_pos rfl]

theorem contS_mt (fs : List (String × List String)) (n depth : Nat) (p : String)
    (d : GrotopData) (cur : Option Nat) (stack : List Bool) (ls : List String) :
    contS fs n depth p d cur ("moleculetype") stack ls =
      match parseMtHeader ls with
      | (none, _) => .fatal
      | (some (nm, nr), r) =>
        if d.moltypes.length < MAX_MOLTYPES then
          parseLoopF fs n depth p
            { d with moltypes := d.moltypes ++ [⟨nm, nr, [], [], [], []⟩] }
            (some d.moltypes.length) ("moleculetype") stack r
        else .fatal := by
  unfold contS process_section
  rw [if_neg (by decide), if_pos rfl]
  rcases hp : parseMtHeader ls with ⟨res, r⟩
  cases res with
  | none => rfl
  | some nmr =>
    rcases nmr with ⟨nm, nr⟩
    dsimp only
    by_cases hcap : d.moltypes.length < MAX_MOLTYPES
    · rw [if_pos hcap, if_pos hcap]
    · rw [if_neg hcap, if_neg hcap]

theorem skip_ne (sec : String) (h : skipSections.contains sec = true) :
    sec ≠ "atomtypes" ∧ sec ≠ "moleculetype" ∧ sec ≠ "atoms" ∧ sec ≠ "bonds" ∧
      sec ≠ "constraints" ∧ sec ≠ "angles" ∧ sec ≠ "dihedrals" ∧ sec ≠ "molecules" := by
  simp only [skipSections, List.contains_cons, Bool.or_eq_true, beq_iff_eq,
    List.contains_nil, Bool.or_false] at h
  rcases h with rfl | rfl | rfl | rfl | rfl | rfl <;>
    exact ⟨by decide, by decide, by decide, by decide, by decide, by decide, by decide,
      by decide⟩

theorem contS_skip (fs : List (String × List String)) (n depth : Nat) (p : String)
    (d : GrotopData) (cur : Option Nat) (sec : String) (stack : List Bool)
    (ls : List String) (h : skipSections.contains sec = true) :
    contS fs n depth p d cur sec stack ls =
      parseLoopF fs n depth p d cur sec stack (scanSection (fun _ a => a) ls ()).2 := by
  obtain ⟨h1, h2, h3, h4, h5, h6, h7, h8⟩ := skip_ne sec h
  unfold contS process_section
  rw [if_neg h1, if_neg h2, if_neg h3, if_neg h4, if_neg h5, if_neg h6, if_neg h7,
    if_neg h8, if_pos h]

theorem contS_inert (fs : List (String × List String)) (n depth : Nat) (p : String)
    (d : GrotopData) (cur : Option Nat) (sec : String) (stack : List Bool)
    (ls : List String) (h : procInert sec d.moltypes cur) :
    contS fs n depth p d cur sec stack ls = parseLoopF fs n depth p d cur sec stack ls := by
  unfold contS
  rw [h d ls rfl]

/-- Resuming a molecule-type record scan after its lines were split. -/
theorem secOnMt_resume (step : String → Moltype → Moltype) (d : GrotopData) (i : Nat)
    (mt0 : Moltype) (w ext : List String) (hget : d.moltypes.get? i = some mt0)
    (hfull : (scanSection step w mt0).2 = []) :
    secOnMt step d (some i) (w ++ ext) =
      secOnMt step (updMt d i (scanSection step w mt0).1) (some i) ext := by
  rcases scanSection_append step w ext mt0 with ⟨hne, _⟩ | ⟨_, heq⟩
  · exact absurd hfull hne
  · unfold secOnMt
    dsimp only
    rw [hget, updMt_get d i _ mt0 hget]
    dsimp only
    rw [heq, updMt_updMt]

theorem procInert_mtsub_none (sec : String) (step : String → Moltype → Moltype)
    (mts : List Moltype)
    (hsec : ∀ (d : GrotopData) (cur : Option Nat) (ls : List String),
      process_section sec d cur ls = some (secOnMt step d cur ls)) :
    procInert sec mts none := by
  intro d ls _
  rw [hsec d none ls, secOnMt_none]

theorem procInert_mtsub_getnone (sec : String) (step : String → Moltype → Moltype)
    (mts : List Moltype) (i : Nat) (hg : mts.get? i = none)
    (hsec : ∀ (d : GrotopData) (cur : Option Nat) (ls : List String),
      process_section sec d cur ls = some (secOnMt step d cur ls)) :
    procInert sec mts (some i) := by
  intro d ls hd
  rw [hsec d (some i) ls, secOnMt_getnone step d i ls (by rw [hd]; exact hg)]

end Grotop

namespace Grotop

set_option maxHeartbeats 4000000 in
/-- The central simulation: walking a directive-free stretch of lines, a run
and its directive-erased counterpart stay related, both at loop tops (first
conjunct) and inside a freshly dispatched section (second conjunct); the
tails `extA`/`extB` behind the stretch are handled by the continuation
hypotheses `hnextL`/`hnextS`. -/
theorem master_generic (P : GrotopData → Prop)
    (hPdef : ∀ a b, P a → a.defines = b.defines → P b)
    (extA extB : List String) (stackA : List Bool)
    (hstackA : stackA.all (fun b => b) = true)
    (M : String → Prop)
    (hnextL : ∀ (fsA fsB : List (String × List String)) (nA nB depth : Nat)
      (pA pB : String) (dataA dataB : GrotopData) (cur : Option Nat) (sec : String),
      RelP P dataA dataB → M sec →
      (sec = "" ∨ procInert sec dataA.moltypes cur) →
      parseLoopF fsA nA depth pA dataA cur sec stackA extA ≠ .out →
      parseLoopF fsB nB depth pB dataB cur sec [] extB ≠ .out →
      projP (parseLoopF fsA nA depth pA dataA cur sec stackA extA) =
        projP (parseLoopF fsB nB depth pB dataB cur sec [] extB))
    (hnextS : ∀ (fsA fsB : List (String × List String)) (nA nB depth : Nat)
      (pA pB : String) (dataA dataB : GrotopData) (cur : Option Nat) (sec : String),
      RelP P dataA dataB → M sec → sec ≠ "moleculetype" →
      contS fsA nA depth pA dataA cur sec stackA extA ≠ .out →
      contS fsB nB depth pB dataB cur sec [] extB ≠ .out →
      projP (contS fsA nA depth pA dataA cur sec stackA extA) =
        projP (contS fsB nB depth pB dataB cur sec [] extB)) :
    ∀ N : Nat,
      (∀ (w : List String) (fsA fsB : List (String × List String)) (nA nB depth : Nat)
        (pA pB : String) (dataA dataB : GrotopData) (cur : Option Nat) (sec : String),
        2 * w.length = N →
        (∀ l ∈ w, isDirective l = false) →
        RelP P dataA dataB →
        secAt sec w ≠ "moleculetype" →
        M (secAt sec w) →
        ((∃ l t nm, w = l :: t ∧ sectionNameOf (stripComments l) = some nm) ∨
          sec = "" ∨ sec = "moleculetype" ∨ procInert sec dataA.moltypes cur) →
        parseLoopF fsA nA depth pA dataA cur sec stackA (w ++ extA) ≠ .out →
        parseLoopF fsB nB depth pB dataB cur sec [] (w ++ extB) ≠ .out →
        projP (parseLoopF fsA nA depth pA dataA cur sec stackA (w ++ extA)) =
          projP (parseLoopF fsB nB depth pB dataB cur sec [] (w ++ extB))) ∧
      (∀ (w : List String) (fsA fsB : List (String × List String)) (nA nB depth : Nat)
        (pA pB : String) (dataA dataB : GrotopData) (cur : Option Nat) (sec : String),
        2 * w.length + 1 = N →
        (∀ l ∈ w, isDirective l = false) →
        RelP P dataA dataB →
        secAt sec w ≠ "moleculetype" →
        M (secAt sec w) →
        contS fsA nA depth pA dataA cur sec stackA (w ++ extA) ≠ .out →
        contS fsB nB depth pB dataB cur sec [] (w ++ extB) ≠ .out →
        projP (contS fsA nA depth pA dataA cur sec stackA (w ++ extA)) =
          projP (contS fsB nB depth pB dataB cur sec [] (w ++ extB))) := by
  intro N
  induction N using Nat.strong_induction_on with
  | _ N ih =>
    constructor
    · -- loop-top mode
      intro w fsA fsB nA nB depth pA pB dataA dataB cur sec hN hnd hrel hm1 hm2 hL hA hB
      cases w with
      | nil =>
        rw [List.nil_append] at hA hB ⊢
        rcases hL with ⟨l, t, nm, hw, _⟩ | hsec | hsec | hsec
        · exact absurd hw (by simp)
        · exact hnextL fsA fsB nA nB depth pA pB dataA dataB cur sec hrel hm2
            (Or.inl hsec) hA hB
        · exact absurd hsec hm1
        · exact hnextL fsA fsB nA nB depth pA pB dataA dataB cur sec hrel hm2
            (Or.inr hsec) hA hB
      | cons l w =>
        cases nA with
        | zero => exact absurd rfl hA
        | succ a =>
        cases nB with
        | zero => exact absurd rfl hB
        | succ b =>
        have hdl : isDirective l = false := hnd l (by simp)
        have hnd' : ∀ x ∈ w, isDirective x = false := fun x hx => hnd x (by simp [hx])
        simp only [List.length_cons] at hN
        simp only [List.cons_append] at hA hB ⊢
        rw [parseLoopF_step_plain fsA a depth pA dataA cur sec stackA l _ hdl hstackA]
          at hA ⊢
        rw [parseLoopF_step_plain fsB b depth pB dataB cur sec [] l _ hdl rfl] at hB ⊢
        by_cases he : (stripComments l).data.length = 0
        · rw [if_pos he] at hA
          rw [if_pos he] at hB
          rw [if_pos he, if_pos he]
          have hu : updSec sec l = sec := updSec_of_empty sec l he
          have hL9 : (∃ l9 t9 nm9, w = l9 :: t9 ∧
              sectionNameOf (stripComments l9) = some nm9) ∨
              sec = "" ∨ sec = "moleculetype" ∨ procInert sec dataA.moltypes cur := by
            rcases hL with ⟨l9, t9, nm9, hw9, hs9⟩ | h | h | h
            · rw [List.cons.injEq] at hw9
              have hsn : sectionNameOf (stripComments l) = none := by
                unfold sectionNameOf
                rw [List.length_eq_zero.mp he]
                rfl
              rw [← hw9.1, hsn] at hs9
              exact absurd hs9 (by simp)
            · exact Or.inr (Or.inl h)
            · exact Or.inr (Or.inr (Or.inl h))
            · exact Or.inr (Or.inr (Or.inr h))
          rw [secAt_cons, hu] at hm1 hm2
          exact (ih (2 * w.length) (by omega)).1 w fsA fsB a b depth pA pB dataA dataB
            cur sec rfl hnd' hrel hm1 hm2 hL9 hA hB
        · rw [if_neg he] at hA
          rw [if_neg he] at hB
          rw [if_neg he, if_neg he]
          cases hs : sectionNameOf (stripComments l) with
          | none =>
            rw [hs] at hA hB
            have hu : updSec sec l = sec := updSec_of_none sec l hs
            have hL9 : (∃ l9 t9 nm9, w = l9 :: t9 ∧
                sectionNameOf (stripComments l9) = some nm9) ∨
                sec = "" ∨ sec = "moleculetype" ∨ procInert sec dataA.moltypes cur := by
              rcases hL with ⟨l9, t9, nm9, hw9, hs9⟩ | h | h | h
              · rw [List.cons.injEq] at hw9
                rw [← hw9.1, hs] at hs9
                exact absurd hs9 (by simp)
              · exact Or.inr (Or.inl h)
              · exact Or.inr (Or.inr (Or.inl h))
              · exact Or.inr (Or.inr (Or.inr h))
            rw [secAt_cons, hu] at hm1 hm2
            exact (ih (2 * w.length) (by omega)).1 w fsA fsB a b depth pA pB dataA dataB
              cur sec rfl hnd' hrel hm1 hm2 hL9 hA hB
          | some nm =>
            rw [hs] at hA hB
            have hu : updSec sec l = nm := updSec_of_some sec l nm hs
            rw [secAt_cons, hu] at hm1 hm2
            exact (ih (2 * w.length + 1) (by omega)).2 w fsA fsB a b depth pA pB dataA
              dataB cur nm rfl hnd' hrel hm1 hm2 hA hB
    · -- in-section mode
      intro w fsA fsB nA nB depth pA pB dataA dataB cur sec hN hnd hrel hm1 hm2 hA hB
      by_cases hsecAT : sec = "atomtypes"
      · subst hsecAT
        rw [contS_atomtypes] at hA
        rw [contS_atomtypes] at hB
        rw [contS_atomtypes, contS_atomtypes]
        obtain ⟨hrelW, hleft⟩ :=
          scanSection_rel atomtypeStep (RelP P) (atomtypeStep_rel P hPdef) w dataA dataB hrel
        rcases scanSection_append atomtypeStep w extA dataA with ⟨hne, heqA⟩ | ⟨hful, heqA⟩
        · have hneB : (scanSection atomtypeStep w dataB).2 ≠ [] := by rw [← hleft]; exact hne
          have heqB : scanSection atomtypeStep (w ++ extB) dataB =
              ((scanSection atomtypeStep w dataB).1, (scanSection atomtypeStep w dataB).2 ++ extB) := by
            rcases scanSection_append atomtypeStep w extB dataB with ⟨_, h⟩ | ⟨hf, _⟩
            · exact h
            · exact absurd hf hneB
          rcases hstop : (scanSection atomtypeStep w dataA).2 with _ | ⟨l, r⟩
          · exact absurd hstop hne
          have hstopB : (scanSection atomtypeStep w dataB).2 = l :: r := by
            rw [← hleft]; exact hstop
          obtain ⟨c, hcw⟩ := scanSection_suffix atomtypeStep w dataA
          rw [hstop] at hcw heqA
          rw [hstopB] at heqB
          obtain ⟨nm, hnm⟩ : ∃ nm, sectionNameOf (stripComments l) = some nm := by
            rcases scanSection_stop atomtypeStep w dataA l r hstop with hdir | hh
            · rw [hnd l (by rw [hcw]; exact List.mem_append.mpr (Or.inr (by simp)))] at hdir
              exact Bool.noConfusion hdir
            · exact hh
          have hsw : secAt ("atomtypes") w = secAt ("atomtypes") (l :: r) := by
            have hq := scanSection_secAt atomtypeStep w dataA ("atomtypes")
            rw [hstop] at hq
            exact hq
          rw [heqA] at hA ⊢
          rw [heqB] at hB ⊢
          dsimp only at hA hB ⊢
          have hwlen : (l :: r).length ≤ w.length := by
            have hq : w.length = c.length + (l :: r).length := by rw [hcw]; simp
            omega
          refine (ih (2 * (l :: r).length) (by omega)).1 (l :: r) fsA fsB nA nB depth pA pB
            _ _ cur ("atomtypes") rfl
            (fun x hx => hnd x (by rw [hcw]; exact List.mem_append.mpr (Or.inr hx)))
            hrelW (by rw [← hsw]; exact hm1) (by rw [← hsw]; exact hm2)
            (Or.inl ⟨l, r, nm, rfl, hnm⟩) hA hB
        · have hfulB : (scanSection atomtypeStep w dataB).2 = [] := by rw [← hleft]; exact hful
          have heqB : scanSection atomtypeStep (w ++ extB) dataB =
              scanSection atomtypeStep extB (scanSection atomtypeStep w dataB).1 := by
            rcases scanSection_append atomtypeStep w extB dataB with ⟨hf, _⟩ | ⟨_, h⟩
            · exact absurd hfulB hf
            · exact h
          have hsw : secAt ("atomtypes") w = ("atomtypes") := by
            have hq := scanSection_secAt atomtypeStep w dataA ("atomtypes")
            rw [hful] at hq
            exact hq
          rw [heqA] at hA ⊢
          rw [heqB] at hB ⊢
          rw [← contS_atomtypes] at hA
          rw [← contS_atomtypes] at hB
          rw [← contS_atomtypes, ← contS_atomtypes]
          exact hnextS fsA fsB nA nB depth pA pB _ _ cur ("atomtypes") hrelW
            (by rw [← hsw]; exact hm2) (by decide) hA hB
      by_cases hsecMT : sec = "moleculetype"
      · subst hsecMT
        rw [contS_mt] at hA
        rw [contS_mt] at hB
        rw [contS_mt, contS_mt]
        rcases parseMtHeader_append w extA with
          ⟨nmr, r, hpw, hpA9, hlen, ⟨c, hcw⟩, hsecf⟩ | ⟨r, hpw, hlen, hpA9⟩ | ⟨hpw, hpA9, hsecf⟩
        · have hpB9 : parseMtHeader (w ++ extB) = (some nmr, r ++ extB) := by
            rcases parseMtHeader_append w extB with
              ⟨nmr9, r9, hpw9, hpB8, _, _, _⟩ | ⟨r9, hpw9, _, _⟩ | ⟨hpw9, _, _⟩
            · rw [hpw9] at hpw
              rw [Prod.mk.injEq, Option.some.injEq] at hpw
              rw [hpB8, hpw.1, hpw.2]
            · rw [hpw9] at hpw
              rw [Prod.mk.injEq] at hpw
              exact absurd hpw.1 (by simp)
            · rw [hpw9] at hpw
              rw [Prod.mk.injEq] at hpw
              exact absurd hpw.1 (by simp)
          rw [hpA9] at hA ⊢
          rw [hpB9] at hB ⊢
          rcases nmr with ⟨nm, nr⟩
          dsimp only at hA hB ⊢
          have hmeq : dataB.moltypes.length = dataA.moltypes.length := by rw [hrel.1.1]
          by_cases hcap : dataA.moltypes.length < MAX_MOLTYPES
          · rw [if_pos hcap] at hA ⊢
            rw [if_pos (by rw [hmeq]; exact hcap)] at hB ⊢
            rw [hmeq] at hB ⊢
            refine (ih (2 * r.length) (by omega)).1 r fsA fsB nA nB depth pA pB _ _
              (some dataA.moltypes.length) ("moleculetype") rfl
              (fun x hx => hnd x (by rw [hcw]; exact List.mem_append.mpr (Or.inr hx)))
              (mtAppend_rel P hPdef _ dataA dataB hrel)
              (by rw [← hsecf]; exact hm1) (by rw [← hsecf]; exact hm2)
              (Or.inr (Or.inr (Or.inl rfl))) hA hB
          · rw [if_neg hcap] at hA ⊢
            rw [if_neg (by rw [hmeq]; exact hcap)] at hB ⊢
        · obtain ⟨resB, rB, hpB9⟩ : ∃ res rb, parseMtHeader (w ++ extB) = (res, rb) :=
            ⟨_, _, rfl⟩
          have hresB : resB = none := by
            rcases parseMtHeader_append w extB with
              ⟨nmr9, r9, hpw9, hpB8, _, _, _⟩ | ⟨r9, hpw9, _, hpB8⟩ | ⟨hpw9, hpB8, hse9⟩
            · rw [hpw9] at hpw
              rw [Prod.mk.injEq] at hpw
              exact absurd hpw.1 (by simp)
            · rw [hpB8] at hpB9
              rw [Prod.mk.injEq] at hpB9
              exact hpB9.1.symm
            · exact absurd (hse9 ("moleculetype")) hm1
          subst hresB
          rw [hpA9] at hA ⊢
          rw [hpB9] at hB ⊢
        · exact absurd (hsecf ("moleculetype")) hm1
      by_cases hsecatoms : sec = "atoms"
      · subst hsecatoms
        have hps : ∀ (d : GrotopData) (cur9 : Option Nat) (ls9 : List String),
            process_section ("atoms") d cur9 ls9 = some (secOnMt atomStep d cur9 ls9) := by
          intro d cur9 ls9
          unfold process_section
          rw [if_neg (by decide), if_neg (by decide), if_pos rfl]
        rw [contS_atoms] at hA
        rw [contS_atoms] at hB
        rw [contS_atoms, contS_atoms]
        cases cur with
        | none =>
          rw [secOnMt_none] at hA
          rw [secOnMt_none] at hB
          rw [secOnMt_none, secOnMt_none]
          exact (ih (2 * w.length) (by omega)).1 w fsA fsB nA nB depth pA pB dataA dataB
            none ("atoms") rfl hnd hrel hm1 hm2
            (Or.inr (Or.inr (Or.inr (procInert_mtsub_none _ atomStep _ hps)))) hA hB
        | some i =>
          cases hget : dataA.moltypes.get? i with
          | none =>
            have hgetB : dataB.moltypes.get? i = none := by rw [← hrel.1.1]; exact hget
            rw [secOnMt_getnone _ _ _ _ hget] at hA ⊢
            rw [secOnMt_getnone _ _ _ _ hgetB] at hB ⊢
            exact (ih (2 * w.length) (by omega)).1 w fsA fsB nA nB depth pA pB dataA dataB
              (some i) ("atoms") rfl hnd hrel hm1 hm2
              (Or.inr (Or.inr (Or.inr (procInert_mtsub_getnone _ atomStep _ i hget hps)))) hA hB
          | some mt0 =>
            have hgetB : dataB.moltypes.get? i = some mt0 := by rw [← hrel.1.1]; exact hget
            have hsomA : ∀ ls9, secOnMt atomStep dataA (some i) ls9 =
                (updMt dataA i (scanSection atomStep ls9 mt0).1, some i,
                  (scanSection atomStep ls9 mt0).2) := by
              intro ls9
              unfold secOnMt
              dsimp only
              rw [hget]
            have hsomB : ∀ ls9, secOnMt atomStep dataB (some i) ls9 =
                (updMt dataB i (scanSection atomStep ls9 mt0).1, some i,
                  (scanSection atomStep ls9 mt0).2) := by
              intro ls9
              unfold secOnMt
              dsimp only
              rw [hgetB]
            rcases scanSection_append atomStep w extA mt0 with ⟨hne, heqA⟩ | ⟨hful, heqA⟩
            · have heqB : scanSection atomStep (w ++ extB) mt0 =
                  ((scanSection atomStep w mt0).1, (scanSection atomStep w mt0).2 ++ extB) := by
                rcases scanSection_append atomStep w extB mt0 with ⟨_, h⟩ | ⟨hf, _⟩
                · exact h
                · exact absurd hf hne
              rcases hstop : (scanSection atomStep w mt0).2 with _ | ⟨l, r⟩
              · exact absurd hstop hne
              obtain ⟨c, hcw⟩ := scanSection_suffix atomStep w mt0
              rw [hstop] at hcw heqA heqB
              obtain ⟨nm, hnm⟩ : ∃ nm, sectionNameOf (stripComments l) = some nm := by
                rcases scanSection_stop atomStep w mt0 l r hstop with hdir | hh
                · rw [hnd l (by rw [hcw]; exact List.mem_append.mpr (Or.inr (by simp)))]
                    at hdir
                  exact Bool.noConfusion hdir
                · exact hh
              have hsw : secAt ("atoms") w = secAt ("atoms") (l :: r) := by
                have hq := scanSection_secAt atomStep w mt0 ("atoms")
                rw [hstop] at hq
                exact hq
              rw [hsomA, heqA] at hA ⊢
              rw [hsomB, heqB] at hB ⊢
              dsimp only at hA hB ⊢
              have hwlen : (l :: r).length ≤ w.length := by
                have hq : w.length = c.length + (l :: r).length := by rw [hcw]; simp
                omega
              refine (ih (2 * (l :: r).length) (by omega)).1 (l :: r) fsA fsB nA nB depth
                pA pB _ _ (some i) ("atoms") rfl
                (fun x hx => hnd x (by rw [hcw]; exact List.mem_append.mpr (Or.inr hx)))
                (updMt_rel P hPdef i _ dataA dataB hrel)
                (by rw [← hsw]; exact hm1) (by rw [← hsw]; exact hm2)
                (Or.inl ⟨l, r, nm, rfl, hnm⟩) hA hB
            · have hsw : secAt ("atoms") w = ("atoms") := by
                have hq := scanSection_secAt atomStep w mt0 ("atoms")
                rw [hful] at hq
                exact hq
              rw [secOnMt_resume atomStep dataA i mt0 w extA hget hful] at hA ⊢
              rw [secOnMt_resume atomStep dataB i mt0 w extB hgetB hful] at hB ⊢
              rw [← contS_atoms] at hA
              rw [← contS_atoms] at hB
              rw [← contS_atoms, ← contS_atoms]
              exact hnextS fsA fsB nA nB depth pA pB _ _ (some i) ("atoms")
                (updMt_rel P hPdef i _ dataA dataB hrel)
                (by rw [← hsw]; exact hm2) (by decide) hA hB
      by_cases hsecbonds : sec = "bonds"
      · subst hsecbonds
        have hps : ∀ (d : GrotopData) (cur9 : Option Nat) (ls9 : List String),
            process_section ("bonds") d cur9 ls9 = some (secOnMt bondStep d cur9 ls9) := by
          intro d cur9 ls9
          unfold process_section
          rw [if_neg (by decide), if_neg (by decide), if_neg (by decide), if_pos rfl]
        rw [contS_bonds] at hA
        rw [contS_bonds] at hB
        rw [contS_bonds, contS_bonds]
        cases cur with
        | none =>
          rw [secOnMt_none] at hA
          rw [secOnMt_none] at hB
          rw [secOnMt_none, secOnMt_none]
          exact (ih (2 * w.length) (by omega)).1 w fsA fsB nA nB depth pA pB dataA dataB
            none ("bonds") rfl hnd hrel hm1 hm2
            (Or.inr (Or.inr (Or.inr (procInert_mtsub_none _ bondStep _ hps)))) hA hB
        | some i =>
          cases hget : dataA.moltypes.get? i with
          | none =>
            have hgetB : dataB.moltypes.get? i = none := by rw [← hrel.1.1]; exact hget
            rw [secOnMt_getnone _ _ _ _ hget] at hA ⊢
            rw [secOnMt_getnone _ _ _ _ hgetB] at hB ⊢
            exact (ih (2 * w.length) (by omega)).1 w fsA fsB nA nB depth pA pB dataA dataB
              (some i) ("bonds") rfl hnd hrel hm1 hm2
              (Or.inr (Or.inr (Or.inr (procInert_mtsub_getnone _ bondStep _ i hget hps)))) hA hB
          | some mt0 =>
            have hgetB : dataB.moltypes.get? i = some mt0 := by rw [← hrel.1.1]; exact hget
            have hsomA : ∀ ls9, secOnMt bondStep dataA (some i) ls9 =
                (updMt dataA i (scanSection bondStep ls9 mt0).1, some i,
                  (scanSection bondStep ls9 mt0).2) := by
              intro ls9
              unfold secOnMt
              dsimp only
              rw [hget]
            have hsomB : ∀ ls9, secOnMt bondStep dataB (some i) ls9 =
                (updMt dataB i (scanSection bondStep ls9 mt0).1, some i,
                  (scanSection bondStep ls9 mt0).2) := by
              intro ls9
              unfold secOnMt
              dsimp only
              rw [hgetB]
            rcases scanSection_append bondStep w extA mt0 with ⟨hne, heqA⟩ | ⟨hful, heqA⟩
            · have heqB : scanSection bondStep (w ++ extB) mt0 =
                  ((scanSection bondStep w mt0).1, (scanSection bondStep w mt0).2 ++ extB) := by
                rcases scanSection_append bondStep w extB mt0 with ⟨_, h⟩ | ⟨hf, _⟩
                · exact h
                · exact absurd hf hne
              rcases hstop : (scanSection bondStep w mt0).2 with _ | ⟨l, r⟩
              · exact absurd hstop hne
              obtain ⟨c, hcw⟩ := scanSection_suffix bondStep w mt0
              rw [hstop] at hcw heqA heqB
              obtain ⟨nm, hnm⟩ : ∃ nm, sectionNameOf (stripComments l) = some nm := by
                rcases scanSection_stop bondStep w mt0 l r hstop with hdir | hh
                · rw [hnd l (by rw [hcw]; exact List.mem_append.mpr (Or.inr (by simp)))]
                    at hdir
                  exact Bool.noConfusion hdir
                · exact hh
              have hsw : secAt ("bonds") w = secAt ("bonds") (l :: r) := by
                have hq := scanSection_secAt bondStep w mt0 ("bonds")
                rw [hstop] at hq
                exact hq
              rw [hsomA, heqA] at hA ⊢
              rw [hsomB, heqB] at hB ⊢
              dsimp only at hA hB ⊢
              have hwlen : (l :: r).length ≤ w.length := by
                have hq : w.length = c.length + (l :: r).length := by rw [hcw]; simp
                omega
              refine (ih (2 * (l :: r).length) (by omega)).1 (l :: r) fsA fsB nA nB depth
                pA pB _ _ (some i) ("bonds") rfl
                (fun x hx => hnd x (by rw [hcw]; exact List.mem_append.mpr (Or.inr hx)))
                (updMt_rel P hPdef i _ dataA dataB hrel)
                (by rw [← hsw]; exact hm1) (by rw [← hsw]; exact hm2)
                (Or.inl ⟨l, r, nm, rfl, hnm⟩) hA hB
            · have hsw : secAt ("bonds") w = ("bonds") := by
                have hq := scanSection_secAt bondStep w mt0 ("bonds")
                rw [hful] at hq
                exact hq
              rw [secOnMt_resume bondStep dataA i mt0 w extA hget hful] at hA ⊢
              rw [secOnMt_resume bondStep dataB i mt0 w extB hgetB hful] at hB ⊢
              rw [← contS_bonds] at hA
              rw [← contS_bonds] at hB
              rw [← contS_bonds, ← contS_bonds]
              exact hnextS fsA fsB nA nB depth pA pB _ _ (some i) ("bonds")
                (updMt_rel P hPdef i _ dataA dataB hrel)
                (by rw [← hsw]; exact hm2) (by decide) hA hB
      by_cases hsecconstraints : sec = "constraints"
      · subst hsecconstraints
        have hps : ∀ (d : GrotopData) (cur9 : Option Nat) (ls9 : List String),
            process_section ("constraints") d cur9 ls9 = some (secOnMt bondStep d cur9 ls9) := by
          intro d cur9 ls9
          unfold process_section
          rw [if_neg (by decide), if_neg (by decide), if_neg (by decide), if_neg (by decide), if_pos rfl]
        rw [contS_constraints] at hA
        rw [contS_constraints] at hB
        rw [contS_constraints, contS_constraints]
        cases cur with
        | none =>
          rw [secOnMt_none] at hA
          rw [secOnMt_none] at hB
          rw [secOnMt_none, secOnMt_none]
          exact (ih (2 * w.length) (by omega)).1 w fsA fsB nA nB depth pA pB dataA dataB
            none ("constraints") rfl hnd hrel hm1 hm2
            (Or.inr (Or.inr (Or.inr (procInert_mtsub_none _ bondStep _ hps)))) hA hB
        | some i =>
          cases hget : dataA.moltypes.get? i with
          | none =>
            have hgetB : dataB.moltypes.get? i = none := by rw [← hrel.1.1]; exact hget
            rw [secOnMt_getnone _ _ _ _ hget] at hA ⊢
            rw [secOnMt_getnone _ _ _ _ hgetB] at hB ⊢
            exact (ih (2 * w.length) (by omega)).1 w fsA fsB nA nB depth pA pB dataA dataB
              (some i) ("constraints") rfl hnd hrel hm1 hm2
              (Or.inr (Or.inr (Or.inr (procInert_mtsub_getnone _ bondStep _ i hget hps)))) hA hB
          | some mt0 =>
            have hgetB : dataB.moltypes.get? i = some mt0 := by rw [← hrel.1.1]; exact hget
            have hsomA : ∀ ls9, secOnMt bondStep dataA (some i) ls9 =
                (updMt dataA i (scanSection bondStep ls9 mt0).1, some i,
                  (scanSection bondStep ls9 mt0).2) := by
              intro ls9
              unfold secOnMt
              dsimp only
              rw [hget]
            have hsomB : ∀ ls9, secOnMt bondStep dataB (some i) ls9 =
                (updMt dataB i (scanSection bondStep ls9 mt0).1, some i,
                  (scanSection bondStep ls9 mt0).2) := by
              intro ls9
              unfold secOnMt
              dsimp only
              rw [hgetB]
            rcases scanSection_append bondStep w extA mt0 with ⟨hne, heqA⟩ | ⟨hful, heqA⟩
            · have heqB : scanSection bondStep (w ++ extB) mt0 =
                  ((scanSection bondStep w mt0).1, (scanSection bondStep w mt0).2 ++ extB) := by
                rcases scanSection_append bondStep w extB mt0 with ⟨_, h⟩ | ⟨hf, _⟩
                · exact h
                · exact absurd hf hne
              rcases hstop : (scanSection bondStep w mt0).2 with _ | ⟨l, r⟩
              · exact absurd hstop hne
              obtain ⟨c, hcw⟩ := scanSection_suffix bondStep w mt0
              rw [hstop] at hcw heqA heqB
              obtain ⟨nm, hnm⟩ : ∃ nm, sectionNameOf (stripComments l) = some nm := by
                rcases scanSection_stop bondStep w mt0 l r hstop with hdir | hh
                · rw [hnd l (by rw [hcw]; exact List.mem_append.mpr (Or.inr (by simp)))]
                    at hdir
                  exact Bool.noConfusion hdir
                · exact hh
              have hsw : secAt ("constraints") w = secAt ("constraints") (l :: r) := by
                have hq := scanSection_secAt bondStep w mt0 ("constraints")
                rw [hstop] at hq
                exact hq
              rw [hsomA, heqA] at hA ⊢
              rw [hsomB, heqB] at hB ⊢
              dsimp only at hA hB ⊢
              have hwlen : (l :: r).length ≤ w.length := by
                have hq : w.length = c.length + (l :: r).length := by rw [hcw]; simp
                omega
              refine (ih (2 * (l :: r).length) (by omega)).1 (l :: r) fsA fsB nA nB depth
                pA pB _ _ (some i) ("constraints") rfl
                (fun x hx => hnd x (by rw [hcw]; exact List.mem_append.mpr (Or.inr hx)))
                (updMt_rel P hPdef i _ dataA dataB hrel)
                (by rw [← hsw]; exact hm1) (by rw [← hsw]; exact hm2)
                (Or.inl ⟨l, r, nm, rfl, hnm⟩) hA hB
            · have hsw : secAt ("constraints") w = ("constraints") := by
                have hq := scanSection_secAt bondStep w mt0 ("constraints")
                rw [hful] at hq
                exact hq
              rw [secOnMt_resume bondStep dataA i mt0 w extA hget hful] at hA ⊢
              rw [secOnMt_resume bondStep dataB i mt0 w extB hgetB hful] at hB ⊢
              rw [← contS_constraints] at hA
              rw [← contS_constraints] at hB
              rw [← contS_constraints, ← contS_constraints]
              exact hnextS fsA fsB nA nB depth pA pB _ _ (some i) ("constraints")
                (updMt_rel P hPdef i _ dataA dataB hrel)
                (by rw [← hsw]; exact hm2) (by decide) hA hB
      by_cases hsecangles : sec = "angles"
      · subst hsecangles
        have hps : ∀ (d : GrotopData) (cur9 : Option Nat) (ls9 : List String),
            process_section ("angles") d cur9 ls9 = some (secOnMt angleStep d cur9 ls9) := by
          intro d cur9 ls9
          unfold process_section
          rw [if_neg (by decide), if_neg (by decide), if_neg (by decide), if_neg (by decide), if_neg (by decide), if_pos rfl]
        rw [contS_angles] at hA
        rw [contS_angles] at hB
        rw [contS_angles, contS_angles]
        cases cur with
        | none =>
          rw [secOnMt_none] at hA
          rw [secOnMt_none] at hB
          rw [secOnMt_none, secOnMt_none]
          exact (ih (2 * w.length) (by omega)).1 w fsA fsB nA nB depth pA pB dataA dataB
            none ("angles") rfl hnd hrel hm1 hm2
            (Or.inr (Or.inr (Or.inr (procInert_mtsub_none _ angleStep _ hps)))) hA hB
        | some i =>
          cases hget : dataA.moltypes.get? i with
          | none =>
            have hgetB : dataB.moltypes.get? i = none := by rw [← hrel.1.1]; exact hget
            rw [secOnMt_getnone _ _ _ _ hget] at hA ⊢
            rw [secOnMt_getnone _ _ _ _ hgetB] at hB ⊢
            exact (ih (2 * w.length) (by omega)).1 w fsA fsB nA nB depth pA pB dataA dataB
              (some i) ("angles") rfl hnd hrel hm1 hm2
              (Or.inr (Or.inr (Or.inr (procInert_mtsub_getnone _ angleStep _ i hget hps)))) hA hB
          | some mt0 =>
            have hgetB : dataB.moltypes.get? i = some mt0 := by rw [← hrel.1.1]; exact hget
            have hsomA : ∀ ls9, secOnMt angleStep dataA (some i) ls9 =
                (updMt dataA i (scanSection angleStep ls9 mt0).1, some i,
                  (scanSection angleStep ls9 mt0).2) := by
              intro ls9
              unfold secOnMt
              dsimp only
              rw [hget]
            have hsomB : ∀ ls9, secOnMt angleStep dataB (some i) ls9 =
                (updMt dataB i (scanSection angleStep ls9 mt0).1, some i,
                  (scanSection angleStep ls9 mt0).2) := by
              intro ls9
              unfold secOnMt
              dsimp only
              rw [hgetB]
            rcases scanSection_append angleStep w extA mt0 with ⟨hne, heqA⟩ | ⟨hful, heqA⟩
            · have heqB : scanSection angleStep (w ++ extB) mt0 =
                  ((scanSection angleStep w mt0).1, (scanSection angleStep w mt0).2 ++ extB) := by
                rcases scanSection_append angleStep w extB mt0 with ⟨_, h⟩ | ⟨hf, _⟩
                · exact h
                · exact absurd hf hne
              rcases hstop : (scanSection angleStep w mt0).2 with _ | ⟨l, r⟩
              · exact absurd hstop hne
              obtain ⟨c, hcw⟩ := scanSection_suffix angleStep w mt0
              rw [hstop] at hcw heqA heqB
              obtain ⟨nm, hnm⟩ : ∃ nm, sectionNameOf (stripComments l) = some nm := by
                rcases scanSection_stop angleStep w mt0 l r hstop with hdir | hh
                · rw [hnd l (by rw [hcw]; exact List.mem_append.mpr (Or.inr (by simp)))]
                    at hdir
                  exact Bool.noConfusion hdir
                · exact hh
              have hsw : secAt ("angles") w = secAt ("angles") (l :: r) := by
                have hq := scanSection_secAt angleStep w mt0 ("angles")
                rw [hstop] at hq
                exact hq
              rw [hsomA, heqA] at hA ⊢
              rw [hsomB, heqB] at hB ⊢
              dsimp only at hA hB ⊢
              have hwlen : (l :: r).length ≤ w.length := by
                have hq : w.length = c.length + (l :: r).length := by rw [hcw]; simp
                omega
              refine (ih (2 * (l :: r).length) (by omega)).1 (l :: r) fsA fsB nA nB depth
                pA pB _ _ (some i) ("angles") rfl
                (fun x hx => hnd x (by rw [hcw]; exact List.mem_append.mpr (Or.inr hx)))
                (updMt_rel P hPdef i _ dataA dataB hrel)
                (by rw [← hsw]; exact hm1) (by rw [← hsw]; exact hm2)
                (Or.inl ⟨l, r, nm, rfl, hnm⟩) hA hB
            · have hsw : secAt ("angles") w = ("angles") := by
                have hq := scanSection_secAt angleStep w mt0 ("angles")
                rw [hful] at hq
                exact hq
              rw [secOnMt_resume angleStep dataA i mt0 w extA hget hful] at hA ⊢
              rw [secOnMt_resume angleStep dataB i mt0 w extB hgetB hful] at hB ⊢
              rw [← contS_angles] at hA
              rw [← contS_angles] at hB
              rw [← contS_angles, ← contS_angles]
              exact hnextS fsA fsB nA nB depth pA pB _ _ (some i) ("angles")
                (updMt_rel P hPdef i _ dataA dataB hrel)
                (by rw [← hsw]; exact hm2) (by decide) hA hB
      by_cases hsecdihedrals : sec = "dihedrals"
      · subst hsecdihedrals
        have hps : ∀ (d : GrotopData) (cur9 : Option Nat) (ls9 : List String),
            process_section ("dihedrals") d cur9 ls9 = some (secOnMt dihedralStep d cur9 ls9) := by
          intro d cur9 ls9
          unfold process_section
          rw [if_neg (by decide), if_neg (by decide), if_neg (by decide), if_neg (by decide), if_neg (by decide), if_neg (by decide), if_pos rfl]
        rw [contS_dihedrals] at hA
        rw [contS_dihedrals] at hB
        rw [contS_dihedrals, contS_dihedrals]
        cases cur with
        | none =>
          rw [secOnMt_none] at hA
          rw [secOnMt_none] at hB
          rw [secOnMt_none, secOnMt_none]
          exact (ih (2 * w.length) (by omega)).1 w fsA fsB nA nB depth pA pB dataA dataB
            none ("dihedrals") rfl hnd hrel hm1 hm2
            (Or.inr (Or.inr (Or.inr (procInert_mtsub_none _ dihedralStep _ hps)))) hA hB
        | some i =>
          cases hget : dataA.moltypes.get? i with
          | none =>
            have hgetB : dataB.moltypes.get? i = none := by rw [← hrel.1.1]; exact hget
            rw [secOnMt_getnone _ _ _ _ hget] at hA ⊢
            rw [secOnMt_getnone _ _ _ _ hgetB] at hB ⊢
            exact (ih (2 * w.length) (by omega)).1 w fsA fsB nA nB depth pA pB dataA dataB
              (some i) ("dihedrals") rfl hnd hrel hm1 hm2
              (Or.inr (Or.inr (Or.inr (procInert_mtsub_getnone _ dihedralStep _ i hget hps)))) hA hB
          | some mt0 =>
            have hgetB : dataB.moltypes.get? i = some mt0 := by rw [← hrel.1.1]; exact hget
            have hsomA : ∀ ls9, secOnMt dihedralStep dataA (some i) ls9 =
                (updMt dataA i (scanSection dihedralStep ls9 mt0).1, some i,
                  (scanSection dihedralStep ls9 mt0).2) := by
              intro ls9
              unfold secOnMt
              dsimp only
              rw [hget]
            have hsomB : ∀ ls9, secOnMt dihedralStep dataB (some i) ls9 =
                (updMt dataB i (scanSection dihedralStep ls9 mt0).1, some i,
                  (scanSection dihedralStep ls9 mt0).2) := by
              intro ls9
              unfold secOnMt
              dsimp only
              rw [hgetB]
            rcases scanSection_append dihedralStep w extA mt0 with ⟨hne, heqA⟩ | ⟨hful, heqA⟩
            · have heqB : scanSection dihedralStep (w ++ extB) mt0 =
                  ((scanSection dihedralStep w mt0).1, (scanSection dihedralStep w mt0).2 ++ extB) := by
                rcases scanSection_append dihedralStep w extB mt0 with ⟨_, h⟩ | ⟨hf, _⟩
                · exact h
                · exact absurd hf hne
              rcases hstop : (scanSection dihedralStep w mt0).2 with _ | ⟨l, r⟩
              · exact absurd hstop hne
              obtain ⟨c, hcw⟩ := scanSection_suffix dihedralStep w mt0
              rw [hstop] at hcw heqA heqB
              obtain ⟨nm, hnm⟩ : ∃ nm, sectionNameOf (stripComments l) = some nm := by
                rcases scanSection_stop dihedralStep w mt0 l r hstop with hdir | hh
                · rw [hnd l (by rw [hcw]; exact List.mem_append.mpr (Or.inr (by simp)))]
                    at hdir
                  exact Bool.noConfusion hdir
                · exact hh
              have hsw : secAt ("dihedrals") w = secAt ("dihedrals") (l :: r) := by
                have hq := scanSection_secAt dihedralStep w mt0 ("dihedrals")
                rw [hstop] at hq
                exact hq
              rw [hsomA, heqA] at hA ⊢
              rw [hsomB, heqB] at hB ⊢
              dsimp only at hA hB ⊢
              have hwlen : (l :: r).length ≤ w.length := by
                have hq : w.length = c.length + (l :: r).length := by rw [hcw]; simp
                omega
              refine (ih (2 * (l :: r).length) (by omega)).1 (l :: r) fsA fsB nA nB depth
                pA pB _ _ (some i) ("dihedrals") rfl
                (fun x hx => hnd x (by rw [hcw]; exact List.mem_append.mpr (Or.inr hx)))
                (updMt_rel P hPdef i _ dataA dataB hrel)
                (by rw [← hsw]; exact hm1) (by rw [← hsw]; exact hm2)
                (Or.inl ⟨l, r, nm, rfl, hnm⟩) hA hB
            · have hsw : secAt ("dihedrals") w = ("dihedrals") := by
                have hq := scanSection_secAt dihedralStep w mt0 ("dihedrals")
                rw [hful] at hq
                exact hq
              rw [secOnMt_resume dihedralStep dataA i mt0 w extA hget hful] at hA ⊢
              rw [secOnMt_resume dihedralStep dataB i mt0 w extB hgetB hful] at hB ⊢
              rw [← contS_dihedrals] at hA
              rw [← contS_dihedrals] at hB
              rw [← contS_dihedrals, ← contS_dihedrals]
              exact hnextS fsA fsB nA nB depth pA pB _ _ (some i) ("dihedrals")
                (updMt_rel P hPdef i _ dataA dataB hrel)
                (by rw [← hsw]; exact hm2) (by decide) hA hB
      by_cases hsecmolecules : sec = "molecules"
      · subst hsecmolecules
        rw [contS_molecules] at hA
        rw [contS_molecules] at hB
        rw [contS_molecules, contS_molecules]
        obtain ⟨hrelW, hleft⟩ :=
          scanSection_rel moleculesStep (RelP P) (moleculesStep_rel P hPdef) w dataA dataB hrel
        rcases scanSection_append moleculesStep w extA dataA with ⟨hne, heqA⟩ | ⟨hful, heqA⟩
        · have hneB : (scanSection moleculesStep w dataB).2 ≠ [] := by rw [← hleft]; exact hne
          have heqB : scanSection moleculesStep (w ++ extB) dataB =
              ((scanSection moleculesStep w dataB).1, (scanSection moleculesStep w dataB).2 ++ extB) := by
            rcases scanSection_append moleculesStep w extB dataB with ⟨_, h⟩ | ⟨hf, _⟩
            · exact h
            · exact absurd hf hneB
          rcases hstop : (scanSection moleculesStep w dataA).2 with _ | ⟨l, r⟩
          · exact absurd hstop hne
          have hstopB : (scanSection moleculesStep w dataB).2 = l :: r := by
            rw [← hleft]; exact hstop
          obtain ⟨c, hcw⟩ := scanSection_suffix moleculesStep w dataA
          rw [hstop] at hcw heqA
          rw [hstopB] at heqB
          obtain ⟨nm, hnm⟩ : ∃ nm, sectionNameOf (stripComments l) = some nm := by
            rcases scanSection_stop moleculesStep w dataA l r hstop with hdir | hh
            · rw [hnd l (by rw [hcw]; exact List.mem_append.mpr (Or.inr (by simp)))] at hdir
              exact Bool.noConfusion hdir
            · exact hh
          have hsw : secAt ("molecules") w = secAt ("molecules") (l :: r) := by
            have hq := scanSection_secAt moleculesStep w dataA ("molecules")
            rw [hstop] at hq
            exact hq
          rw [heqA] at hA ⊢
          rw [heqB] at hB ⊢
          dsimp only at hA hB ⊢
          have hwlen : (l :: r).length ≤ w.length := by
            have hq : w.length = c.length + (l :: r).length := by rw [hcw]; simp
            omega
          refine (ih (2 * (l :: r).length) (by omega)).1 (l :: r) fsA fsB nA nB depth pA pB
            _ _ cur ("molecules") rfl
            (fun x hx => hnd x (by rw [hcw]; exact List.mem_append.mpr (Or.inr hx)))
            hrelW (by rw [← hsw]; exact hm1) (by rw [← hsw]; exact hm2)
            (Or.inl ⟨l, r, nm, rfl, hnm⟩) hA hB
        · have hfulB : (scanSection moleculesStep w dataB).2 = [] := by rw [← hleft]; exact hful
          have heqB : scanSection moleculesStep (w ++ extB) dataB =
              scanSection moleculesStep extB (scanSection moleculesStep w dataB).1 := by
            rcases scanSection_append moleculesStep w extB dataB with ⟨hf, _⟩ | ⟨_, h⟩
            · exact absurd hfulB hf
            · exact h
          have hsw : secAt ("molecules") w = ("molecules") := by
            have hq := scanSection_secAt moleculesStep w dataA ("molecules")
            rw [hful] at hq
            exact hq
          rw [heqA] at hA ⊢
          rw [heqB] at hB ⊢
          rw [← contS_molecules] at hA
          rw [← contS_molecules] at hB
          rw [← contS_molecules, ← contS_molecules]
          exact hnextS fsA fsB nA nB depth pA pB _ _ cur ("molecules") hrelW
            (by rw [← hsw]; exact hm2) (by decide) hA hB
      by_cases hsecSK : skipSections.contains sec = true
      · rw [contS_skip fsA nA depth pA dataA cur sec stackA _ hsecSK] at hA ⊢
        rw [contS_skip fsB nB depth pB dataB cur sec [] _ hsecSK] at hB ⊢
        rcases scanSection_append (fun _ a => a) w extA () with ⟨hne, heqA⟩ | ⟨hful, heqA⟩
        · have heqB : scanSection (fun _ a => a) (w ++ extB) () =
              ((scanSection (fun _ a => a) w ()).1,
                (scanSection (fun _ a => a) w ()).2 ++ extB) := by
            rcases scanSection_append (fun _ a => a) w extB () with ⟨_, h⟩ | ⟨hf, _⟩
            · exact h
            · exact absurd hf hne
          rcases hstop : (scanSection (fun _ a => a) w ()).2 with _ | ⟨l, r⟩
          · exact absurd hstop hne
          obtain ⟨c, hcw⟩ := scanSection_suffix (fun _ a => a) w ()
          rw [hstop] at hcw heqA heqB
          obtain ⟨nm, hnm⟩ : ∃ nm, sectionNameOf (stripComments l) = some nm := by
            rcases scanSection_stop (fun _ a => a) w () l r hstop with hdir | hh
            · rw [hnd l (by rw [hcw]; exact List.mem_append.mpr (Or.inr (by simp)))] at hdir
              exact Bool.noConfusion hdir
            · exact hh
          have hsw : secAt sec w = secAt sec (l :: r) := by
            have hq := scanSection_secAt (fun _ a => a) w () sec
            rw [hstop] at hq
            exact hq
          rw [heqA] at hA ⊢
          rw [heqB] at hB ⊢
          dsimp only at hA hB ⊢
          have hwlen : (l :: r).length ≤ w.length := by
            have hq : w.length = c.length + (l :: r).length := by rw [hcw]; simp
            omega
          refine (ih (2 * (l :: r).length) (by omega)).1 (l :: r) fsA fsB nA nB depth pA pB
            dataA dataB cur sec rfl
            (fun x hx => hnd x (by rw [hcw]; exact List.mem_append.mpr (Or.inr hx)))
            hrel (by rw [← hsw]; exact hm1) (by rw [← hsw]; exact hm2)
            (Or.inl ⟨l, r, nm, rfl, hnm⟩) hA hB
        · have heqB : scanSection (fun _ a => a) (w ++ extB) () =
              scanSection (fun _ a => a) extB (scanSection (fun _ a => a) w ()).1 := by
            rcases scanSection_append (fun _ a => a) w extB () with ⟨hf, _⟩ | ⟨_, h⟩
            · exact absurd hful hf
            · exact h
          have hsw : secAt sec w = sec := by
            have hq := scanSection_secAt (fun _ a => a) w () sec
            rw [hful] at hq
            exact hq
          have hunit : (scanSection (fun _ a => a) w ()).1 = () := rfl
          rw [hunit] at heqA heqB
          rw [heqA] at hA ⊢
          rw [heqB] at hB ⊢
          rw [← contS_skip fsA nA depth pA dataA cur sec stackA extA hsecSK] at hA ⊢
          rw [← contS_skip fsB nB depth pB dataB cur sec [] extB hsecSK] at hB ⊢
          exact hnextS fsA fsB nA nB depth pA pB dataA dataB cur sec hrel
            (by rw [← hsw]; exact hm2) (skip_ne sec hsecSK).2.1 hA hB
      have hin : procInert sec dataA.moltypes cur :=
        procInert_unknown sec dataA.moltypes cur hsecAT hsecMT hsecatoms hsecbonds
          hsecconstraints hsecangles hsecdihedrals hsecmolecules
          (by cases hx : skipSections.contains sec
              · rfl
              · exact absurd hx hsecSK)
      have hinB : procInert sec dataB.moltypes cur := by
        rw [← hrel.1.1]
        exact hin
      rw [contS_inert fsA nA depth pA dataA cur sec stackA _ hin] at hA ⊢
      rw [contS_inert fsB nB depth pB dataB cur sec [] _ hinB] at hB ⊢
      exact (ih (2 * w.length) (by omega)).1 w fsA fsB nA nB depth pA pB dataA dataB cur
        sec rfl hnd hrel hm1 hm2 (Or.inr (Or.inr (Or.inr hin))) hA hB

end Grotop

namespace Grotop

theorem set_get_self {α : Type} : ∀ (l : List α) (i : Nat) (m : α),
    l.get? i = some m → l.set i m = l := by
  intro l
  induction l with
  | nil => intro i m h; exact absurd h (by simp)
  | cons a t ih =>
    intro i m h
    cases i with
    | zero =>
      simp only [List.get?, Option.some.injEq] at h
      subst h
      rfl
    | succ j =>
      simp only [List.get?] at h
      simp only [List.set]
      rw [ih j m h]

theorem updMt_self (d : GrotopData) (i : Nat) (mt : Moltype)
    (h : d.moltypes.get? i = some mt) : updMt d i mt = d := by
  unfold updMt
  rw [set_get_self d.moltypes i mt h]

/-- A list on which every record scan stops immediately passes through
`process_section` untouched (for every section other than `moleculetype`). -/
theorem process_section_stop (sec : String) (data : GrotopData) (cur : Option Nat)
    (ls : List String)
    (hscan : ∀ {α : Type} (step : String → α → α) (a : α), scanSection step ls a = (a, ls))
    (hmt : sec ≠ "moleculetype") :
    process_section sec data cur ls = some (data, cur, ls) := by
  have hmtStop : ∀ step, secOnMt step data cur ls = (data, cur, ls) := by
    intro step
    unfold secOnMt
    cases cur with
    | none => rfl
    | some i =>
      dsimp only
      cases hget : data.moltypes.get? i with
      | none => rfl
      | some mt =>
        dsimp only
        rw [hscan step mt]
        dsimp only
        rw [updMt_self data i mt hget]
  unfold process_section
  by_cases h1 : sec = "atomtypes"
  · rw [if_pos h1, hscan atomtypeStep data]
  rw [if_neg h1, if_neg hmt]
  by_cases h3 : sec = "atoms"
  · rw [if_pos h3, hmtStop atomStep]
  rw [if_neg h3]
  by_cases h4 : sec = "bonds"
  · rw [if_pos h4, hmtStop bondStep]
  rw [if_neg h4]
  by_cases h5 : sec = "constraints"
  · rw [if_pos h5, hmtStop bondStep]
  rw [if_neg h5]
  by_cases h6 : sec = "angles"
  · rw [if_pos h6, hmtStop angleStep]
  rw [if_neg h6]
  by_cases h7 : sec = "dihedrals"
  · rw [if_pos h7, hmtStop dihedralStep]
  rw [if_neg h7]
  by_cases h8 : sec = "molecules"
  · rw [if_pos h8, hscan moleculesStep data]
  rw [if_neg h8]
  by_cases h9 : skipSections.contains sec = true
  · rw [if_pos h9, hscan (fun _ a => a) ()]
  rw [if_neg h9]

theorem parse_define_directive (l : String) (X : String)
    (h : parse_define l = some X) : isDirective l = true := by
  unfold parse_define at h
  by_cases hp : hasPfx ("#define".data) (trimLead l.data) = true
  · exact hasPfx_directive ("define".data) l hp
  · rw [if_neg hp] at h
    exact absurd h (by simp)

theorem parse_ifdef_directive (l : String) (pr : String × Bool)
    (h : parse_ifdef l = some pr) : isDirective l = true := by
  unfold parse_ifdef at h
  by_cases hp : hasPfx ("#ifdef".data) (trimLead l.data) = true
  · exact hasPfx_directive ("ifdef".data) l hp
  rw [if_neg hp] at h
  by_cases hq : hasPfx ("#ifndef".data) (trimLead l.data) = true
  · exact hasPfx_directive ("ifndef".data) l hq
  rw [if_neg hq] at h
  exact absurd h (by simp)

theorem isEndif_directive (l : String) (h : isEndifDirective l = true) :
    isDirective l = true := by
  unfold isEndifDirective at h
  exact hasPfx_directive ("endif".data) l h

/-- Terminal case of the directive-erasure simulation: both runs are out of
lines and return their accumulated state. -/
theorem parseLoopF_nil_proj (P : GrotopData → Prop)
    (fsA fsB : List (String × List String)) (nA nB depth : Nat) (pA pB : String)
    (dataA dataB : GrotopData) (cur : Option Nat) (sec : String)
    (stkA stkB : List Bool)
    (hrel : RelP P dataA dataB)
    (hA : parseLoopF fsA nA depth pA dataA cur sec stkA [] ≠ .out)
    (hB : parseLoopF fsB nB depth pB dataB cur sec stkB [] ≠ .out) :
    projP (parseLoopF fsA nA depth pA dataA cur sec stkA []) =
      projP (parseLoopF fsB nB depth pB dataB cur sec stkB []) := by
  cases nA with
  | zero => exact absurd rfl hA
  | succ a =>
  cases nB with
  | zero => exact absurd rfl hB
  | succ b =>
  obtain ⟨⟨h1, h2, h3⟩, _⟩ := hrel
  rw [parseLoopF.eq_2]
  rw [parseLoopF.eq_2]
  simp [projP, h1, h2, h3]

/-- Terminal case reached inside a record scan: the scan of the empty list
is empty and the runs return their accumulated state. -/
theorem contS_nil_proj (P : GrotopData → Prop)
    (fsA fsB : List (String × List String)) (nA nB depth : Nat) (pA pB : String)
    (dataA dataB : GrotopData) (cur : Option Nat) (sec : String)
    (stkA stkB : List Bool)
    (hrel : RelP P dataA dataB) (hmt : sec ≠ "moleculetype")
    (hA : contS fsA nA depth pA dataA cur sec stkA [] ≠ .out)
    (hB : contS fsB nB depth pB dataB cur sec stkB [] ≠ .out) :
    projP (contS fsA nA depth pA dataA cur sec stkA []) =
      projP (contS fsB nB depth pB dataB cur sec stkB []) := by
  have hA2 : contS fsA nA depth pA dataA cur sec stkA [] =
      parseLoopF fsA nA depth pA dataA cur sec stkA [] := by
    unfold contS
    rw [process_section_stop sec dataA cur [] (by intro α step a; rfl) hmt]
  have hB2 : contS fsB nB depth pB dataB cur sec stkB [] =
      parseLoopF fsB nB depth pB dataB cur sec stkB [] := by
    unfold contS
    rw [process_section_stop sec dataB cur [] (by intro α step a; rfl) hmt]
  rw [hA2] at hA ⊢
  rw [hB2] at hB ⊢
  exact parseLoopF_nil_proj P fsA fsB nA nB depth pA pB dataA dataB cur sec stkA stkB
    hrel hA hB

end Grotop

namespace Grotop

/-- Tail of the directive-erasure argument, loop-top mode: with no marker
left, the two runs walk the same residual lines. -/
theorem tailL (u3 : List String) (hnd3 : ∀ l ∈ u3, isDirective l = false)
    (fsA fsB : List (String × List String)) (nA nB depth : Nat) (pA pB : String)
    (dataA dataB : GrotopData) (cur : Option Nat) (sec : String)
    (hrel : sameTables dataA dataB)
    (hm1 : secAt sec u3 ≠ "moleculetype")
    (hL : sec = "" ∨ procInert sec dataA.moltypes cur)
    (hA : parseLoopF fsA nA depth pA dataA cur sec [] u3 ≠ .out)
    (hB : parseLoopF fsB nB depth pB dataB cur sec [] u3 ≠ .out) :
    projP (parseLoopF fsA nA depth pA dataA cur sec [] u3) =
      projP (parseLoopF fsB nB depth pB dataB cur sec [] u3) := by
  rw [← List.append_nil u3] at hA hB ⊢
  refine (master_generic (fun _ => True) (fun _ _ _ _ => trivial) [] [] [] rfl
      (fun _ => True) ?_ ?_ (2 * u3.length)).1 u3 fsA fsB nA nB depth pA pB dataA dataB
      cur sec rfl hnd3 ⟨hrel, trivial⟩ hm1 trivial ?_ hA hB
  · intro fs2 fs3 n2 n3 d2 p2 p3 da2 db2 cu2 se2 hrel2 _ _ hA2 hB2
    exact parseLoopF_nil_proj (fun _ => True) fs2 fs3 n2 n3 d2 p2 p3 da2 db2 cu2 se2
      [] [] hrel2 hA2 hB2
  · intro fs2 fs3 n2 n3 d2 p2 p3 da2 db2 cu2 se2 hrel2 _ hmt2 hA2 hB2
    exact contS_nil_proj (fun _ => True) fs2 fs3 n2 n3 d2 p2 p3 da2 db2 cu2 se2
      [] [] hrel2 hmt2 hA2 hB2
  · rcases hL with h | h
    · exact Or.inr (Or.inl h)
    · exact Or.inr (Or.inr (Or.inr h))

/-- Tail of the directive-erasure argument, in-scan mode. -/
theorem tailS (u3 : List String) (hnd3 : ∀ l ∈ u3, isDirective l = false)
    (fsA fsB : List (String × List String)) (nA nB depth : Nat) (pA pB : String)
    (dataA dataB : GrotopData) (cur : Option Nat) (sec : String)
    (hrel : sameTables dataA dataB)
    (hm1 : secAt sec u3 ≠ "moleculetype")
    (hA : contS fsA nA depth pA dataA cur sec [] u3 ≠ .out)
    (hB : contS fsB nB depth pB dataB cur sec [] u3 ≠ .out) :
    projP (contS fsA nA depth pA dataA cur sec [] u3) =
      projP (contS fsB nB depth pB dataB cur sec [] u3) := by
  rw [← List.append_nil u3] at hA hB ⊢
  refine (master_generic (fun _ => True) (fun _ _ _ _ => trivial) [] [] [] rfl
      (fun _ => True) ?_ ?_ (2 * u3.length + 1)).2 u3 fsA fsB nA nB depth pA pB dataA
      dataB cur sec rfl hnd3 ⟨hrel, trivial⟩ hm1 trivial hA hB
  · intro fs2 fs3 n2 n3 d2 p2 p3 da2 db2 cu2 se2 hrel2 _ _ hA2 hB2
    exact parseLoopF_nil_proj (fun _ => True) fs2 fs3 n2 n3 d2 p2 p3 da2 db2 cu2 se2
      [] [] hrel2 hA2 hB2
  · intro fs2 fs3 n2 n3 d2 p2 p3 da2 db2 cu2 se2 hrel2 _ hmt2 hA2 hB2
    exact contS_nil_proj (fun _ => True) fs2 fs3 n2 n3 d2 p2 p3 da2 db2 cu2 se2
      [] [] hrel2 hmt2 hA2 hB2

/-- The `#endif` marker reached at loop top: the first run pops its single
`true` frame and both runs continue on the shared tail. -/
theorem phase3_L (u3 : List String) (eLine : String)
    (he : isEndifDirective eLine = true)
    (hnd3 : ∀ l ∈ u3, isDirective l = false)
    (fsA fsB : List (String × List String)) (nA nB depth : Nat) (pA pB : String)
    (dataA dataB : GrotopData) (cur : Option Nat) (sec : String)
    (hrel : sameTables dataA dataB)
    (hm : secAt sec u3 ≠ "moleculetype")
    (hL : sec = "" ∨ procInert sec dataA.moltypes cur)
    (hA : parseLoopF fsA nA depth pA dataA cur sec [true] (eLine :: u3) ≠ .out)
    (hB : parseLoopF fsB nB depth pB dataB cur sec [] u3 ≠ .out) :
    projP (parseLoopF fsA nA depth pA dataA cur sec [true] (eLine :: u3)) =
      projP (parseLoopF fsB nB depth pB dataB cur sec [] u3) := by
  cases nA with
  | zero => exact absurd rfl hA
  | succ a =>
  rw [parseLoopF_step_endif fsA a depth pA dataA cur sec [true] eLine u3 he rfl] at hA ⊢
  by_cases hse : sec = ""
  · rw [if_pos hse] at hA ⊢
    exact tailL u3 hnd3 fsA fsB a nB depth pA pB dataA dataB cur sec hrel hm
      (Or.inl hse) hA hB
  · rw [if_neg hse] at hA ⊢
    rcases hL with h | hpi
    · exact absurd h hse
    rw [contS_inert fsA a depth pA dataA cur sec (List.tail [true]) u3 hpi] at hA ⊢
    exact tailL u3 hnd3 fsA fsB a nB depth pA pB dataA dataB cur sec hrel hm
      (Or.inr hpi) hA hB

/-- The `#endif` marker reached inside a record scan: the scan stops at the
directive, the marker is evaluated, and both runs continue in-scan. -/
theorem phase3_S (u3 : List String) (eLine : String)
    (he : isEndifDirective eLine = true)
    (hnd3 : ∀ l ∈ u3, isDirective l = false)
    (fsA fsB : List (String × List String)) (nA nB depth : Nat) (pA pB : String)
    (dataA dataB : GrotopData) (cur : Option Nat) (sec : String)
    (hrel : sameTables dataA dataB)
    (hm : secAt sec u3 ≠ "moleculetype")
    (hmt : sec ≠ "moleculetype")
    (hA : contS fsA nA depth pA dataA cur sec [true] (eLine :: u3) ≠ .out)
    (hB : contS fsB nB depth pB dataB cur sec [] u3 ≠ .out) :
    projP (contS fsA nA depth pA dataA cur sec [true] (eLine :: u3)) =
      projP (contS fsB nB depth pB dataB cur sec [] u3) := by
  have hdir : isDirective eLine = true := isEndif_directive eLine he
  have hAeq : contS fsA nA depth pA dataA cur sec [true] (eLine :: u3) =
      parseLoopF fsA nA depth pA dataA cur sec [true] (eLine :: u3) := by
    unfold contS
    rw [process_section_stop sec dataA cur (eLine :: u3)
      (by intro α step a9; exact scanSection_cons_dir step eLine u3 a9 hdir) hmt]
  rw [hAeq] at hA ⊢
  cases nA with
  | zero => exact absurd rfl hA
  | succ a =>
  rw [parseLoopF_step_endif fsA a depth pA dataA cur sec [true] eLine u3 he rfl] at hA ⊢
  by_cases hse : sec = ""
  · rw [if_pos hse] at hA ⊢
    subst hse
    rw [contS_inert fsB nB depth pB dataB cur ("") [] u3
      (procInert_unknown ("") dataB.moltypes cur (by decide) (by decide) (by decide)
        (by decide) (by decide) (by decide) (by decide) (by decide) (by decide))]
      at hB ⊢
    exact tailL u3 hnd3 fsA fsB a nB depth pA pB dataA dataB cur ("") hrel hm
      (Or.inl rfl) hA hB
  · rw [if_neg hse] at hA ⊢
    exact tailS u3 hnd3 fsA fsB a nB depth pA pB dataA dataB cur sec hrel hm hA hB

end Grotop

namespace Grotop

/-- The stretch from the `#ifdef` marker to the `#endif` marker, loop-top
mode: the first run carries the single `true` frame across the shared body
lines. -/
theorem run3_L (u2 u3 : List String) (eLine : String)
    (he : isEndifDirective eLine = true)
    (hnd2 : ∀ l ∈ u2, isDirective l = false)
    (hnd3 : ∀ l ∈ u3, isDirective l = false)
    (fsA fsB : List (String × List String)) (nA nB depth : Nat) (pA pB : String)
    (dataA dataB : GrotopData) (cur : Option Nat) (sec : String)
    (hrel : sameTables dataA dataB)
    (hm1 : secAt sec u2 ≠ "moleculetype")
    (hm2 : secAt sec (u2 ++ u3) ≠ "moleculetype")
    (hL : sec = "" ∨ procInert sec dataA.moltypes cur)
    (hA : parseLoopF fsA nA depth pA dataA cur sec [true] (u2 ++ (eLine :: u3)) ≠ .out)
    (hB : parseLoopF fsB nB depth pB dataB cur sec [] (u2 ++ u3) ≠ .out) :
    projP (parseLoopF fsA nA depth pA dataA cur sec [true] (u2 ++ (eLine :: u3))) =
      projP (parseLoopF fsB nB depth pB dataB cur sec [] (u2 ++ u3)) := by
  refine (master_generic (fun _ => True) (fun _ _ _ _ => trivial) (eLine :: u3) u3
      [true] rfl (fun s => secAt s u3 ≠ "moleculetype")
      (fun fs2 fs3 n2 n3 d2 p2 p3 da2 db2 cu2 se2 hrel2 hm9 hL2 hA2 hB2 =>
        phase3_L u3 eLine he hnd3 fs2 fs3 n2 n3 d2 p2 p3 da2 db2 cu2 se2 hrel2.1
          hm9 hL2 hA2 hB2)
      (fun fs2 fs3 n2 n3 d2 p2 p3 da2 db2 cu2 se2 hrel2 hm9 hmt2 hA2 hB2 =>
        phase3_S u3 eLine he hnd3 fs2 fs3 n2 n3 d2 p2 p3 da2 db2 cu2 se2 hrel2.1
          hm9 hmt2 hA2 hB2)
      (2 * u2.length)).1 u2 fsA fsB nA nB depth pA pB dataA dataB cur sec rfl hnd2
      ⟨hrel, trivial⟩ hm1 ?_ ?_ hA hB
  · show secAt (secAt sec u2) u3 ≠ "moleculetype"
    rw [← secAt_append]
    exact hm2
  · rcases hL with h | h
    · exact Or.inr (Or.inl h)
    · exact Or.inr (Or.inr (Or.inr h))

/-- The stretch from the `#ifdef` marker to the `#endif` marker, in-scan
mode. -/
theorem run3_S (u2 u3 : List String) (eLine : String)
    (he : isEndifDirective eLine = true)
    (hnd2 : ∀ l ∈ u2, isDirective l = false)
    (hnd3 : ∀ l ∈ u3, isDirective l = false)
    (fsA fsB : List (String × List String)) (nA nB depth : Nat) (pA pB : String)
    (dataA dataB : GrotopData) (cur : Option Nat) (sec : String)
    (hrel : sameTables dataA dataB)
    (hm1 : secAt sec u2 ≠ "moleculetype")
    (hm2 : secAt sec (u2 ++ u3) ≠ "moleculetype")
    (hA : contS fsA nA depth pA dataA cur sec [true] (u2 ++ (eLine :: u3)) ≠ .out)
    (hB : contS fsB nB depth pB dataB cur sec [] (u2 ++ u3) ≠ .out) :
    projP (contS fsA nA depth pA dataA cur sec [true] (u2 ++ (eLine :: u3))) =
      projP (contS fsB nB depth pB dataB cur sec [] (u2 ++ u3)) := by
  refine (master_generic (fun _ => True) (fun _ _ _ _ => trivial) (eLine :: u3) u3
      [true] rfl (fun s => secAt s u3 ≠ "moleculetype")
      (fun fs2 fs3 n2 n3 d2 p2 p3 da2 db2 cu2 se2 hrel2 hm9 hL2 hA2 hB2 =>
        phase3_L u3 eLine he hnd3 fs2 fs3 n2 n3 d2 p2 p3 da2 db2 cu2 se2 hrel2.1
          hm9 hL2 hA2 hB2)
      (fun fs2 fs3 n2 n3 d2 p2 p3 da2 db2 cu2 se2 hrel2 hm9 hmt2 hA2 hB2 =>
        phase3_S u3 eLine he hnd3 fs2 fs3 n2 n3 d2 p2 p3 da2 db2 cu2 se2 hrel2.1
          hm9 hmt2 hA2 hB2)
      (2 * u2.length + 1)).2 u2 fsA fsB nA nB depth pA pB dataA dataB cur sec rfl hnd2
      ⟨hrel, trivial⟩ hm1 ?_ hA hB
  · show secAt (secAt sec u2) u3 ≠ "moleculetype"
    rw [← secAt_append]
    exact hm2

/-- The `#ifdef X` marker reached at loop top with `X` defined in the first
run: it pushes a `true` frame and both runs continue on the shared body. -/
theorem phase2_L (u2 u3 : List String) (iLine eLine : String) (X : String)
    (hi : parse_ifdef iLine = some (X, false))
    (he : isEndifDirective eLine = true)
    (hnd2 : ∀ l ∈ u2, isDirective l = false)
    (hnd3 : ∀ l ∈ u3, isDirective l = false)
    (fsA fsB : List (String × List String)) (nA nB depth : Nat) (pA pB : String)
    (dataA dataB : GrotopData) (cur : Option Nat) (sec : String)
    (hrel : sameTables dataA dataB) (hdef : is_defined dataA X = true)
    (hm1 : secAt sec u2 ≠ "moleculetype")
    (hm2 : secAt sec (u2 ++ u3) ≠ "moleculetype")
    (hL : sec = "" ∨ procInert sec dataA.moltypes cur)
    (hA : parseLoopF fsA nA depth pA dataA cur sec []
      (iLine :: (u2 ++ (eLine :: u3))) ≠ .out)
    (hB : parseLoopF fsB nB depth pB dataB cur sec [] (u2 ++ u3) ≠ .out) :
    projP (parseLoopF fsA nA depth pA dataA cur sec []
        (iLine :: (u2 ++ (eLine :: u3)))) =
      projP (parseLoopF fsB nB depth pB dataB cur sec [] (u2 ++ u3)) := by
  cases nA with
  | zero => exact absurd rfl hA
  | succ a =>
  rw [parseLoopF_step_ifdef fsA a depth pA dataA cur sec [] iLine
    (u2 ++ (eLine :: u3)) X hi (by decide)] at hA ⊢
  rw [hdef] at hA ⊢
  by_cases hse : sec = ""
  · rw [if_pos hse] at hA ⊢
    exact run3_L u2 u3 eLine he hnd2 hnd3 fsA fsB a nB depth pA pB dataA dataB cur
      sec hrel hm1 hm2 (Or.inl hse) hA hB
  · rw [if_neg hse] at hA ⊢
    rcases hL with h | hpi
    · exact absurd h hse
    rw [contS_inert fsA a depth pA dataA cur sec [true] (u2 ++ (eLine :: u3)) hpi]
      at hA ⊢
    exact run3_L u2 u3 eLine he hnd2 hnd3 fsA fsB a nB depth pA pB dataA dataB cur
      sec hrel hm1 hm2 (Or.inr hpi) hA hB

/-- The `#ifdef X` marker reached inside a record scan. -/
theorem phase2_S (u2 u3 : List String) (iLine eLine : String) (X : String)
    (hi : parse_ifdef iLine = some (X, false))
    (he : isEndifDirective eLine = true)
    (hnd2 : ∀ l ∈ u2, isDirective l = false)
    (hnd3 : ∀ l ∈ u3, isDirective l = false)
    (fsA fsB : List (String × List String)) (nA nB depth : Nat) (pA pB : String)
    (dataA dataB : GrotopData) (cur : Option Nat) (sec : String)
    (hrel : sameTables dataA dataB) (hdef : is_defined dataA X = true)
    (hm1 : secAt sec u2 ≠ "moleculetype")
    (hm2 : secAt sec (u2 ++ u3) ≠ "moleculetype")
    (hmt : sec ≠ "moleculetype")
    (hA : contS fsA nA depth pA dataA cur sec [] (iLine :: (u2 ++ (eLine :: u3))) ≠ .out)
    (hB : contS fsB nB depth pB dataB cur sec [] (u2 ++ u3) ≠ .out) :
    projP (contS fsA nA depth pA dataA cur sec [] (iLine :: (u2 ++ (eLine :: u3)))) =
      projP (contS fsB nB depth pB dataB cur sec [] (u2 ++ u3)) := by
  have hdir : isDirective iLine = true := parse_ifdef_directive iLine (X, false) hi
  have hAeq : contS fsA nA depth pA dataA cur sec [] (iLine :: (u2 ++ (eLine :: u3))) =
      parseLoopF fsA nA depth pA dataA cur sec [] (iLine :: (u2 ++ (eLine :: u3))) := by
    unfold contS
    rw [process_section_stop sec dataA cur (iLine :: (u2 ++ (eLine :: u3)))
      (by intro α step a9; exact scanSection_cons_dir step iLine _ a9 hdir) hmt]
  rw [hAeq] at hA ⊢
  cases nA with
  | zero => exact absurd rfl hA
  | succ a =>
  rw [parseLoopF_step_ifdef fsA a depth pA dataA cur sec [] iLine
    (u2 ++ (eLine :: u3)) X hi (by decide)] at hA ⊢
  rw [hdef] at hA ⊢
  by_cases hse : sec = ""
  · rw [if_pos hse] at hA ⊢
    subst hse
    rw [contS_inert fsB nB depth pB dataB cur ("") [] (u2 ++ u3)
      (procInert_unknown ("") dataB.moltypes cur (by decide) (by decide) (by decide)
        (by decide) (by decide) (by decide) (by decide) (by decide) (by decide))]
      at hB ⊢
    exact run3_L u2 u3 eLine he hnd2 hnd3 fsA fsB a nB depth pA pB dataA dataB cur
      ("") hrel hm1 hm2 (Or.inl rfl) hA hB
  · rw [if_neg hse] at hA ⊢
    exact run3_S u2 u3 eLine he hnd2 hnd3 fsA fsB a nB depth pA pB dataA dataB cur
      sec hrel hm1 hm2 hA hB

end Grotop

namespace Grotop

/-- The stretch from the `#define` marker to the `#ifdef` marker, loop-top
mode: the symbol is defined in the first run's state throughout. -/
theorem run2_L (u1 u2 u3 : List String) (iLine eLine : String) (X : String)
    (hi : parse_ifdef iLine = some (X, false))
    (he : isEndifDirective eLine = true)
    (hnd1 : ∀ l ∈ u1, isDirective l = false)
    (hnd2 : ∀ l ∈ u2, isDirective l = false)
    (hnd3 : ∀ l ∈ u3, isDirective l = false)
    (fsA fsB : List (String × List String)) (nA nB depth : Nat) (pA pB : String)
    (dataA dataB : GrotopData) (cur : Option Nat) (sec : String)
    (hrel : sameTables dataA dataB) (hdef : is_defined dataA X = true)
    (hm1 : secAt sec u1 ≠ "moleculetype")
    (hm2 : secAt sec (u1 ++ u2) ≠ "moleculetype")
    (hm3 : secAt sec (u1 ++ (u2 ++ u3)) ≠ "moleculetype")
    (hL : sec = "" ∨ procInert sec dataA.moltypes cur)
    (hA : parseLoopF fsA nA depth pA dataA cur sec []
      (u1 ++ (iLine :: (u2 ++ (eLine :: u3)))) ≠ .out)
    (hB : parseLoopF fsB nB depth pB dataB cur sec [] (u1 ++ (u2 ++ u3)) ≠ .out) :
    projP (parseLoopF fsA nA depth pA dataA cur sec []
        (u1 ++ (iLine :: (u2 ++ (eLine :: u3))))) =
      projP (parseLoopF fsB nB depth pB dataB cur sec [] (u1 ++ (u2 ++ u3))) := by
  refine (master_generic (fun d => is_defined d X = true)
      (fun a9 b9 ha9 hd9 => by
        show is_defined b9 X = true
        have ha8 : is_defined a9 X = true := ha9
        unfold is_defined at ha8 ⊢
        rw [← hd9]
        exact ha8)
      (iLine :: (u2 ++ (eLine :: u3))) (u2 ++ u3) [] rfl
      (fun s => secAt s u2 ≠ "moleculetype" ∧ secAt s (u2 ++ u3) ≠ "moleculetype")
      (fun fs2 fs3 n2 n3 d2 p2 p3 da2 db2 cu2 se2 hrel2 hm9 hL2 hA2 hB2 =>
        phase2_L u2 u3 iLine eLine X hi he hnd2 hnd3 fs2 fs3 n2 n3 d2 p2 p3 da2 db2
          cu2 se2 hrel2.1 hrel2.2 hm9.1 hm9.2 hL2 hA2 hB2)
      (fun fs2 fs3 n2 n3 d2 p2 p3 da2 db2 cu2 se2 hrel2 hm9 hmt2 hA2 hB2 =>
        phase2_S u2 u3 iLine eLine X hi he hnd2 hnd3 fs2 fs3 n2 n3 d2 p2 p3 da2 db2
          cu2 se2 hrel2.1 hrel2.2 hm9.1 hm9.2 hmt2 hA2 hB2)
      (2 * u1.length)).1 u1 fsA fsB nA nB depth pA pB dataA dataB cur sec rfl hnd1
      ⟨hrel, hdef⟩ hm1 ?_ ?_ hA hB
  · refine ⟨?_, ?_⟩
    · show secAt (secAt sec u1) u2 ≠ "moleculetype"
      rw [← secAt_append]
      exact hm2
    · show secAt (secAt sec u1) (u2 ++ u3) ≠ "moleculetype"
      rw [← secAt_append]
      exact hm3
  · rcases hL with h | h
    · exact Or.inr (Or.inl h)
    · exact Or.inr (Or.inr (Or.inr h))

/-- The stretch from the `#define` marker to the `#ifdef` marker, in-scan
mode. -/
theorem run2_S (u1 u2 u3 : List String) (iLine eLine : String) (X : String)
    (hi : parse_ifdef iLine = some (X, false))
    (he : isEndifDirective eLine = true)
    (hnd1 : ∀ l ∈ u1, isDirective l = false)
    (hnd2 : ∀ l ∈ u2, isDirective l = false)
    (hnd3 : ∀ l ∈ u3, isDirective l = false)
    (fsA fsB : List (String × List String)) (nA nB depth : Nat) (pA pB : String)
    (dataA dataB : GrotopData) (cur : Option Nat) (sec : String)
    (hrel : sameTables dataA dataB) (hdef : is_defined dataA X = true)
    (hm1 : secAt sec u1 ≠ "moleculetype")
    (hm2 : secAt sec (u1 ++ u2) ≠ "moleculetype")
    (hm3 : secAt sec (u1 ++ (u2 ++ u3)) ≠ "moleculetype")
    (hA : contS fsA nA depth pA dataA cur sec []
      (u1 ++ (iLine :: (u2 ++ (eLine :: u3)))) ≠ .out)
    (hB : contS fsB nB depth pB dataB cur sec [] (u1 ++ (u2 ++ u3)) ≠ .out) :
    projP (contS fsA nA depth pA dataA cur sec []
        (u1 ++ (iLine :: (u2 ++ (eLine :: u3))))) =
      projP (contS fsB nB depth pB dataB cur sec [] (u1 ++ (u2 ++ u3))) := by
  refine (master_generic (fun d => is_defined d X = true)
      (fun a9 b9 ha9 hd9 => by
        show is_defined b9 X = true
        have ha8 : is_defined a9 X = true := ha9
        unfold is_defined at ha8 ⊢
        rw [← hd9]
        exact ha8)
      (iLine :: (u2 ++ (eLine :: u3))) (u2 ++ u3) [] rfl
      (fun s => secAt s u2 ≠ "moleculetype" ∧ secAt s (u2 ++ u3) ≠ "moleculetype")
      (fun fs2 fs3 n2 n3 d2 p2 p3 da2 db2 cu2 se2 hrel2 hm9 hL2 hA2 hB2 =>
        phase2_L u2 u3 iLine eLine X hi he hnd2 hnd3 fs2 fs3 n2 n3 d2 p2 p3 da2 db2
          cu2 se2 hrel2.1 hrel2.2 hm9.1 hm9.2 hL2 hA2 hB2)
      (fun fs2 fs3 n2 n3 d2 p2 p3 da2 db2 cu2 se2 hrel2 hm9 hmt2 hA2 hB2 =>
        phase2_S u2 u3 iLine eLine X hi he hnd2 hnd3 fs2 fs3 n2 n3 d2 p2 p3 da2 db2
          cu2 se2 hrel2.1 hrel2.2 hm9.1 hm9.2 hmt2 hA2 hB2)
      (2 * u1.length + 1)).2 u1 fsA fsB nA nB depth pA pB dataA dataB cur sec rfl hnd1
      ⟨hrel, hdef⟩ hm1 ?_ hA hB
  · refine ⟨?_, ?_⟩
    · show secAt (secAt sec u1) u2 ≠ "moleculetype"
      rw [← secAt_append]
      exact hm2
    · show secAt (secAt sec u1) (u2 ++ u3) ≠ "moleculetype"
      rw [← secAt_append]
      exact hm3

/-- The `#define X` marker reached at loop top: the first run adds `X` to
its define set (capacity permitting) and both runs continue. -/
theorem phase1_L (u1 u2 u3 : List String) (dLine iLine eLine : String) (X : String)
    (hd : parse_define dLine = some X)
    (hi : parse_ifdef iLine = some (X, false))
    (he : isEndifDirective eLine = true)
    (hnd1 : ∀ l ∈ u1, isDirective l = false)
    (hnd2 : ∀ l ∈ u2, isDirective l = false)
    (hnd3 : ∀ l ∈ u3, isDirective l = false)
    (fsA fsB : List (String × List String)) (nA nB depth : Nat) (pA pB : String)
    (dataA dataB : GrotopData) (cur : Option Nat) (sec : String)
    (hrel : sameTables dataA dataB) (hcap : dataA.defines.length < MAX_DEFINES)
    (hm1 : secAt sec u1 ≠ "moleculetype")
    (hm2 : secAt sec (u1 ++ u2) ≠ "moleculetype")
    (hm3 : secAt sec (u1 ++ (u2 ++ u3)) ≠ "moleculetype")
    (hL : sec = "" ∨ procInert sec dataA.moltypes cur)
    (hA : parseLoopF fsA nA depth pA dataA cur sec []
      (dLine :: (u1 ++ (iLine :: (u2 ++ (eLine :: u3))))) ≠ .out)
    (hB : parseLoopF fsB nB depth pB dataB cur sec [] (u1 ++ (u2 ++ u3)) ≠ .out) :
    projP (parseLoopF fsA nA depth pA dataA cur sec []
        (dLine :: (u1 ++ (iLine :: (u2 ++ (eLine :: u3)))))) =
      projP (parseLoopF fsB nB depth pB dataB cur sec [] (u1 ++ (u2 ++ u3))) := by
  cases nA with
  | zero => exact absurd rfl hA
  | succ a =>
  rw [parseLoopF_step_define fsA a depth pA dataA cur sec [] dLine
    (u1 ++ (iLine :: (u2 ++ (eLine :: u3)))) X hd] at hA ⊢
  by_cases hse : sec = ""
  · rw [if_pos hse] at hA ⊢
    exact run2_L u1 u2 u3 iLine eLine X hi he hnd1 hnd2 hnd3 fsA fsB a nB depth pA pB
      (add_define dataA X) dataB cur sec
      (add_define_rel (fun _ => True) X dataA dataB hrel)
      (add_define_defined dataA X hcap) hm1 hm2 hm3 (Or.inl hse) hA hB
  · rw [if_neg hse] at hA ⊢
    rcases hL with h | hpi
    · exact absurd h hse
    have hpi2 : procInert sec (add_define dataA X).moltypes cur := by
      rw [(add_define_tables dataA X).1]
      exact hpi
    rw [contS_inert fsA a depth pA (add_define dataA X) cur sec []
      (u1 ++ (iLine :: (u2 ++ (eLine :: u3)))) hpi2] at hA ⊢
    exact run2_L u1 u2 u3 iLine eLine X hi he hnd1 hnd2 hnd3 fsA fsB a nB depth pA pB
      (add_define dataA X) dataB cur sec
      (add_define_rel (fun _ => True) X dataA dataB hrel)
      (add_define_defined dataA X hcap) hm1 hm2 hm3 (Or.inr hpi2) hA hB

/-- The `#define X` marker reached inside a record scan. -/
theorem phase1_S (u1 u2 u3 : List String) (dLine iLine eLine : String) (X : String)
    (hd : parse_define dLine = some X)
    (hi : parse_ifdef iLine = some (X, false))
    (he : isEndifDirective eLine = true)
    (hnd1 : ∀ l ∈ u1, isDirective l = false)
    (hnd2 : ∀ l ∈ u2, isDirective l = false)
    (hnd3 : ∀ l ∈ u3, isDirective l = false)
    (fsA fsB : List (String × List String)) (nA nB depth : Nat) (pA pB : String)
    (dataA dataB : GrotopData) (cur : Option Nat) (sec : String)
    (hrel : sameTables dataA dataB) (hcap : dataA.defines.length < MAX_DEFINES)
    (hm1 : secAt sec u1 ≠ "moleculetype")
    (hm2 : secAt sec (u1 ++ u2) ≠ "moleculetype")
    (hm3 : secAt sec (u1 ++ (u2 ++ u3)) ≠ "moleculetype")
    (hmt : sec ≠ "moleculetype")
    (hA : contS fsA nA depth pA dataA cur sec []
      (dLine :: (u1 ++ (iLine :: (u2 ++ (eLine :: u3))))) ≠ .out)
    (hB : contS fsB nB depth pB dataB cur sec [] (u1 ++ (u2 ++ u3)) ≠ .out) :
    projP (contS fsA nA depth pA dataA cur sec []
        (dLine :: (u1 ++ (iLine :: (u2 ++ (eLine :: u3)))))) =
      projP (contS fsB nB depth pB dataB cur sec [] (u1 ++ (u2 ++ u3))) := by
  have hdir : isDirective dLine = true := parse_define_directive dLine X hd
  have hAeq : contS fsA nA depth pA dataA cur sec []
      (dLine :: (u1 ++ (iLine :: (u2 ++ (eLine :: u3))))) =
      parseLoopF fsA nA depth pA dataA cur sec []
        (dLine :: (u1 ++ (iLine :: (u2 ++ (eLine :: u3))))) := by
    unfold contS
    rw [process_section_stop sec dataA cur
      (dLine :: (u1 ++ (iLine :: (u2 ++ (eLine :: u3)))))
      (by intro α step a9; exact scanSection_cons_dir step dLine _ a9 hdir) hmt]
  rw [hAeq] at hA ⊢
  cases nA with
  | zero => exact absurd rfl hA
  | succ a =>
  rw [parseLoopF_step_define fsA a depth pA dataA cur sec [] dLine
    (u1 ++ (iLine :: (u2 ++ (eLine :: u3)))) X hd] at hA ⊢
  by_cases hse : sec = ""
  · rw [if_pos hse] at hA ⊢
    subst hse
    rw [contS_inert fsB nB depth pB dataB cur ("") [] (u1 ++ (u2 ++ u3))
      (procInert_unknown ("") dataB.moltypes cur (by decide) (by decide) (by decide)
        (by decide) (by decide) (by decide) (by decide) (by decide) (by decide))]
      at hB ⊢
    exact run2_L u1 u2 u3 iLine eLine X hi he hnd1 hnd2 hnd3 fsA fsB a nB depth pA pB
      (add_define dataA X) dataB cur ("")
      (add_define_rel (fun _ => True) X dataA dataB hrel)
      (add_define_defined dataA X hcap) hm1 hm2 hm3 (Or.inl rfl) hA hB
  · rw [if_neg hse] at hA ⊢
    exact run2_S u1 u2 u3 iLine eLine X hi he hnd1 hnd2 hnd3 fsA fsB a nB depth pA pB
      (add_define dataA X) dataB cur sec
      (add_define_rel (fun _ => True) X dataA dataB hrel)
      (add_define_defined dataA X hcap) hm1 hm2 hm3 hA hB

end Grotop

namespace Grotop

theorem lookupFile_single (p : String) (ls : List String) :
    lookupFile [(p, ls)] p = some ls := by
  unfold lookupFile
  rw [List.find?_cons_of_pos _ (by simp)]

theorem sumLen_single (p : String) (ls : List String) :
    ls.length ≤ sumLen [(p, ls)] := by
  simp [sumLen]

/-- `parse_topology_file` on a one-file filesystem is the main loop on that
file's lines, on the adequate fuel budget. -/
theorem parse_topology_single (p : String) (ls : List String) :
    parse_topology_file [(p, ls)] p emptyData 0 =
      match parseLoopF [(p, ls)] (adequateFuel [(p, ls)] 0 ls.length) 0 p emptyData
          none "" [] ls with
      | .out => none
      | .fatal => none
      | .ok d _ _ _ => some d := by
  unfold parse_topology_file
  rw [if_neg (by decide), lookupFile_single p ls]

/-- Equal observable projections of two non-out runs give equal
`parse_topology_file`-shaped results. -/
theorem projP_to_map (fsA fsB : List (String × List String)) (lsA lsB : List String)
    (p : String) (nA nB : Nat)
    (hA : parseLoopF fsA nA 0 p emptyData none "" [] lsA ≠ .out)
    (hB : parseLoopF fsB nB 0 p emptyData none "" [] lsB ≠ .out)
    (hproj : projP (parseLoopF fsA nA 0 p emptyData none "" [] lsA) =
      projP (parseLoopF fsB nB 0 p emptyData none "" [] lsB)) :
    (match parseLoopF fsA nA 0 p emptyData none "" [] lsA with
      | .out => none
      | .fatal => none
      | .ok d _ _ _ => some d).map
        (fun d : GrotopData => (d.moltypes, d.atomtypes, d.molecules)) =
      (match parseLoopF fsB nB 0 p emptyData none "" [] lsB with
      | .out => none
      | .fatal => none
      | .ok d _ _ _ => some d).map
        (fun d : GrotopData => (d.moltypes, d.atomtypes, d.molecules)) := by
  cases hra : parseLoopF fsA nA 0 p emptyData none "" [] lsA with
  | out => exact absurd hra hA
  | fatal =>
    rw [hra] at hproj
    cases hrb : parseLoopF fsB nB 0 p emptyData none "" [] lsB with
    | out => exact absurd hrb hB
    | fatal => rfl
    | ok d c s k =>
      rw [hrb] at hproj
      exact absurd hproj (by simp [projP])
  | ok d c s k =>
    rw [hra] at hproj
    cases hrb : parseLoopF fsB nB 0 p emptyData none "" [] lsB with
    | out => exact absurd hrb hB
    | fatal =>
      rw [hrb] at hproj
      exact absurd hproj (by simp [projP])
    | ok d2 c2 s2 k2 =>
      rw [hrb] at hproj
      simp only [projP, Option.some.injEq, Prod.mk.injEq] at hproj
      obtain ⟨h1, h2, h3⟩ := hproj
      simp [h1, h2, h3]

/-- C2 (amended): deleting a `#define X` line together with a matching
`#ifdef X` ... `#endif` pair, keeping the enclosed body lines, leaves the
parsed molecule types, atom types and roster unchanged, provided the three
directives sit in the same file, the surrounding lines are not themselves
directives, and the section in force at each of the three directives and at
end of file is not `moleculetype` (the original unconditional claim is
refuted by `define_pair_removal_changes_output`). -/
theorem define_pair_removal_noop
    (u0 u1 u2 u3 : List String) (dLine iLine eLine X p : String)
    (hnd0 : ∀ l ∈ u0, isDirective l = false)
    (hnd1 : ∀ l ∈ u1, isDirective l = false)
    (hnd2 : ∀ l ∈ u2, isDirective l = false)
    (hnd3 : ∀ l ∈ u3, isDirective l = false)
    (hd : parse_define dLine = some X)
    (hi : parse_ifdef iLine = some (X, false))
    (he : isEndifDirective eLine = true)
    (hs0 : secAt "" u0 ≠ "moleculetype")
    (hs1 : secAt "" (u0 ++ u1) ≠ "moleculetype")
    (hs2 : secAt "" (u0 ++ (u1 ++ u2)) ≠ "moleculetype")
    (hs3 : secAt "" (u0 ++ (u1 ++ (u2 ++ u3))) ≠ "moleculetype") :
    (parse_topology_file
        [(p, u0 ++ (dLine :: (u1 ++ (iLine :: (u2 ++ (eLine :: u3))))))] p
        emptyData 0).map (fun d => (d.moltypes, d.atomtypes, d.molecules)) =
      (parse_topology_file [(p, u0 ++ (u1 ++ (u2 ++ u3)))] p emptyData 0).map
        (fun d => (d.moltypes, d.atomtypes, d.molecules)) := by
  have hA0 := parseLoopF_adequate
    [(p, u0 ++ (dLine :: (u1 ++ (iLine :: (u2 ++ (eLine :: u3))))))]
    (adequateFuel [(p, u0 ++ (dLine :: (u1 ++ (iLine :: (u2 ++ (eLine :: u3))))))] 0
      (u0 ++ (dLine :: (u1 ++ (iLine :: (u2 ++ (eLine :: u3)))))).length)
    0 p emptyData none "" [] (u0 ++ (dLine :: (u1 ++ (iLine :: (u2 ++ (eLine :: u3))))))
    (sumLen_single p _) (Nat.le_refl _)
  have hB0 := parseLoopF_adequate [(p, u0 ++ (u1 ++ (u2 ++ u3)))]
    (adequateFuel [(p, u0 ++ (u1 ++ (u2 ++ u3)))] 0 (u0 ++ (u1 ++ (u2 ++ u3))).length)
    0 p emptyData none "" [] (u0 ++ (u1 ++ (u2 ++ u3)))
    (sumLen_single p _) (Nat.le_refl _)
  have hproj := (master_generic (fun d => d.defines.length < MAX_DEFINES)
      (fun a9 b9 ha9 hd9 => by
        show b9.defines.length < MAX_DEFINES
        rw [← hd9]
        exact ha9)
      (dLine :: (u1 ++ (iLine :: (u2 ++ (eLine :: u3))))) (u1 ++ (u2 ++ u3)) [] rfl
      (fun s => secAt s u1 ≠ "moleculetype" ∧ secAt s (u1 ++ u2) ≠ "moleculetype" ∧
        secAt s (u1 ++ (u2 ++ u3)) ≠ "moleculetype")
      (fun fs2 fs3 n2 n3 d2 p2 p3 da2 db2 cu2 se2 hrel2 hm9 hL2 hA2 hB2 =>
        phase1_L u1 u2 u3 dLine iLine eLine X hd hi he hnd1 hnd2 hnd3 fs2 fs3 n2 n3
          d2 p2 p3 da2 db2 cu2 se2 hrel2.1 hrel2.2 hm9.1 hm9.2.1 hm9.2.2 hL2 hA2 hB2)
      (fun fs2 fs3 n2 n3 d2 p2 p3 da2 db2 cu2 se2 hrel2 hm9 hmt2 hA2 hB2 =>
        phase1_S u1 u2 u3 dLine iLine eLine X hd hi he hnd1 hnd2 hnd3 fs2 fs3 n2 n3
          d2 p2 p3 da2 db2 cu2 se2 hrel2.1 hrel2.2 hm9.1 hm9.2.1 hm9.2.2 hmt2 hA2 hB2)
      (2 * u0.length)).1 u0
      [(p, u0 ++ (dLine :: (u1 ++ (iLine :: (u2 ++ (eLine :: u3))))))]
      [(p, u0 ++ (u1 ++ (u2 ++ u3)))]
      (adequateFuel [(p, u0 ++ (dLine :: (u1 ++ (iLine :: (u2 ++ (eLine :: u3))))))] 0
        (u0 ++ (dLine :: (u1 ++ (iLine :: (u2 ++ (eLine :: u3)))))).length)
      (adequateFuel [(p, u0 ++ (u1 ++ (u2 ++ u3)))] 0 (u0 ++ (u1 ++ (u2 ++ u3))).length)
      0 p p emptyData emptyData none "" rfl hnd0 ⟨⟨rfl, rfl, rfl⟩, by decide⟩ hs0
      ⟨by show secAt (secAt "" u0) u1 ≠ "moleculetype"
          rw [← secAt_append]
          exact hs1,
        by show secAt (secAt "" u0) (u1 ++ u2) ≠ "moleculetype"
           rw [← secAt_append]
           exact hs2,
        by show secAt (secAt "" u0) (u1 ++ (u2 ++ u3)) ≠ "moleculetype"
           rw [← secAt_append]
           exact hs3⟩
      (Or.inr (Or.inl rfl)) hA0 hB0
  rw [parse_topology_single p (u0 ++ (dLine :: (u1 ++ (iLine :: (u2 ++ (eLine :: u3)))))),
    parse_topology_single p (u0 ++ (u1 ++ (u2 ++ u3)))]
  exact projP_to_map
    [(p, u0 ++ (dLine :: (u1 ++ (iLine :: (u2 ++ (eLine :: u3))))))]
    [(p, u0 ++ (u1 ++ (u2 ++ u3)))]
    (u0 ++ (dLine :: (u1 ++ (iLine :: (u2 ++ (eLine :: u3))))))
    (u0 ++ (u1 ++ (u2 ++ u3))) p _ _ hA0 hB0 hproj

/-- Witness for the amended C2 theorem at a concrete input: the pair
`#define FLEXIBLE` / `#ifdef FLEXIBLE` ... `#endif` around an `[atomtypes]`
body is removed without changing the parsed tables. -/
theorem define_pair_removal_noop_witness :
    parse_define ("#define FLEXIBLE") = some ("FLEXIBLE") ∧
    (parse_topology_file
        [("a.top", ["#define FLEXIBLE", "[atomtypes]", "#ifdef FLEXIBLE",
          "CX 12.011 0.0 A 0.1 0.2", "#endif"])] ("a.top") emptyData 0).map
        (fun d => (d.moltypes, d.atomtypes, d.molecules)) =
      (parse_topology_file
        [("a.top", ["[atomtypes]", "CX 12.011 0.0 A 0.1 0.2"])] ("a.top")
        emptyData 0).map (fun d => (d.moltypes, d.atomtypes, d.molecules)) :=
  ⟨by decide,
    define_pair_removal_noop [] ["[atomtypes]"] ["CX 12.011 0.0 A 0.1 0.2"] []
      ("#define FLEXIBLE") ("#ifdef FLEXIBLE") ("#endif") ("FLEXIBLE") ("a.top")
      (by simp) (by decide) (by decide) (by simp) (by decide) (by decide) (by decide)
      (by decide) (by decide) (by decide) (by decide)⟩

end Grotop
